import Mathlib

/-!
Verification of the resumable, deadlock-free communicator of
`src/communicate.rs` (rust-subprocess).

The development shallowly embeds both platform backends:

* the worker/message backend (`#[cfg(windows)] mod os`): helper threads push
  `(StreamIdent, Payload)` messages through a rendezvous channel; the consumer
  loop of `Communicator::read` (with its `grow_result` closure and the
  `leftover` stash) is embedded as a pure function over the list of messages
  that the channel will deliver, in arrival order.  A deadline is abstracted as
  the number of receives that succeed before the deadline expires.

* the readiness-multiplexing backend (`#[cfg(unix)] mod os`): `read_into` is
  embedded as a fuel-indexed loop parameterised by an environment `PEnv W`
  providing the OS primitives (`poll`, pipe `write`, pipe `read`).  The
  primitives themselves live in `crate::posix`, which is not part of the
  sources under verification, so they are spec-modelled: an absent descriptor
  is never reported ready, a read returns at most the requested number of
  bytes, a write accepts at most the offered chunk.  Two instances are
  provided: an arbitrary oracle trace (for universally quantified statements)
  and a closed parent/child echo system with bounded pipes (for the
  deadlock-freedom theorem).
-/

namespace Subprocess

/-- Error kinds, abstracting `std::io::ErrorKind`. -/
inductive IOErrorKind where
  | timedOut
  | other (code : Nat)
deriving DecidableEq, Repr

/-! ## Worker/message backend (`#[cfg(windows)] mod os`) -/

namespace Worker

/-- `StreamIdent` from communicate.rs:193. -/
inductive StreamIdent where
  | sIn
  | sOut
  | sErr
deriving DecidableEq, Repr

/-- The `helper_set`/`requested_streams` bitmasks of the windows
`Communicator`, represented as one boolean per stream. -/

structure StreamSet where
  hasIn : Bool
  hasOut : Bool
  hasErr : Bool
deriving DecidableEq, Repr

namespace StreamSet

def empty : StreamSet := ⟨false, false, false⟩

def mem (s : StreamSet) : StreamIdent → Bool
  | .sIn => s.hasIn
  | .sOut => s.hasOut
  | .sErr => s.hasErr

/-- `helper_set &= !(ident as u8)` (communicate.rs:373). -/

def remove (s : StreamSet) : StreamIdent → StreamSet
  | .sIn => { s with hasIn := false }
  | .sOut => { s with hasOut := false }
  | .sErr => { s with hasErr := false }

/-- `helper_set != 0` negated. -/

def isEmpty (s : StreamSet) : Bool :=
  !s.hasIn && !s.hasOut && !s.hasErr

def subset (s t : StreamSet) : Prop :=
  (s.hasIn → t.hasIn) ∧ (s.hasOut → t.hasOut) ∧ (s.hasErr → t.hasErr)

end StreamSet

/-- `Payload` from communicate.rs:199. -/
inductive Payload where
  | data (chunk : List Nat)
  | eof
  | err (k : IOErrorKind)
deriving DecidableEq, Repr

/-- `Message` from communicate.rs:206. -/

abbrev Msg := StreamIdent × Payload

/-- Which runtime panic a run hit, distinguishing the three panicking spots of
the consumer: the `assert!(data.len() != 0)` at communicate.rs:377, the
`unreachable!()` for `StreamIdent::In` inside `grow_result`
(communicate.rs:353), and the `assert!` of `as_options`
(communicate.rs:317/322). -/

inductive PanicKind where
  | emptyData
  | inData
  | unrequested
deriving DecidableEq, Repr

/-- Outcome of one `Communicator::read` call on the worker backend.  `stuck`
models a receive that blocks forever (channel empty with helper bits still
set, which with real worker threads cannot happen). -/

inductive WOutcome where
  | ok
  | ioerr (k : IOErrorKind)
  | panicked (p : PanicKind)
  | stuck
deriving DecidableEq, Repr

/-- Result of one step of the `grow_result` closure (communicate.rs:337-362):
`cont`/`stop` carry the updated vectors and leftover stash and correspond to
returning `true` resp. `false`. -/

inductive GrowRes where
  | cont (outvec errvec : List Nat) (leftover : Option (StreamIdent × List Nat))
  | stop (outvec errvec : List Nat) (leftover : Option (StreamIdent × List Nat))
  | panicked
deriving DecidableEq, Repr

/-- The `grow_result` closure of `Communicator::read`
(communicate.rs:337-362), translated verbatim: first the quota check and
truncation/stash, then dispatch on the stream ident, then the post-append
quota check. -/

def grow_result (size_limit : Option Nat) (ident : StreamIdent) (data : List Nat)
    (outvec errvec : List Nat) (leftover : Option (StreamIdent × List Nat)) : GrowRes :=
  match size_limit with
  | some lim =>
    let total_read := outvec.length + errvec.length
    if total_read ≥ lim then
      .stop outvec errvec leftover
    else
      let remaining := lim - total_read
      let (data', leftover') :=
        if data.length > remaining then
          (data.take remaining, some (ident, data.drop remaining))
        else
          (data, leftover)
      match ident with
      | .sOut =>
        let outvec' := outvec ++ data'
        if outvec'.length + errvec.length ≥ lim then .stop outvec' errvec leftover'
        else .cont outvec' errvec leftover'
      | .sErr =>
        let errvec' := errvec ++ data'
        if outvec.length + errvec'.length ≥ lim then .stop outvec errvec' leftover'
        else .cont outvec errvec' leftover'
      | .sIn => .panicked
  | none =>
    match ident with
    | .sOut => .cont (outvec ++ data) errvec leftover
    | .sErr => .cont outvec (errvec ++ data) leftover
    | .sIn => .panicked

/-- State of the windows `Communicator` (communicate.rs:238-243) together with
the sequence of messages the channel will deliver, in arrival order. -/

structure WState where
  msgs : List Msg
  helper_set : StreamSet
  requested : StreamSet
  leftover : Option (StreamIdent × List Nat)
deriving DecidableEq, Repr

/-- Result of the receive loop of `Communicator::read`: outcome, vectors, and
the surviving communicator fields. -/

structure LoopOut where
  outcome : WOutcome
  outvec : List Nat
  errvec : List Nat
  msgs : List Msg
  helper_set : StreamSet
  leftover : Option (StreamIdent × List Nat)
deriving DecidableEq, Repr

/-- The `while self.helper_set != 0` receive loop of `Communicator::read`
(communicate.rs:370-392).  `budget` abstracts the deadline: `some k` means the
next `k` receives complete before the deadline and the following one times
out; `none` means no deadline.  The channel is abstracted as the list of
messages it will deliver. -/

def wreadLoop (size_limit : Option Nat) :
    List Msg → Option Nat → StreamSet → Option (StreamIdent × List Nat) →
    List Nat → List Nat → LoopOut
  | msgs, budget, helpers, leftover, outvec, errvec =>
    if helpers.isEmpty then
      ⟨.ok, outvec, errvec, msgs, helpers, leftover⟩
    else
      match budget with
      | some 0 => ⟨.ioerr .timedOut, outvec, errvec, msgs, helpers, leftover⟩
      | _ =>
        match msgs with
        | [] => ⟨.stuck, outvec, errvec, [], helpers, leftover⟩
        | (ident, payload) :: rest =>
          let budget' := budget.map (· - 1)
          match payload with
          | .eof =>
            wreadLoop size_limit rest budget' (helpers.remove ident) leftover outvec errvec
          | .err k => ⟨.ioerr k, outvec, errvec, rest, helpers, leftover⟩
          | .data d =>
            if d.length = 0 then
              ⟨.panicked .emptyData, outvec, errvec, rest, helpers, leftover⟩
            else
              match grow_result size_limit ident d outvec errvec leftover with
              | .panicked => ⟨.panicked .inData, outvec, errvec, rest, helpers, leftover⟩
              | .stop o e l => ⟨.ok, o, e, rest, helpers, l⟩
              | .cont o e l => wreadLoop size_limit rest budget' helpers l o e

/-- `Communicator::as_options` (communicate.rs:308-325); `none` is the
`assert!` panic for a non-requested stream with captured bytes. -/

def as_options (requested : StreamSet) (outvec errvec : List Nat) :
    Option (Option (List Nat) × Option (List Nat)) :=
  if requested.hasOut then
    if requested.hasErr then some (some outvec, some errvec)
    else if errvec.length = 0 then some (some outvec, none) else none
  else if outvec.length = 0 then
    if requested.hasErr then some (none, some errvec)
    else if errvec.length = 0 then some (none, none) else none
  else none

/-- Result of one worker-backend `read` call. -/

structure WReadResult where
  outcome : WOutcome
  stdout : Option (List Nat)
  stderr : Option (List Nat)
  state : WState
deriving DecidableEq, Repr

/-- Package the loop exit through `as_options`, mirroring the return sites of
`Communicator::read`. -/

def finishRead (requested : StreamSet) (r : LoopOut) : WReadResult :=
  let s' : WState := ⟨r.msgs, r.helper_set, requested, r.leftover⟩
  match as_options requested r.outvec r.errvec with
  | none => ⟨.panicked .unrequested, none, none, s'⟩
  | some (o, e) => ⟨r.outcome, o, e, s'⟩

/-- `Communicator::read` on the worker backend (communicate.rs:327-395):
replay the stashed leftover through `grow_result`, then run the receive
loop. -/

def wread (deadline size_limit : Option Nat) (s : WState) : WReadResult :=
  match s.leftover with
  | some (ident, d) =>
    match grow_result size_limit ident d [] [] none with
    | .panicked =>
      ⟨.panicked .inData, none, none, { s with leftover := none }⟩
    | .stop o e l =>
      finishRead s.requested ⟨.ok, o, e, s.msgs, s.helper_set, l⟩
    | .cont o e l =>
      finishRead s.requested (wreadLoop size_limit s.msgs deadline s.helper_set l o e)
  | none =>
    finishRead s.requested (wreadLoop size_limit s.msgs deadline s.helper_set none [] [])

/-- One result of `outfile.read(&mut chunk)` inside `read_and_transmit`
(communicate.rs:214): `ok chunk` is `Ok(nread)` together with the bytes read
(an empty chunk is `Ok(0)`, end of file), `err e` is `Err(e)`. -/

inductive ReadStep where
  | ok (chunk : List Nat)
  | err (e : IOErrorKind)
deriving DecidableEq, Repr

/-- The worker-thread loop `read_and_transmit` (communicate.rs:208-231) over
the successive results of `outfile.read`, returning the messages it sends to
the channel, in order: `Ok(0)` sends EOF and stops, `Ok(nread)` sends the
chunk read as a Data message and continues, `Err(e)` sends the error and
stops. -/

def read_and_transmit (ident : StreamIdent) : List ReadStep → List Msg
  | [] => []
  | .ok chunk :: rest =>
    if chunk.length = 0 then [(ident, .eof)]
    else (ident, .data chunk) :: read_and_transmit ident rest
  | .err e :: _ => [(ident, .err e)]

/-- Every Data message in `msgs` carries a non-empty chunk: the property the
consumer's `assert!(data.len() != 0)` (communicate.rs:377) relies on. -/

def msgsDataNonempty (msgs : List Msg) : Bool :=
  msgs.all fun m =>
    match m.2 with
    | .data d => decide (d.length ≠ 0)
    | _ => true

def msgsWF (allowErr : Bool) (req : StreamSet) : StreamSet → List Msg → Bool
  | act, [] => act.isEmpty
  | act, (i, p) :: rest =>
    act.mem i &&
      (match p with
       | .data d => decide (d.length ≠ 0) && decide (i ≠ .sIn) && req.mem i &&
           msgsWF allowErr req act rest
       | .eof => msgsWF allowErr req (act.remove i) rest
       | .err _ => allowErr && msgsWF allowErr req (act.remove i) rest)

/-- A stashed leftover always comes from a truncated `Data` chunk, hence is
non-empty, from a requested output stream. -/

def leftoverWF (req : StreamSet) : Option (StreamIdent × List Nat) → Bool
  | none => true
  | some (i, d) => decide (d.length ≠ 0) && decide (i ≠ .sIn) && req.mem i

def Clean (allowErr : Bool) (s : WState) : Bool :=
  msgsWF allowErr s.requested s.helper_set s.msgs && leftoverWF s.requested s.leftover

/-- All bytes for stream `i` still carried by a message list. -/

def msgsData (i : StreamIdent) : List Msg → List Nat
  | [] => []
  | (j, .data d) :: rest => (if j = i then d else []) ++ msgsData i rest
  | _ :: rest => msgsData i rest

/-- Bytes for stream `i` held in the leftover stash. -/

def leftoverData (i : StreamIdent) : Option (StreamIdent × List Nat) → List Nat
  | none => []
  | some (j, d) => if j = i then d else []

/-- Bytes for stream `i` not yet handed to the caller: stash first (it is
replayed first), then the channel content. -/

def remData (i : StreamIdent) (s : WState) : List Nat :=
  leftoverData i s.leftover ++ msgsData i s.msgs

/-- Everything one loop run guarantees: no panic, no blocked receive,
per-stream byte conservation, the quota bound, well-formedness of the stash,
monotonicity of the active set, well-formedness of the surviving channel
content, progress, and (without a deadline, in error-free runs) normal
completion. -/
def LoopSpec (allowErr : Bool) (lim : Option Nat) (req : StreamSet)
    (msgs : List Msg) (budget : Option Nat) (helpers : StreamSet)
    (outvec errvec : List Nat) (r : LoopOut) : Prop :=
  (∀ p, r.outcome ≠ .panicked p) ∧
  r.outcome ≠ .stuck ∧
  (∃ δo δe, r.outvec = outvec ++ δo ∧ r.errvec = errvec ++ δe ∧
    δo ++ (leftoverData .sOut r.leftover ++ msgsData .sOut r.msgs) = msgsData .sOut msgs ∧
    δe ++ (leftoverData .sErr r.leftover ++ msgsData .sErr r.msgs) = msgsData .sErr msgs) ∧
  (∀ q, lim = some q → r.outvec.length + r.errvec.length ≤ q) ∧
  leftoverWF req r.leftover = true ∧
  r.helper_set.subset helpers ∧
  (r.outcome = .ok → msgsWF allowErr req r.helper_set r.msgs = true) ∧
  (allowErr = false → msgsWF allowErr req r.helper_set r.msgs = true) ∧
  r.msgs.length ≤ msgs.length ∧
  (helpers.isEmpty = false → budget ≠ some 0 → r.msgs.length < msgs.length) ∧
  (budget = none → allowErr = false → r.outcome = .ok) ∧
  (allowErr = false → r.outcome = .ok ∨ r.outcome = .ioerr .timedOut) ∧
  (budget = none → lim = none → allowErr = false →
    r.helper_set.isEmpty = true ∧ r.leftover = none)

/-- Bytes not yet delivered plus pending messages: the termination measure for
repeated `read` calls. -/
def wMeasure (s : WState) : Nat :=
  (remData .sOut s).length + (remData .sErr s).length + s.msgs.length

/-- The communicator has delivered everything: every helper announced its
exit and no stash is pending. -/

def ReadDone (s : WState) : Prop :=
  s.helper_set.isEmpty = true ∧ s.leftover = none

/-- Decidable version of `ReadDone`. -/
def readDone (s : WState) : Bool :=
  s.helper_set.isEmpty && s.leftover.isNone

/-- Call `read` repeatedly with the same size limit and no deadline until all
streams have finished and no stash is pending, concatenating the captured
bytes per stream.  Returns `none` when the fuel runs out or a call fails. -/
def readAllGo (lim : Option Nat) : Nat → WState → Option (List Nat × List Nat × WState)
  | 0, _ => none
  | fuel + 1, s =>
    if readDone s then some ([], [], s)
    else if (wread none lim s).outcome = .ok then
      match readAllGo lim fuel (wread none lim s).state with
      | none => none
      | some (co, ce, sf) =>
        some ((wread none lim s).stdout.getD [] ++ co,
              (wread none lim s).stderr.getD [] ++ ce, sf)
    else none

end Worker

/-! ## Facade `Communicator` (communicate.rs:399-495), over the worker
backend state. -/
/-- Facade `Communicator` (communicate.rs:407-411). -/
structure FCommunicator where
  inner : Worker.WState
  size_limit : Option Nat
  time_limit : Option Nat
deriving Repr

/-- `CommunicateError` (communicate.rs:502-507): the underlying error together
with the data captured before it. -/

structure CommunicateError where
  error : IOErrorKind
  capture : Option (List Nat) × Option (List Nat)
deriving Repr

/-- `CommunicateError::kind` (communicate.rs:511-513). -/

def CommunicateError.kind (e : CommunicateError) : IOErrorKind := e.error

/-- Facade `Communicator::read` (communicate.rs:449-457): delegate to the
backend with the configured deadline and size limit, wrapping a failure into a
`CommunicateError` that carries the capture.  `none` stands for a run that
panics or blocks forever inside the backend. -/

def fread (c : FCommunicator) :
    Option ((Except CommunicateError (Option (List Nat) × Option (List Nat))) × FCommunicator) :=
  match (Worker.wread c.time_limit c.size_limit c.inner).outcome with
  | .ok =>
    some (.ok ((Worker.wread c.time_limit c.size_limit c.inner).stdout,
               (Worker.wread c.time_limit c.size_limit c.inner).stderr),
      { c with inner := (Worker.wread c.time_limit c.size_limit c.inner).state })
  | .ioerr k =>
    some (.error ⟨k, ((Worker.wread c.time_limit c.size_limit c.inner).stdout,
                      (Worker.wread c.time_limit c.size_limit c.inner).stderr)⟩,
      { c with inner := (Worker.wread c.time_limit c.size_limit c.inner).state })
  | .panicked _ => none
  | .stuck => none

/-- `Communicator::limit_size` (communicate.rs:461-464). -/

def limit_size (c : FCommunicator) (size : Nat) : FCommunicator :=
  { c with size_limit := some size }

/-- `Communicator::limit_time` (communicate.rs:468-471), with the duration
abstracted to a receive budget. -/

def limit_time (c : FCommunicator) (time : Nat) : FCommunicator :=
  { c with time_limit := some time }

/-- `os::Communicator::new` on the worker backend (communicate.rs:248-288):
the helper bitmask gets a bit per supplied handle, the requested bitmask only
the output streams; `msgs` abstracts what the spawned workers will send.
Supplying stdin without input data panics in the
`input_data.expect("must provide input to redirected stdin")` of the
`write_stdin` closure, modelled as `none`. -/

def os_new_worker (stdin stdout stderr : Bool) (input_data : Option (List Nat))
    (msgs : List Worker.Msg) : Option Worker.WState :=
  if stdin && input_data.isNone then none
  else some ⟨msgs, ⟨stdin, stdout, stderr⟩, ⟨false, stdout, stderr⟩, none⟩

/-- `communicate` (communicate.rs:478-495): the eager usage-contract check —
stdin with no input, or input with no stdin, panics before any construction;
otherwise the facade Communicator is built with no limits set. -/

def communicate (stdin stdout stderr : Bool) (input_data : Option (List Nat))
    (msgs : List Worker.Msg) : Option FCommunicator :=
  if stdin then
    if input_data.isSome then
      (os_new_worker stdin stdout stderr input_data msgs).map fun inner => ⟨inner, none, none⟩
    else none
  else
    if input_data.isSome then none
    else (os_new_worker stdin stdout stderr input_data msgs).map fun inner => ⟨inner, none, none⟩

/-! ## Readiness-multiplexing backend (`#[cfg(unix)] mod os`) -/

namespace Posix

/-- State of the unix `os::Communicator` (communicate.rs:55-62); owned handles
are tracked by presence. -/
structure PComm where
  stdin : Bool
  stdout : Bool
  stderr : Bool
  input_data : List Nat
  input_pos : Nat
deriving DecidableEq, Repr

/-- `os::Communicator::new` (communicate.rs:64-79):
`input_data.unwrap_or_else(Vec::new)` and a zero cursor. -/

def new (stdin stdout stderr : Bool) (input_data : Option (List Nat)) : PComm :=
  ⟨stdin, stdout, stderr, input_data.getD [], 0⟩

/-- Environment supplying the OS primitives used by `read_into`.  These live
in `crate::posix` and `std`, outside the verified sources.  Modelled from the
spec: `poll` reports which handles are ready; a pipe `write` accepts some part
of the offered chunk or fails; a pipe `read` into a buffer of the given size
returns at most that many bytes (zero meaning end of stream) or fails. -/

structure PEnv (W : Type) where
  poll : W → Bool → Bool → Bool → W × Bool × Bool × Bool
  write : W → List Nat → W × (Nat ⊕ IOErrorKind)
  readO : W → Nat → W × (List Nat ⊕ IOErrorKind)
  readE : W → Nat → W × (List Nat ⊕ IOErrorKind)

/-- Well-formedness of an environment: reads respect the buffer size, writes
accept no more bytes than offered. -/

def PEnv.Wf {W : Type} (env : PEnv W) : Prop :=
  (∀ w n c, (env.readO w n).2 = .inl c → c.length ≤ n) ∧
  (∀ w n c, (env.readE w n).2 = .inl c → c.length ≤ n) ∧
  (∀ w chunk n, (env.write w chunk).2 = .inl n → n ≤ chunk.length)

/-- `poll3` (communicate.rs:25-53).  Modelled from the spec: the readiness
descriptors pair an optional raw descriptor with an interest set, and a
`PollFd` built from `None` (absent handle) is never reported ready — hence the
conjunction with the presence flag. -/

def poll3 {W : Type} (env : PEnv W) (w : W) (fin fout ferr : Bool) :
    W × Bool × Bool × Bool :=
  let r := env.poll w fin fout ferr
  (r.1, r.2.1 && fin, r.2.2.1 && fout, r.2.2.2 && ferr)

/-- Ghost trace of the OS interactions a `read_into` run performed:
a successful write (attempted chunk length, accepted byte count, remaining
unwritten input length at that moment) and successful reads (byte count, zero
meaning the end-of-stream observation that drops the local handle). -/

inductive PEvent where
  | wrote (attempted accepted remaining : Nat)
  | evReadO (n : Nat)
  | evReadE (n : Nat)
deriving DecidableEq, Repr

/-- Outcome of a `read_into` run.  `fuelOut` is a modelling artefact: the
iteration bound was reached while the loop would have continued. -/

inductive RIOutcome where
  | ok
  | timedOut
  | ioerr (k : IOErrorKind)
  | fuelOut
deriving DecidableEq, Repr

structure RIRes (W : Type) where
  res : RIOutcome
  w : W
  comm : PComm
  oRef : Bool
  eRef : Bool
  outvec : List Nat
  errvec : List Nat
  events : List PEvent
deriving Repr

/-- `Communicator::do_read` (communicate.rs:81-103): cap the read buffer by
the remaining quota — returning without reading when the quota is already met
— then read once; a non-empty chunk is appended to `dest`, an empty one marks
the stream finished.  Also reports the read size (if a read was issued) for
the ghost trace. -/

def do_read {W : Type} (read1 : W → Nat → W × (List Nat ⊕ IOErrorKind)) (w : W)
    (source_ref : Bool) (dest : List Nat) (size_limit : Option Nat) (total_read : Nat) :
    (W × Bool × List Nat × Option Nat) ⊕ (W × IOErrorKind) :=
  let bufLen : Option Nat :=
    match size_limit with
    | some lim =>
      if total_read ≥ lim then none
      else if lim - total_read < 4096 then some (lim - total_read) else some 4096
    | none => some 4096
  match bufLen with
  | none => .inl (w, source_ref, dest, none)
  | some k =>
    match read1 w k with
    | (w', .inr e) => .inr (w', e)
    | (w', .inl chunk) =>
      if chunk.length ≠ 0 then .inl (w', source_ref, dest ++ chunk, some chunk.length)
      else .inl (w', false, dest, some 0)

/-- The stdin arm of one `read_into` iteration (communicate.rs:136-148): when
write-ready, write one chunk of at most `WRITE_SIZE = 4096` bytes, advance the
cursor by the bytes accepted, and on completion drop the stdin handle and
clear the input vector (the cursor is left as is, as in the source). -/

def writeArm {W : Type} (env : PEnv W) (w : W) (c : PComm) (inR : Bool) :
    (W × PComm × List PEvent) ⊕ (W × IOErrorKind) :=
  if inR then
    let input := c.input_data.drop c.input_pos
    let chunk := input.take (min 4096 input.length)
    match env.write w chunk with
    | (w2, .inr e) => .inr (w2, e)
    | (w2, .inl n) =>
      if c.input_pos + n = c.input_data.length then
        .inl (w2, { c with stdin := false, input_data := [], input_pos := c.input_pos + n },
          [PEvent.wrote chunk.length n input.length])
      else
        .inl (w2, { c with input_pos := c.input_pos + n },
          [PEvent.wrote chunk.length n input.length])
  else .inl (w, c, [])

/-- The read arm for one output stream: `do_read` guarded by readiness
(communicate.rs:149-156). -/

def readArm {W : Type} (read1 : W → Nat → W × (List Nat ⊕ IOErrorKind)) (w : W)
    (ready ref : Bool) (dest : List Nat) (size_limit : Option Nat) (total : Nat) :
    (W × Bool × List Nat × Option Nat) ⊕ (W × IOErrorKind) :=
  if ready then do_read read1 w ref dest size_limit total
  else .inl (w, ref, dest, none)

/-- `Communicator::read_into` (communicate.rs:105-160), as a fuel-indexed
loop: quota break, all-finished break, poll, timeout check, the stdin write
arm, then one bounded read per ready output stream.  The returned event list
is this iteration's events followed by the rest of the run. -/

def read_into {W : Type} (env : PEnv W) (size_limit : Option Nat) :
    Nat → W → PComm → Bool → Bool → List Nat → List Nat → RIRes W
  | 0, w, c, oRef, eRef, outvec, errvec => ⟨.fuelOut, w, c, oRef, eRef, outvec, errvec, []⟩
  | fuel + 1, w, c, oRef, eRef, outvec, errvec =>
    if (match size_limit with
        | some lim => decide (outvec.length + errvec.length ≥ lim)
        | none => false) then
      ⟨.ok, w, c, oRef, eRef, outvec, errvec, []⟩
    else if c.stdin = false ∧ oRef = false ∧ eRef = false then
      ⟨.ok, w, c, oRef, eRef, outvec, errvec, []⟩
    else
      let p := poll3 env w c.stdin oRef eRef
      if p.2.1 = false ∧ p.2.2.1 = false ∧ p.2.2.2 = false then
        ⟨.timedOut, p.1, c, oRef, eRef, outvec, errvec, []⟩
      else
        match writeArm env p.1 c p.2.1 with
        | .inr (w2, e) => ⟨.ioerr e, w2, c, oRef, eRef, outvec, errvec, []⟩
        | .inl (w2, c2, evIn) =>
          match readArm env.readO w2 p.2.2.1 oRef outvec size_limit
              (outvec.length + errvec.length) with
          | .inr (w3, e) => ⟨.ioerr e, w3, c2, oRef, eRef, outvec, errvec, evIn⟩
          | .inl (w3, oRef2, outvec2, nO) =>
            match readArm env.readE w3 p.2.2.2 eRef errvec size_limit
                (outvec2.length + errvec.length) with
            | .inr (w4, e) =>
              ⟨.ioerr e, w4, c2, oRef2, eRef, outvec2, errvec,
                evIn ++ (nO.map PEvent.evReadO).toList⟩
            | .inl (w4, eRef2, errvec2, nE) =>
              let rec1 := read_into env size_limit fuel w4 c2 oRef2 eRef2 outvec2 errvec2
              ⟨rec1.res, rec1.w, rec1.comm, rec1.oRef, rec1.eRef, rec1.outvec, rec1.errvec,
                evIn ++ (nO.map PEvent.evReadO).toList ++ (nE.map PEvent.evReadE).toList
                  ++ rec1.events⟩

/-- `os::Communicator::read` (communicate.rs:162-179): run `read_into` on
fresh vectors and wrap each vector in `Some` exactly when the corresponding
owned handle is (still) present. -/

def posix_read {W : Type} (env : PEnv W) (size_limit : Option Nat) (fuel : Nat)
    (w : W) (c : PComm) :
    RIOutcome × Option (List Nat) × Option (List Nat) × W × PComm × List PEvent :=
  let r := read_into env size_limit fuel w c c.stdout c.stderr [] []
  (r.res,
   (if r.comm.stdout then some r.outvec else none),
   (if r.comm.stderr then some r.errvec else none),
   r.w, r.comm, r.events)

/-- One scripted oracle step: poll verdicts and the data the pipes would
deliver during that iteration. -/

structure EnvStep where
  inReady : Bool
  outReady : Bool
  errReady : Bool
  nWrite : Nat
  outChunk : List Nat
  errChunk : List Nat
deriving DecidableEq, Repr

/-- Oracle world: the step selected by the latest poll, and the future
steps. -/

abbrev OWorld := Option EnvStep × List EnvStep

/-- Oracle environment: poll consumes the next scripted step; writes and
reads are clamped against the script, so every script is a legal
environment. -/

def oracleEnv : PEnv OWorld where
  poll w _ _ _ :=
    match w.2 with
    | [] => ((none, []), false, false, false)
    | s :: rest => ((some s, rest), s.inReady, s.outReady, s.errReady)
  write w chunk :=
    (w, .inl (min ((w.1.map EnvStep.nWrite).getD 0) chunk.length))
  readO w n :=
    (w, .inl (((w.1.map EnvStep.outChunk).getD []).take n))
  readE w n :=
    (w, .inl (((w.1.map EnvStep.errChunk).getD []).take n))

/-- The closed parent/child system for the deadlock-freedom property: a
sequential echo child behind three bounded pipes.  The child repeatedly
reads its stdin and writes what it read to its stdout (when connected),
then, after observing end-of-input, writes a fixed diagnostic payload to
its stderr (when connected) and exits, closing both output streams.
`pendingEcho` is the chunk the child has read but not yet finished writing:
while it is non-empty the child is inside its blocking `write` to the
bounded stdout pipe and in particular does not read its stdin, so a parent
that only writes can fill `stdinPipe` and block — the mutual-blocking
hazard is present in the model and only draining the output pipes removes
it. -/

structure World where
  cap : Nat
  stdinPipe : List Nat
  outPipe : List Nat
  errPipe : List Nat
  stdinClosed : Bool
  outConn : Bool
  errConn : Bool
  pendingEcho : List Nat
  pendingErr : List Nat
  inDone : Bool
  exited : Bool
deriving DecidableEq, Repr

/-- One child action, if any is possible, in the order the sequential child
performs them: make progress on the blocking echo `write` (only possible
while the bounded stdout pipe has free space — a full pipe blocks the
child), read the stdin pipe (only once the previous chunk is fully written;
with no stdout connected the bytes are discarded without blocking), observe
end of input, make progress on the blocking diagnostic `write` to the
bounded stderr pipe, or exit.  `none` means the child can do nothing: it is
either blocked on a full pipe, waiting for input, or already exited. -/

def childStep (w : World) : Option World :=
  if w.pendingEcho ≠ [] ∧ w.outPipe.length < w.cap then
    some { w with outPipe := w.outPipe ++ w.pendingEcho.take (w.cap - w.outPipe.length)
                  pendingEcho := w.pendingEcho.drop (w.cap - w.outPipe.length) }
  else if w.pendingEcho = [] ∧ w.stdinPipe ≠ [] ∧ w.inDone = false then
    some { w with stdinPipe := []
                  pendingEcho := if w.outConn then w.stdinPipe else [] }
  else if w.pendingEcho = [] ∧ w.stdinClosed = true ∧ w.stdinPipe = [] ∧ w.inDone = false then
    some { w with inDone := true }
  else if w.inDone = true ∧ w.pendingErr ≠ [] ∧
      (w.errConn = false ∨ w.errPipe.length < w.cap) then
    if w.errConn then
      some { w with errPipe := w.errPipe ++ w.pendingErr.take (w.cap - w.errPipe.length)
                    pendingErr := w.pendingErr.drop (w.cap - w.errPipe.length) }
    else some { w with pendingErr := [] }
  else if w.inDone = true ∧ w.pendingErr = [] ∧ w.exited = false then
    some { w with exited := true }
  else none

/-- Bound on the number of child actions before quiescence. -/

def childMeasure (w : World) : Nat :=
  2 * w.stdinPipe.length + w.pendingEcho.length + w.pendingErr.length
    + (if w.inDone then 0 else 1) + (if w.exited then 0 else 1)

/-- Run the child until no action is possible (with enough fuel). -/

def quiesce : Nat → World → World
  | 0, w => w
  | n + 1, w =>
    match childStep w with
    | none => w
    | some w' => quiesce n w'

/-- The closed-system environment: polling lets the child run (and observe a
dropped stdin handle), then reports readiness — write readiness is free pipe
space, read readiness is buffered bytes or a closed child end; writes and
reads move bytes across the bounded pipes. -/

def echoEnv : PEnv World where
  poll w fin fout ferr :=
    let w' := quiesce (childMeasure (if fin then w else { w with stdinClosed := true }))
      (if fin then w else { w with stdinClosed := true })
    (w',
     fin && decide (w'.stdinPipe.length < w'.cap),
     fout && (decide (w'.outPipe ≠ []) || w'.exited),
     ferr && (decide (w'.errPipe ≠ []) || w'.exited))
  write w chunk :=
    ({ w with stdinPipe := w.stdinPipe ++ chunk.take (w.cap - w.stdinPipe.length) },
     .inl (min (w.cap - w.stdinPipe.length) chunk.length))
  readO w n :=
    ({ w with outPipe := w.outPipe.drop n }, .inl (w.outPipe.take n))
  readE w n :=
    ({ w with errPipe := w.errPipe.drop n }, .inl (w.errPipe.take n))

/-- Initial world for a child run. -/

def initWorld (cap : Nat) (stdinConn outConn errConn : Bool) (errData : List Nat) : World :=
  ⟨cap, [], [], [], !stdinConn, outConn, errConn, [], errData, false, false⟩

/-- The input bytes the parent still has to deliver: nothing once the stdin
handle is dropped. -/

def remIn (c : PComm) : List Nat :=
  if c.stdin then c.input_data.drop c.input_pos else []

/-- Weight of the child-side state for the termination measure: bytes are
worth more the further they are from their final resting place. -/

def worldWeight (w : World) : Nat :=
  5 * w.stdinPipe.length + 4 * w.pendingEcho.length + 3 * w.outPipe.length
    + 3 * w.pendingErr.length + 2 * w.errPipe.length
    + (if w.inDone then 0 else 1) + (if w.exited then 0 else 1)

/-- Weight of the parent's pending input, plus one for the open stdin
handle. -/

def stdinWeight (c : PComm) : Nat :=
  if c.stdin then c.input_data.length - c.input_pos + 1 else 0

/-- Termination measure of the closed parent/child system: every loop
iteration that does not exit strictly decreases it. -/

def sysMeasure (w : World) (c : PComm) (oRef eRef : Bool) : Nat :=
  worldWeight w + 6 * stdinWeight c
    + (if oRef then 1 else 0) + (if eRef then 1 else 0)

/-- Invariant of the child-side world alone. -/

def WInv (sOut sErr : Bool) (w : World) : Prop :=
  1 ≤ w.cap ∧ w.outConn = sOut ∧ w.errConn = sErr ∧
  (w.inDone = true → w.stdinClosed = true ∧ w.stdinPipe = [] ∧ w.pendingEcho = []) ∧
  (w.exited = true → w.inDone = true ∧ w.pendingEcho = [] ∧ w.pendingErr = []) ∧
  (sOut = false → w.pendingEcho = [])

/-- Invariant of the whole system at the top of a `read_into` iteration:
per-stream byte conservation, handle/flag consistency, and the fact that an
observed end of stream means the full payload was already captured. -/

def EInv (sOut sErr : Bool) (input₀ errData₀ : List Nat) (w : World) (c : PComm)
    (oRef eRef : Bool) (outvec errvec : List Nat) : Prop :=
  WInv sOut sErr w ∧
  c.stdout = sOut ∧ c.stderr = sErr ∧
  (oRef = true → sOut = true) ∧ (eRef = true → sErr = true) ∧
  (c.stdin = true → w.stdinClosed = false ∧ c.input_pos ≤ c.input_data.length) ∧
  (sOut = true → outvec ++ w.outPipe ++ w.pendingEcho ++ w.stdinPipe ++ remIn c = input₀) ∧
  (sErr = true → errvec ++ w.errPipe ++ w.pendingErr = errData₀) ∧
  (oRef = false → sOut = true → outvec = input₀ ∧ w.exited = true) ∧
  (eRef = false → sErr = true → errvec = errData₀ ∧ w.exited = true) ∧
  (sOut = false → outvec = []) ∧ (sErr = false → errvec = [])

/-- The chunk the stdin arm offers to `write`. -/

def wchunk (c : PComm) : List Nat :=
  (c.input_data.drop c.input_pos).take (min 4096 (c.input_data.drop c.input_pos).length)

/-- How many bytes of the offered chunk the bounded stdin pipe accepts. -/

def waccept (w : World) (c : PComm) : Nat :=
  min (w.cap - w.stdinPipe.length) (wchunk c).length

/-- The world the child is left in by one `poll` of the closed system. -/

def pollWorld (w : World) (fin : Bool) : World :=
  quiesce (childMeasure (if fin then w else { w with stdinClosed := true }))
    (if fin then w else { w with stdinClosed := true })

/-- The buffer size `do_read` reads into: 4096 capped by the remaining
quota. -/
def bufSize (lim : Option Nat) (total : Nat) : Nat :=
  match lim with
  | none => 4096
  | some l => if l - total < 4096 then l - total else 4096

def isReadO : PEvent → Bool
  | .evReadO _ => true
  | _ => false

def isReadE : PEvent → Bool
  | .evReadE _ => true
  | _ => false

def isWrote : PEvent → Bool
  | .wrote _ _ _ => true
  | _ => false

/-- After a zero-byte read of stdout (end of stream), no further stdout read
occurs in the trace. -/

def noReadOAfterEof : List PEvent → Bool
  | [] => true
  | .evReadO 0 :: rest => rest.all fun e => !isReadO e
  | _ :: rest => noReadOAfterEof rest

def noReadEAfterEof : List PEvent → Bool
  | [] => true
  | .evReadE 0 :: rest => rest.all fun e => !isReadE e
  | _ :: rest => noReadEAfterEof rest

/-- Everything one `read_into` run guarantees for any environment: the quota
bound, preservation of the cursor invariant, monotonicity of the dropped
handles, constancy of the owned stdout/stderr handles, the 4096-byte write
chunking, and that a finished stream is neither read nor written again within
the run. -/
def RISpec {W : Type} (lim : Option Nat) (c : PComm) (oRef eRef : Bool)
    (outvec errvec : List Nat) (r : RIRes W) : Prop :=
  (∀ q, lim = some q → outvec.length + errvec.length ≤ q →
    r.outvec.length + r.errvec.length ≤ q) ∧
  ((c.stdin = true → c.input_pos ≤ c.input_data.length) →
    r.comm.stdin = true → r.comm.input_pos ≤ r.comm.input_data.length) ∧
  (r.comm.stdin = true → c.stdin = true) ∧
  (r.comm.stdout = c.stdout ∧ r.comm.stderr = c.stderr) ∧
  (r.oRef = true → oRef = true) ∧
  (r.eRef = true → eRef = true) ∧
  (∀ a n rem, PEvent.wrote a n rem ∈ r.events → a = min 4096 rem) ∧
  (oRef = false → ∀ ev ∈ r.events, isReadO ev = false) ∧
  (eRef = false → ∀ ev ∈ r.events, isReadE ev = false) ∧
  noReadOAfterEof r.events = true ∧
  noReadEAfterEof r.events = true ∧
  (c.stdin = false → ∀ ev ∈ r.events, isWrote ev = false)

end Posix

end Subprocess

/-! ## Theorems -/

namespace Subprocess

namespace Worker

/-! Sanity checks of the embedding on concrete runs. -/
theorem sanity_check_1 :
    (wread none none ⟨[(.sOut, .data [1, 2]), (.sOut, .eof)], ⟨false, true, false⟩,
      ⟨false, true, false⟩, none⟩).stdout = some [1, 2] := by decide

theorem sanity_check_2 :
    (wread none (some 1) ⟨[(.sOut, .data [1, 2]), (.sOut, .eof)], ⟨false, true, false⟩,
      ⟨false, true, false⟩, none⟩).stdout = some [1] := by decide

theorem sanity_check_3 :
    (wread none (some 1) ⟨[(.sOut, .data [1, 2]), (.sOut, .eof)], ⟨false, true, false⟩,
      ⟨false, true, false⟩, none⟩).state.leftover = some (.sOut, [2]) := by decide

-- quota 0 drops an incoming chunk without stashing it

theorem sanity_check_4 :
    (wread none (some 0) ⟨[(.sOut, .data [7]), (.sOut, .eof)], ⟨false, true, false⟩,
      ⟨false, true, false⟩, none⟩).state.leftover = none := by decide

/-! ### Well-formedness of channel content

`read_and_transmit` (communicate.rs:208-231) sends zero or more non-empty
`Data` chunks followed by exactly one `EOF` or `Err` and then exits; the stdin
helper (communicate.rs:267-274) sends exactly one `EOF` or `Err`.  Projected
onto the interleaved arrival order, the channel content therefore satisfies
`msgsWF`: every message belongs to a still-active stream, `Data` chunks are
non-empty, never from `sIn`, and only from requested streams, and a stream's
terminator deactivates it.  `allowErr := false` additionally rules out `Err`
terminators (error-free runs). -/

theorem StreamSet.isEmpty_iff {s : StreamSet} : s.isEmpty = true ↔ s = StreamSet.empty := by
  cases s with
  | mk hi ho he => cases hi <;> cases ho <;> cases he <;> decide

theorem StreamSet.mem_empty (i : StreamIdent) : StreamSet.empty.mem i = false := by
  cases i <;> rfl

/-- If no stream is active, a well-formed channel is empty. -/

theorem msgsWF_empty_nil {a : Bool} {req : StreamSet} {msgs : List Msg}
    (h : msgsWF a req StreamSet.empty msgs = true) : msgs = [] := by
  cases msgs with
  | nil => rfl
  | cons m rest =>
    obtain ⟨i, p⟩ := m
    simp only [msgsWF, Bool.and_eq_true] at h
    rw [StreamSet.mem_empty] at h
    exact absurd h.1 (by simp)

/-- An error-free well-formed channel is in particular well-formed when
error terminators are allowed. -/

theorem msgsWF_mono (req : StreamSet) : ∀ (msgs : List Msg) (act : StreamSet),
    msgsWF false req act msgs = true → msgsWF true req act msgs = true := by
  intro msgs
  induction msgs with
  | nil =>
    intro act h
    exact h
  | cons m rest ih =>
    intro act h
    obtain ⟨i, p⟩ := m
    cases p with
    | data d =>
      simp only [msgsWF, Bool.and_eq_true] at h ⊢
      exact ⟨h.1, h.2.1, ih act h.2.2⟩
    | eof =>
      simp only [msgsWF, Bool.and_eq_true] at h ⊢
      exact ⟨h.1, ih _ h.2⟩
    | err k =>
      simp only [msgsWF, Bool.and_eq_true] at h
      exact absurd h.2.1 (by simp)

/-- An error-free clean state is clean when error messages are allowed. -/

theorem Clean_mono {s : WState} (h : Clean false s = true) : Clean true s = true := by
  simp only [Clean, Bool.and_eq_true] at h ⊢
  exact ⟨msgsWF_mono s.requested s.msgs s.helper_set h.1, h.2⟩

/-- Characterisation of `grow_result` on the stdout stream when the stash slot
is empty and the quota is not yet full: either everything is admitted and the
call continues, or a prefix is admitted exactly filling the quota and the rest
(if any) is stashed. -/

theorem grow_out_char (lim : Option Nat) (d outvec errvec : List Nat)
    (hq : ∀ q, lim = some q → outvec.length + errvec.length < q) :
    (grow_result lim .sOut d outvec errvec none = .cont (outvec ++ d) errvec none ∧
      (∀ q, lim = some q → (outvec ++ d).length + errvec.length < q)) ∨
    (∃ taken dropped, d = taken ++ dropped ∧
      grow_result lim .sOut d outvec errvec none =
        .stop (outvec ++ taken) errvec
          (if dropped.length = 0 then none else some (.sOut, dropped)) ∧
      (∀ q, lim = some q → (outvec ++ taken).length + errvec.length ≤ q) ∧
      (d.length ≠ 0 → taken.length ≠ 0)) := by
  match lim with
  | none =>
    left
    refine ⟨rfl, ?_⟩
    intro q h; cases h
  | some q =>
    have hq' : outvec.length + errvec.length < q := hq q rfl
    have h1 : ¬ (outvec.length + errvec.length ≥ q) := by omega
    by_cases hbig : d.length > q - (outvec.length + errvec.length)
    · right
      refine ⟨d.take (q - (outvec.length + errvec.length)),
              d.drop (q - (outvec.length + errvec.length)), (List.take_append_drop _ _).symm, ?_, ?_, ?_⟩
      · have hdrop : ¬ ((d.drop (q - (outvec.length + errvec.length))).length = 0) := by
          simp only [List.length_drop]
          omega
        have htake : (outvec ++ d.take (q - (outvec.length + errvec.length))).length + errvec.length ≥ q := by
          simp only [List.length_append, List.length_take]
          omega
        rw [if_neg hdrop]
        simp only [grow_result, if_neg h1, if_pos hbig, if_pos htake]
      · intro q' hq''
        injection hq'' with hq''
        subst hq''
        simp only [List.length_append, List.length_take]
        omega
      · intro _
        simp only [List.length_take]
        omega
    · -- the whole chunk fits below or exactly at the quota
      by_cases hfull : (outvec ++ d).length + errvec.length ≥ q
      · right
        refine ⟨d, [], by simp, ?_, ?_, fun h => h⟩
        · show grow_result (some q) .sOut d outvec errvec none = .stop (outvec ++ d) errvec none
          simp only [grow_result, if_neg h1, if_neg hbig, if_pos hfull]
        · intro q' hq''
          injection hq'' with hq''
          subst hq''
          simp only [List.length_append] at hfull ⊢
          simp only [List.length_append, not_lt] at hbig
          omega
      · left
        refine ⟨?_, ?_⟩
        · simp only [grow_result, if_neg h1, if_neg hbig, if_neg hfull]
        · intro q' hq''
          injection hq'' with hq''
          subst hq''
          omega

/-- Symmetric characterisation for the stderr stream. -/

theorem grow_err_char (lim : Option Nat) (d outvec errvec : List Nat)
    (hq : ∀ q, lim = some q → outvec.length + errvec.length < q) :
    (grow_result lim .sErr d outvec errvec none = .cont outvec (errvec ++ d) none ∧
      (∀ q, lim = some q → outvec.length + (errvec ++ d).length < q)) ∨
    (∃ taken dropped, d = taken ++ dropped ∧
      grow_result lim .sErr d outvec errvec none =
        .stop outvec (errvec ++ taken)
          (if dropped.length = 0 then none else some (.sErr, dropped)) ∧
      (∀ q, lim = some q → outvec.length + (errvec ++ taken).length ≤ q) ∧
      (d.length ≠ 0 → taken.length ≠ 0)) := by
  match lim with
  | none =>
    left
    refine ⟨rfl, ?_⟩
    intro q h; cases h
  | some q =>
    have hq' : outvec.length + errvec.length < q := hq q rfl
    have h1 : ¬ (outvec.length + errvec.length ≥ q) := by omega
    by_cases hbig : d.length > q - (outvec.length + errvec.length)
    · right
      refine ⟨d.take (q - (outvec.length + errvec.length)),
              d.drop (q - (outvec.length + errvec.length)), (List.take_append_drop _ _).symm, ?_, ?_, ?_⟩
      · have hdrop : ¬ ((d.drop (q - (outvec.length + errvec.length))).length = 0) := by
          simp only [List.length_drop]
          omega
        have htake : outvec.length + (errvec ++ d.take (q - (outvec.length + errvec.length))).length ≥ q := by
          simp only [List.length_append, List.length_take]
          omega
        rw [if_neg hdrop]
        simp only [grow_result, if_neg h1, if_pos hbig, if_pos htake]
      · intro q' hq''
        injection hq'' with hq''
        subst hq''
        simp only [List.length_append, List.length_take]
        omega
      · intro _
        simp only [List.length_take]
        omega
    · by_cases hfull : outvec.length + (errvec ++ d).length ≥ q
      · right
        refine ⟨d, [], by simp, ?_, ?_, fun h => h⟩
        · show grow_result (some q) .sErr d outvec errvec none = .stop outvec (errvec ++ d) none
          simp only [grow_result, if_neg h1, if_neg hbig, if_pos hfull]
        · intro q' hq''
          injection hq'' with hq''
          subst hq''
          simp only [List.length_append] at hfull ⊢
          simp only [List.length_append, not_lt] at hbig
          omega
      · left
        refine ⟨?_, ?_⟩
        · simp only [grow_result, if_neg h1, if_neg hbig, if_neg hfull]
        · intro q' hq''
          injection hq'' with hq''
          subst hq''
          simp only [List.length_append] at hfull ⊢
          omega

theorem StreamSet.subset_refl (s : StreamSet) : s.subset s :=
  ⟨id, id, id⟩

theorem StreamSet.remove_subset (s : StreamSet) (i : StreamIdent) : (s.remove i).subset s := by
  cases i <;> simp [StreamSet.remove, StreamSet.subset]

theorem StreamSet.subset_trans {a b c : StreamSet} (h1 : a.subset b) (h2 : b.subset c) :
    a.subset c :=
  ⟨fun h => h2.1 (h1.1 h), fun h => h2.2.1 (h1.2.1 h), fun h => h2.2.2 (h1.2.2 h)⟩

theorem msgsData_cons_data (i j : StreamIdent) (d : List Nat) (rest : List Msg) :
    msgsData i ((j, .data d) :: rest) = (if j = i then d else []) ++ msgsData i rest := rfl

theorem msgsData_cons_eof (i j : StreamIdent) (rest : List Msg) :
    msgsData i ((j, .eof) :: rest) = msgsData i rest := rfl

theorem msgsData_cons_err (i j : StreamIdent) (k : IOErrorKind) (rest : List Msg) :
    msgsData i ((j, .err k) :: rest) = msgsData i rest := rfl

theorem msgsData_cons_data_self (i : StreamIdent) (d : List Nat) (rest : List Msg) :
    msgsData i ((i, .data d) :: rest) = d ++ msgsData i rest := by
  rw [msgsData_cons_data, if_pos (rfl : i = i)]

theorem msgsData_cons_data_ne {i j : StreamIdent} (h : j ≠ i) (d : List Nat) (rest : List Msg) :
    msgsData i ((j, .data d) :: rest) = msgsData i rest := by
  rw [msgsData_cons_data, if_neg h, List.nil_append]

/-- Unfolding lemma: with every stream finished the loop exits at once. -/

theorem wreadLoop_exit {helpers : StreamSet} (h : helpers.isEmpty = true)
    (lim : Option Nat) (msgs : List Msg) (budget : Option Nat)
    (l : Option (StreamIdent × List Nat)) (o e : List Nat) :
    wreadLoop lim msgs budget helpers l o e = ⟨.ok, o, e, msgs, helpers, l⟩ := by
  unfold wreadLoop
  simp [h]

/-- Unfolding lemma: an exhausted deadline budget times out before receiving. -/

theorem wreadLoop_timeout {helpers : StreamSet} (h : helpers.isEmpty = false)
    (lim : Option Nat) (msgs : List Msg) (l : Option (StreamIdent × List Nat)) (o e : List Nat) :
    wreadLoop lim msgs (some 0) helpers l o e = ⟨.ioerr .timedOut, o, e, msgs, helpers, l⟩ := by
  simp [wreadLoop, h]

/-- Unfolding lemma: an empty channel with live helpers blocks the receive. -/

theorem wreadLoop_nil_stuck {helpers : StreamSet} (h : helpers.isEmpty = false)
    {budget : Option Nat} (hb : budget ≠ some 0) (lim : Option Nat)
    (l : Option (StreamIdent × List Nat)) (o e : List Nat) :
    wreadLoop lim [] budget helpers l o e = ⟨.stuck, o, e, [], helpers, l⟩ := by
  match budget with
  | none => simp [wreadLoop, h]
  | some 0 => exact absurd rfl hb
  | some (b + 1) => simp [wreadLoop, h]

/-- Unfolding lemma for one receive of the loop. -/

theorem wreadLoop_cons {helpers : StreamSet} (h : helpers.isEmpty = false)
    {budget : Option Nat} (hb : budget ≠ some 0) (lim : Option Nat) (i : StreamIdent)
    (p : Payload) (rest : List Msg) (l : Option (StreamIdent × List Nat)) (o e : List Nat) :
    wreadLoop lim ((i, p) :: rest) budget helpers l o e =
      match p with
      | .eof => wreadLoop lim rest (budget.map (· - 1)) (helpers.remove i) l o e
      | .err k => ⟨.ioerr k, o, e, rest, helpers, l⟩
      | .data d =>
        if d.length = 0 then ⟨.panicked .emptyData, o, e, rest, helpers, l⟩
        else
          match grow_result lim i d o e l with
          | .panicked => ⟨.panicked .inData, o, e, rest, helpers, l⟩
          | .stop o' e' l' => ⟨.ok, o', e', rest, helpers, l'⟩
          | .cont o' e' l' => wreadLoop lim rest (budget.map (· - 1)) helpers l' o' e' := by
  match budget with
  | none => simp [wreadLoop, h]
  | some 0 => exact absurd rfl hb
  | some (b + 1) => simp [wreadLoop, h]

theorem wreadLoop_cons_eof {helpers : StreamSet} (h : helpers.isEmpty = false)
    {budget : Option Nat} (hb : budget ≠ some 0) (lim : Option Nat) (i : StreamIdent)
    (rest : List Msg) (l : Option (StreamIdent × List Nat)) (o e : List Nat) :
    wreadLoop lim ((i, .eof) :: rest) budget helpers l o e =
      wreadLoop lim rest (budget.map (· - 1)) (helpers.remove i) l o e := by
  rw [wreadLoop_cons h hb]

theorem wreadLoop_cons_err {helpers : StreamSet} (h : helpers.isEmpty = false)
    {budget : Option Nat} (hb : budget ≠ some 0) (lim : Option Nat) (i : StreamIdent)
    (k : IOErrorKind) (rest : List Msg) (l : Option (StreamIdent × List Nat)) (o e : List Nat) :
    wreadLoop lim ((i, .err k) :: rest) budget helpers l o e =
      ⟨.ioerr k, o, e, rest, helpers, l⟩ := by
  rw [wreadLoop_cons h hb]

theorem wreadLoop_cons_data {helpers : StreamSet} (h : helpers.isEmpty = false)
    {budget : Option Nat} (hb : budget ≠ some 0) (lim : Option Nat) (i : StreamIdent)
    (d : List Nat) (rest : List Msg) (l : Option (StreamIdent × List Nat)) (o e : List Nat) :
    wreadLoop lim ((i, .data d) :: rest) budget helpers l o e =
      (if d.length = 0 then ⟨.panicked .emptyData, o, e, rest, helpers, l⟩
       else
         match grow_result lim i d o e l with
         | .panicked => ⟨.panicked .inData, o, e, rest, helpers, l⟩
         | .stop o' e' l' => ⟨.ok, o', e', rest, helpers, l'⟩
         | .cont o' e' l' => wreadLoop lim rest (budget.map (· - 1)) helpers l' o' e') := by
  rw [wreadLoop_cons h hb]

/-- The worker loop only ever sends non-empty Data chunks: `Ok(0)` is matched
first and turned into an EOF message. -/

theorem read_and_transmit_data_nonempty (ident : StreamIdent) :
    ∀ steps : List ReadStep, msgsDataNonempty (read_and_transmit ident steps) = true := by
  intro steps
  induction steps with
  | nil => rfl
  | cons s rest ih =>
    cases s with
    | ok chunk =>
      by_cases h : chunk.length = 0
      · simp [read_and_transmit, h, msgsDataNonempty]
      · simp only [read_and_transmit, if_neg h]
        simp only [msgsDataNonempty, List.all_cons, Bool.and_eq_true] at ih ⊢
        exact ⟨by simp [h], ih⟩
    | err e => simp [read_and_transmit, msgsDataNonempty]

/-- With only non-empty Data messages in the channel, the receive loop never
hits the `assert!(data.len() != 0)` panic of communicate.rs:377. -/

theorem wreadLoop_no_emptyData (lim : Option Nat) :
    ∀ (msgs : List Msg) (budget : Option Nat) (helpers : StreamSet)
      (l : Option (StreamIdent × List Nat)) (o e : List Nat),
      msgsDataNonempty msgs = true →
      (wreadLoop lim msgs budget helpers l o e).outcome ≠ .panicked .emptyData := by
  intro msgs
  induction msgs with
  | nil =>
    intro budget helpers l o e _
    unfold wreadLoop
    split
    · simp
    · split
      · simp
      · simp
  | cons m rest ih =>
    intro budget helpers l o e hne
    obtain ⟨i, p⟩ := m
    simp only [msgsDataNonempty, List.all_cons, Bool.and_eq_true] at hne
    obtain ⟨hd, hrest⟩ := hne
    by_cases h : helpers.isEmpty = true
    · rw [wreadLoop_exit h]
      simp
    · have h' : helpers.isEmpty = false := by simpa using h
      by_cases hb : budget = some 0
      · subst hb
        rw [wreadLoop_timeout h']
        simp
      · cases p with
        | eof =>
          rw [wreadLoop_cons_eof h' hb]
          exact ih _ _ _ _ _ hrest
        | err k =>
          rw [wreadLoop_cons_err h' hb]
          simp
        | data d =>
          rw [wreadLoop_cons_data h' hb]
          have hd' : ¬ d.length = 0 := by simpa using hd
          rw [if_neg hd']
          cases hg : grow_result lim i d o e l with
          | panicked => simp only [hg]; simp
          | stop o' e' l' => simp only [hg]; simp
          | cont o' e' l' =>
            simp only [hg]
            exact ih _ _ _ _ _ hrest

/-- Master lemma about one run of the receive loop, by induction on the
channel content. -/
theorem wreadLoop_spec (allowErr : Bool) (lim : Option Nat) (req : StreamSet) :
    ∀ (msgs : List Msg) (budget : Option Nat) (helpers : StreamSet)
      (outvec errvec : List Nat) (r : LoopOut),
      wreadLoop lim msgs budget helpers none outvec errvec = r →
      msgsWF allowErr req helpers msgs = true →
      (∀ q, lim = some q → outvec.length + errvec.length < q) →
      LoopSpec allowErr lim req msgs budget helpers outvec errvec r := by
  intro msgs
  induction msgs with
  | nil =>
    intro budget helpers outvec errvec r hr hwf hq
    have hh : helpers.isEmpty = true := hwf
    rw [wreadLoop_exit hh] at hr
    subst hr
    exact ⟨by simp, by simp,
      ⟨[], [], by simp, by simp, by simp [leftoverData], by simp [leftoverData]⟩,
      fun q hq' => le_of_lt (hq q hq'), rfl, StreamSet.subset_refl _,
      fun _ => hwf, fun _ => hwf, le_refl _,
      fun hc _ => absurd hh (by simp [hc]), fun _ _ => rfl, fun _ => Or.inl rfl,
      fun _ _ _ => ⟨hh, rfl⟩⟩
  | cons m rest ih =>
    obtain ⟨i, p⟩ := m
    intro budget helpers outvec errvec r hr hwf hq
    cases hh : helpers.isEmpty with
    | true =>
      rw [wreadLoop_exit hh] at hr
      subst hr
      exact ⟨by simp, by simp,
        ⟨[], [], by simp, by simp, by simp [leftoverData], by simp [leftoverData]⟩,
        fun q hq' => le_of_lt (hq q hq'), rfl, StreamSet.subset_refl _,
        fun _ => hwf, fun _ => hwf, le_refl _,
        fun hc _ => absurd hh (by simp [hc]), fun _ _ => rfl, fun _ => Or.inl rfl,
        fun _ _ _ => ⟨hh, rfl⟩⟩
    | false =>
      by_cases hb : budget = some 0
      · subst hb
        rw [wreadLoop_timeout hh] at hr
        subst hr
        exact ⟨by simp, by simp,
          ⟨[], [], by simp, by simp, by simp [leftoverData], by simp [leftoverData]⟩,
          fun q hq' => le_of_lt (hq q hq'), rfl, StreamSet.subset_refl _,
          by intro h; simp at h, fun _ => hwf, le_refl _,
          fun _ hb' => absurd rfl hb', by intro h; simp at h, fun _ => Or.inr rfl,
          by intro h _ _; simp at h⟩
      · cases p with
        | eof =>
          rw [wreadLoop_cons_eof hh hb] at hr
          simp only [msgsWF, Bool.and_eq_true] at hwf
          obtain ⟨hmem, hwf'⟩ := hwf
          obtain ⟨h1, h2, ⟨δo, δe, ho, he, hco, hce⟩, h4, h5, h6, h7, h8, h9, _, h11, h12, h13⟩ :=
            ih (budget.map (· - 1)) (helpers.remove i) outvec errvec r hr hwf' hq
          refine ⟨h1, h2, ⟨δo, δe, ho, he, ?_, ?_⟩, h4, h5,
            StreamSet.subset_trans h6 (StreamSet.remove_subset helpers i), h7, h8, ?_, ?_, ?_, h12,
            ?_⟩
          · rw [msgsData_cons_eof]; exact hco
          · rw [msgsData_cons_eof]; exact hce
          · exact le_trans h9 (Nat.le_succ _)
          · intro _ _
            exact lt_of_le_of_lt h9 (Nat.lt_succ_self _)
          · intro hbn ha
            exact h11 (by subst hbn; rfl) ha
          · intro hbn hlim ha
            exact h13 (by subst hbn; rfl) hlim ha
        | err k =>
          rw [wreadLoop_cons_err hh hb] at hr
          simp only [msgsWF, Bool.and_eq_true] at hwf
          obtain ⟨hmem, ha, hwf'⟩ := hwf
          subst hr
          refine ⟨by simp, by simp,
            ⟨[], [], by simp, by simp, ?_, ?_⟩,
            fun q hq' => le_of_lt (hq q hq'), rfl, StreamSet.subset_refl _,
            by intro h; simp at h, fun hfa => absurd ha (by simp [hfa]),
            Nat.le_succ _, fun _ _ => Nat.lt_succ_self _,
            fun _ hfa => absurd ha (by simp [hfa]), fun hfa => absurd ha (by simp [hfa]),
            fun _ _ hfa => absurd ha (by simp [hfa])⟩
          · rw [msgsData_cons_err]; simp [leftoverData]
          · rw [msgsData_cons_err]; simp [leftoverData]
        | data d =>
          rw [wreadLoop_cons_data hh hb] at hr
          simp only [msgsWF, Bool.and_eq_true, decide_eq_true_eq] at hwf
          obtain ⟨hmem, ⟨⟨hd, hiIn⟩, hreq⟩, hwf'⟩ := hwf
          rw [if_neg hd] at hr
          cases i with
          | sIn => exact absurd rfl hiIn
          | sOut =>
            rcases grow_out_char lim d outvec errvec hq with
              ⟨hgrow, hq'⟩ | ⟨taken, dropped, hsplit, hgrow, hqle, htk⟩
            · rw [hgrow] at hr
              obtain ⟨h1, h2, ⟨δo, δe, ho, he, hco, hce⟩, h4, h5, h6, h7, h8, h9, _, h11, h12,
                h13⟩ :=
                ih (budget.map (· - 1)) helpers (outvec ++ d) errvec r hr hwf' hq'
              refine ⟨h1, h2, ⟨d ++ δo, δe, by rw [ho, List.append_assoc], he, ?_, ?_⟩,
                h4, h5, h6, h7, h8, ?_, ?_, ?_, h12, ?_⟩
              · rw [msgsData_cons_data_self, ← hco, List.append_assoc]
              · rw [msgsData_cons_data_ne (by decide : StreamIdent.sOut ≠ .sErr)]
                exact hce
              · exact le_trans h9 (Nat.le_succ _)
              · intro _ _
                exact lt_of_le_of_lt h9 (Nat.lt_succ_self _)
              · intro hbn ha
                exact h11 (by subst hbn; rfl) ha
              · intro hbn hlim ha
                exact h13 (by subst hbn; rfl) hlim ha
            · rw [hgrow] at hr
              subst hr
              refine ⟨by simp, by simp,
                ⟨taken, [], by simp, by simp, ?_, ?_⟩, ?_, ?_, StreamSet.subset_refl _,
                fun _ => hwf', fun _ => hwf', Nat.le_succ _, fun _ _ => Nat.lt_succ_self _,
                fun _ _ => rfl, fun _ => Or.inl rfl, ?_⟩
              · rw [msgsData_cons_data_self]
                by_cases hdr : dropped.length = 0
                · rw [if_pos hdr]
                  have hdnil : dropped = [] := List.length_eq_zero.mp hdr
                  subst hdnil
                  simp [leftoverData, hsplit]
                · rw [if_neg hdr]
                  simp [leftoverData, hsplit, List.append_assoc]
              · rw [msgsData_cons_data_ne (by decide : StreamIdent.sOut ≠ .sErr)]
                by_cases hdr : dropped.length = 0
                · rw [if_pos hdr]; simp [leftoverData]
                · rw [if_neg hdr]; simp [leftoverData]
              · exact hqle
              · by_cases hdr : dropped.length = 0
                · rw [if_pos hdr]; rfl
                · rw [if_neg hdr]
                  simp [leftoverWF, hdr, hreq]
              · intro _ hlim _
                subst hlim
                simp [grow_result] at hgrow
          | sErr =>
            rcases grow_err_char lim d outvec errvec hq with
              ⟨hgrow, hq'⟩ | ⟨taken, dropped, hsplit, hgrow, hqle, htk⟩
            · rw [hgrow] at hr
              obtain ⟨h1, h2, ⟨δo, δe, ho, he, hco, hce⟩, h4, h5, h6, h7, h8, h9, _, h11, h12,
                h13⟩ :=
                ih (budget.map (· - 1)) helpers outvec (errvec ++ d) r hr hwf' hq'
              refine ⟨h1, h2, ⟨δo, d ++ δe, ho, by rw [he, List.append_assoc], ?_, ?_⟩,
                h4, h5, h6, h7, h8, ?_, ?_, ?_, h12, ?_⟩
              · rw [msgsData_cons_data_ne (by decide : StreamIdent.sErr ≠ .sOut)]
                exact hco
              · rw [msgsData_cons_data_self, ← hce, List.append_assoc]
              · exact le_trans h9 (Nat.le_succ _)
              · intro _ _
                exact lt_of_le_of_lt h9 (Nat.lt_succ_self _)
              · intro hbn ha
                exact h11 (by subst hbn; rfl) ha
              · intro hbn hlim ha
                exact h13 (by subst hbn; rfl) hlim ha
            · rw [hgrow] at hr
              subst hr
              refine ⟨by simp, by simp,
                ⟨[], taken, by simp, by simp, ?_, ?_⟩, ?_, ?_, StreamSet.subset_refl _,
                fun _ => hwf', fun _ => hwf', Nat.le_succ _, fun _ _ => Nat.lt_succ_self _,
                fun _ _ => rfl, fun _ => Or.inl rfl, ?_⟩
              · rw [msgsData_cons_data_ne (by decide : StreamIdent.sErr ≠ .sOut)]
                by_cases hdr : dropped.length = 0
                · rw [if_pos hdr]; simp [leftoverData]
                · rw [if_neg hdr]; simp [leftoverData]
              · rw [msgsData_cons_data_self]
                by_cases hdr : dropped.length = 0
                · rw [if_pos hdr]
                  have hdnil : dropped = [] := List.length_eq_zero.mp hdr
                  subst hdnil
                  simp [leftoverData, hsplit]
                · rw [if_neg hdr]
                  simp [leftoverData, hsplit, List.append_assoc]
              · exact hqle
              · by_cases hdr : dropped.length = 0
                · rw [if_pos hdr]; rfl
                · rw [if_neg hdr]
                  simp [leftoverWF, hdr, hreq]
              · intro _ hlim _
                subst hlim
                simp [grow_result] at hgrow

/-- `as_options` succeeds and wraps each vector according to the requested
set, provided captured bytes only exist for requested streams. -/

theorem as_options_spec (req : StreamSet) (o e : List Nat)
    (ho : o.length ≠ 0 → req.hasOut = true) (he : e.length ≠ 0 → req.hasErr = true) :
    as_options req o e =
      some ((if req.hasOut then some o else none), (if req.hasErr then some e else none)) := by
  unfold as_options
  cases hOut : req.hasOut with
  | true =>
    cases hErr : req.hasErr with
    | true => simp
    | false =>
      have : e.length = 0 := by
        by_contra hc
        rw [he hc] at hErr
        cases hErr
      simp [this]
  | false =>
    have hol : o.length = 0 := by
      by_contra hc
      rw [ho hc] at hOut
      cases hOut
    cases hErr : req.hasErr with
    | true => simp [hol]
    | false =>
      have hel : e.length = 0 := by
        by_contra hc
        rw [he hc] at hErr
        cases hErr
      simp [hol, hel]

/-- A stream that was never requested carries no bytes in a well-formed
channel. -/

theorem msgsData_nil_of_unreq {a : Bool} {req : StreamSet} :
    ∀ {act : StreamSet} {msgs : List Msg}, msgsWF a req act msgs = true →
      ∀ {i : StreamIdent}, req.mem i = false → msgsData i msgs = [] := by
  intro act msgs
  induction msgs generalizing act with
  | nil => intro _ i _; rfl
  | cons m rest ih =>
    obtain ⟨j, p⟩ := m
    intro hwf i hi
    cases p with
    | data d =>
      simp only [msgsWF, Bool.and_eq_true, decide_eq_true_eq] at hwf
      obtain ⟨_, ⟨⟨_, _⟩, hreq⟩, hwf'⟩ := hwf
      rw [msgsData_cons_data]
      have hji : ¬ (j = i) := by
        intro hji
        rw [hji, hi] at hreq
        cases hreq
      rw [if_neg hji, List.nil_append]
      exact ih hwf' hi
    | eof =>
      simp only [msgsWF, Bool.and_eq_true] at hwf
      rw [msgsData_cons_eof]
      exact ih hwf.2 hi
    | err k =>
      simp only [msgsWF, Bool.and_eq_true] at hwf
      rw [msgsData_cons_err]
      exact ih hwf.2.2 hi

theorem leftoverData_nil_of_unreq {req : StreamSet} {l : Option (StreamIdent × List Nat)}
    (hl : leftoverWF req l = true) {i : StreamIdent} (hi : req.mem i = false) :
    leftoverData i l = [] := by
  match l with
  | none => rfl
  | some (j, d) =>
    simp only [leftoverWF, Bool.and_eq_true, decide_eq_true_eq] at hl
    obtain ⟨⟨_, _⟩, hreq⟩ := hl
    show (if j = i then d else []) = []
    have hji : ¬ (j = i) := by
      intro hji
      rw [hji, hi] at hreq
      cases hreq
    rw [if_neg hji]

theorem remData_mk (i : StreamIdent) (msgs : List Msg) (h r : StreamSet)
    (l : Option (StreamIdent × List Nat)) :
    remData i ⟨msgs, h, r, l⟩ = leftoverData i l ++ msgsData i msgs := rfl

theorem leftoverData_none (i : StreamIdent) : leftoverData i none = [] := rfl

theorem leftoverData_some_self (i : StreamIdent) (d : List Nat) :
    leftoverData i (some (i, d)) = d := by
  show (if i = i then d else []) = d
  rw [if_pos rfl]

theorem leftoverData_some_ne {i j : StreamIdent} (h : j ≠ i) (d : List Nat) :
    leftoverData i (some (j, d)) = [] := by
  show (if j = i then d else []) = []
  rw [if_neg h]

theorem wread_none (deadline lim : Option Nat) (msgs : List Msg) (helpers req : StreamSet) :
    wread deadline lim ⟨msgs, helpers, req, none⟩ =
      finishRead req (wreadLoop lim msgs deadline helpers none [] []) := rfl

theorem wread_some (deadline lim : Option Nat) (msgs : List Msg) (helpers req : StreamSet)
    (i : StreamIdent) (d : List Nat) :
    wread deadline lim ⟨msgs, helpers, req, some (i, d)⟩ =
      match grow_result lim i d [] [] none with
      | .panicked => ⟨.panicked .inData, none, none, ⟨msgs, helpers, req, none⟩⟩
      | .stop o e l => finishRead req ⟨.ok, o, e, msgs, helpers, l⟩
      | .cont o e l => finishRead req (wreadLoop lim msgs deadline helpers l o e) := rfl

/-- With a zero quota every `grow_result` call hits the early quota check and
appends nothing, so the loop's vectors stay empty whatever the channel
delivers. -/

theorem wreadLoop_zero (msgs : List Msg) : ∀ (budget : Option Nat) (helpers : StreamSet)
    (l : Option (StreamIdent × List Nat)),
    (wreadLoop (some 0) msgs budget helpers l [] []).outvec = [] ∧
    (wreadLoop (some 0) msgs budget helpers l [] []).errvec = [] := by
  induction msgs with
  | nil =>
    intro budget helpers l
    by_cases hh : helpers.isEmpty = true
    · rw [wreadLoop_exit hh]
      exact ⟨rfl, rfl⟩
    · have hh' : helpers.isEmpty = false := by simpa using hh
      by_cases hb : budget = some 0
      · subst hb
        rw [wreadLoop_timeout hh']
        exact ⟨rfl, rfl⟩
      · rw [wreadLoop_nil_stuck hh' hb]
        exact ⟨rfl, rfl⟩
  | cons m rest ih =>
    intro budget helpers l
    obtain ⟨i, p⟩ := m
    by_cases hh : helpers.isEmpty = true
    · rw [wreadLoop_exit hh]
      exact ⟨rfl, rfl⟩
    · have hh' : helpers.isEmpty = false := by simpa using hh
      by_cases hb : budget = some 0
      · subst hb
        rw [wreadLoop_timeout hh']
        exact ⟨rfl, rfl⟩
      · cases p with
        | eof =>
          rw [wreadLoop_cons_eof hh' hb]
          exact ih _ _ _
        | err k =>
          rw [wreadLoop_cons_err hh' hb]
          exact ⟨rfl, rfl⟩
        | data d =>
          rw [wreadLoop_cons_data hh' hb]
          by_cases hd : d.length = 0
          · rw [if_pos hd]
            exact ⟨rfl, rfl⟩
          · rw [if_neg hd]
            have hg : grow_result (some 0) i d [] [] l = .stop [] [] l := rfl
            rw [hg]
            exact ⟨rfl, rfl⟩

/-- `as_options` on two empty captures never panics. -/

theorem as_options_nil (req : StreamSet) :
    as_options req [] [] = some ((if req.hasOut then some [] else none),
      (if req.hasErr then some [] else none)) := by
  unfold as_options
  cases ho : req.hasOut <;> cases he : req.hasErr <;> simp

/-- A `read` call with quota 0 returns empty captures (wrapped per requested
stream): the quota bound holds degenerately. -/

theorem wread_zero (deadline : Option Nat) (s : WState) :
    (wread deadline (some 0) s).stdout = (if s.requested.hasOut then some [] else none) ∧
    (wread deadline (some 0) s).stderr = (if s.requested.hasErr then some [] else none) := by
  obtain ⟨msgs, helpers, req, lo⟩ := s
  cases lo with
  | none =>
    rw [wread_none]
    obtain ⟨ho, he⟩ := wreadLoop_zero msgs deadline helpers none
    constructor <;> simp [finishRead, ho, he, as_options_nil]
  | some iv =>
    obtain ⟨i, d⟩ := iv
    rw [wread_some]
    have hg : grow_result (some 0) i d [] [] none = .stop [] [] none := rfl
    rw [hg]
    constructor <;> simp [finishRead, as_options_nil]

/-- A stream that yielded bytes must be requested. -/

theorem req_of_delta {allowErr : Bool} {req act : StreamSet} {msgs : List Msg}
    (hwf : msgsWF allowErr req act msgs = true) {i : StreamIdent} {δ rest1 : List Nat}
    (hco : δ ++ rest1 = msgsData i msgs) (hlen : δ.length ≠ 0) :
    req.mem i = true := by
  cases hm : req.mem i with
  | false =>
    rw [msgsData_nil_of_unreq hwf hm] at hco
    obtain ⟨h1, _⟩ := List.append_eq_nil.mp hco
    rw [h1] at hlen
    exact absurd rfl hlen
  | true => rfl

/-- Master lemma about one worker-backend `read` call: it never panics or
blocks, wraps captures according to the requested set, conserves the
undelivered bytes of each stream, respects a positive quota, keeps the state
well-formed, and makes progress. -/

theorem wread_spec (allowErr : Bool) (deadline lim : Option Nat) (s : WState) (r : WReadResult)
    (hr : wread deadline lim s = r)
    (hclean : Clean allowErr s = true)
    (hq1 : ∀ q, lim = some q → 1 ≤ q) :
    (∀ p, r.outcome ≠ .panicked p) ∧
    r.outcome ≠ .stuck ∧
    (∃ co ce,
      r.stdout = (if s.requested.hasOut then some co else none) ∧
      r.stderr = (if s.requested.hasErr then some ce else none) ∧
      co ++ remData .sOut r.state = remData .sOut s ∧
      ce ++ remData .sErr r.state = remData .sErr s ∧
      (∀ q, lim = some q → co.length + ce.length ≤ q)) ∧
    r.state.requested = s.requested ∧
    r.state.helper_set.subset s.helper_set ∧
    (r.outcome = .ok → Clean allowErr r.state = true) ∧
    (allowErr = false → Clean allowErr r.state = true) ∧
    (deadline = none → allowErr = false → r.outcome = .ok) ∧
    (allowErr = false → r.outcome = .ok ∨ r.outcome = .ioerr .timedOut) ∧
    wMeasure r.state ≤ wMeasure s ∧
    (¬ ReadDone s → deadline ≠ some 0 → wMeasure r.state < wMeasure s) ∧
    (deadline = none → lim = none → allowErr = false → ReadDone r.state) := by
  obtain ⟨msgs, helpers, req, lo⟩ := s
  simp only [Clean, Bool.and_eq_true] at hclean
  obtain ⟨hwf, hlwfs⟩ := hclean
  have hq0 : ∀ q, lim = some q → ([] : List Nat).length + ([] : List Nat).length < q := by
    intro q h
    simpa using hq1 q h
  cases lo with
  | none =>
    rw [wread_none] at hr
    obtain ⟨h1, h2, ⟨δo, δe, ho, he, hco, hce⟩, hquota, hlwf', hsub, hwfok, hwffalse,
      hlen, hprog, hbudget, houtc, hdone⟩ :=
      wreadLoop_spec allowErr lim req msgs deadline helpers [] [] _ rfl hwf hq0
    set lr := wreadLoop lim msgs deadline helpers none [] [] with hlr
    have hno : lr.outvec.length ≠ 0 → req.hasOut = true := by
      intro hl
      refine req_of_delta hwf hco ?_
      rw [ho] at hl
      simpa using hl
    have hne : lr.errvec.length ≠ 0 → req.hasErr = true := by
      intro hl
      refine req_of_delta hwf hce ?_
      rw [he] at hl
      simpa using hl
    have hfin : finishRead req lr =
        ⟨lr.outcome, (if req.hasOut then some lr.outvec else none),
          (if req.hasErr then some lr.errvec else none),
          ⟨lr.msgs, lr.helper_set, req, lr.leftover⟩⟩ := by
      unfold finishRead
      rw [as_options_spec req lr.outvec lr.errvec hno hne]
    rw [hfin] at hr
    subst hr
    have hlenOut : δo.length + (leftoverData .sOut lr.leftover ++ msgsData .sOut lr.msgs).length
        = (msgsData .sOut msgs).length := by
      rw [← List.length_append, hco]
    have hlenErr : δe.length + (leftoverData .sErr lr.leftover ++ msgsData .sErr lr.msgs).length
        = (msgsData .sErr msgs).length := by
      rw [← List.length_append, hce]
    refine ⟨h1, h2, ⟨lr.outvec, lr.errvec, rfl, rfl, ?_, ?_, ?_⟩, rfl, hsub, ?_, ?_,
      hbudget, houtc, ?_, ?_, fun hdn hln ha => hdone hdn hln ha⟩
    · rw [ho, remData_mk, remData_mk, leftoverData_none, List.nil_append, List.nil_append]
      exact hco
    · rw [he, remData_mk, remData_mk, leftoverData_none, List.nil_append, List.nil_append]
      exact hce
    · exact hquota
    · intro hok
      simp only [Clean, Bool.and_eq_true]
      exact ⟨hwfok hok, hlwf'⟩
    · intro hfa
      simp only [Clean, Bool.and_eq_true]
      exact ⟨hwffalse hfa, hlwf'⟩
    · simp only [wMeasure, remData_mk, leftoverData_none, List.nil_append]
      omega
    · intro hnd hdl
      have hh : helpers.isEmpty = false := by
        cases hhe : helpers.isEmpty with
        | true => exact absurd ⟨hhe, rfl⟩ hnd
        | false => rfl
      have := hprog hh hdl
      simp only [wMeasure, remData_mk, leftoverData_none, List.nil_append]
      omega
  | some iv =>
    obtain ⟨i, d⟩ := iv
    simp only [leftoverWF, Bool.and_eq_true, decide_eq_true_eq] at hlwfs
    obtain ⟨⟨hd, hiIn⟩, hreq⟩ := hlwfs
    rw [wread_some] at hr
    cases i with
    | sIn => exact absurd rfl hiIn
    | sOut =>
      rcases grow_out_char lim d [] [] hq0 with
        ⟨hgrow, hq'⟩ | ⟨taken, dropped, hsplit, hgrow, hqle, htk⟩
      · rw [hgrow] at hr
        have hr2 : finishRead req (wreadLoop lim msgs deadline helpers none ([] ++ d) []) = r := hr
        obtain ⟨h1, h2, ⟨δo, δe, ho, he, hco, hce⟩, hquota, hlwf', hsub, hwfok, hwffalse,
          hlen, hprog, hbudget, houtc, hdone⟩ :=
          wreadLoop_spec allowErr lim req msgs deadline helpers ([] ++ d) [] _ rfl hwf hq'
        set lr := wreadLoop lim msgs deadline helpers none ([] ++ d) [] with hlr
        have hno : lr.outvec.length ≠ 0 → req.hasOut = true := fun _ => hreq
        have hne : lr.errvec.length ≠ 0 → req.hasErr = true := by
          intro hl
          refine req_of_delta hwf hce ?_
          rw [he] at hl
          simpa using hl
        have hfin : finishRead req lr =
            ⟨lr.outcome, (if req.hasOut then some lr.outvec else none),
              (if req.hasErr then some lr.errvec else none),
              ⟨lr.msgs, lr.helper_set, req, lr.leftover⟩⟩ := by
          unfold finishRead
          rw [as_options_spec req lr.outvec lr.errvec hno hne]
        rw [hfin] at hr2
        subst hr2
        have hlenOut : δo.length + (leftoverData .sOut lr.leftover ++ msgsData .sOut lr.msgs).length
            = (msgsData .sOut msgs).length := by
          rw [← List.length_append, hco]
        have hlenErr : δe.length + (leftoverData .sErr lr.leftover ++ msgsData .sErr lr.msgs).length
            = (msgsData .sErr msgs).length := by
          rw [← List.length_append, hce]
        refine ⟨h1, h2, ⟨lr.outvec, lr.errvec, rfl, rfl, ?_, ?_, ?_⟩, rfl, hsub, ?_, ?_,
          hbudget, houtc, ?_, ?_, fun hdn hln ha => hdone hdn hln ha⟩
        · rw [ho, remData_mk, remData_mk, leftoverData_some_self, List.nil_append,
            List.append_assoc, hco]
        · rw [he, remData_mk, remData_mk,
            leftoverData_some_ne (by decide : StreamIdent.sOut ≠ .sErr), List.nil_append,
            List.nil_append]
          exact hce
        · exact hquota
        · intro hok
          simp only [Clean, Bool.and_eq_true]
          exact ⟨hwfok hok, hlwf'⟩
        · intro hfa
          simp only [Clean, Bool.and_eq_true]
          exact ⟨hwffalse hfa, hlwf'⟩
        · simp only [wMeasure, remData_mk, leftoverData_some_self]
          simp only [List.length_append] at hlenOut hlenErr ⊢
          omega
        · intro _ _
          simp only [wMeasure, remData_mk, leftoverData_some_self]
          simp only [List.length_append] at hlenOut hlenErr ⊢
          omega
      · rw [hgrow] at hr
        have hr2 : finishRead req ⟨.ok, [] ++ taken, [],
            msgs, helpers,
            (if dropped.length = 0 then none else some (.sOut, dropped))⟩ = r := hr
        have hno : (([] : List Nat) ++ taken).length ≠ 0 → req.hasOut = true := fun _ => hreq
        have hne : ([] : List Nat).length ≠ 0 → req.hasErr = true := fun h => absurd rfl h
        have hfin : finishRead req ⟨.ok, [] ++ taken, [],
            msgs, helpers,
            (if dropped.length = 0 then none else some (.sOut, dropped))⟩ =
            ⟨.ok, (if req.hasOut then some ([] ++ taken) else none),
              (if req.hasErr then some [] else none),
              ⟨msgs, helpers, req,
                (if dropped.length = 0 then none else some (.sOut, dropped))⟩⟩ := by
          unfold finishRead
          rw [as_options_spec req ([] ++ taken) [] hno hne]
        rw [hfin] at hr2
        subst hr2
        have hdlen : d.length = taken.length + dropped.length := by
          rw [hsplit, List.length_append]
        refine ⟨by simp, by simp, ⟨[] ++ taken, [], rfl, rfl, ?_, ?_, ?_⟩, rfl,
          StreamSet.subset_refl _, ?_, ?_, fun _ _ => rfl, fun _ => Or.inl rfl, ?_, ?_,
          fun _ hlim _ => by subst hlim; simp [grow_result] at hgrow⟩
        · rw [remData_mk, remData_mk, leftoverData_some_self, List.nil_append]
          by_cases hdr : dropped.length = 0
          · rw [if_pos hdr, leftoverData_none, List.nil_append]
            have hdnil : dropped = [] := List.length_eq_zero.mp hdr
            rw [hsplit, hdnil, List.append_nil]
          · rw [if_neg hdr, leftoverData_some_self, hsplit, List.append_assoc]
        · rw [remData_mk, remData_mk,
            leftoverData_some_ne (by decide : StreamIdent.sOut ≠ .sErr), List.nil_append,
            List.nil_append]
          by_cases hdr : dropped.length = 0
          · rw [if_pos hdr, leftoverData_none, List.nil_append]
          · rw [if_neg hdr,
              leftoverData_some_ne (by decide : StreamIdent.sOut ≠ .sErr), List.nil_append]
        · intro q hq'
          have := hqle q hq'
          simpa using this
        · intro _
          simp only [Clean, Bool.and_eq_true]
          refine ⟨hwf, ?_⟩
          by_cases hdr : dropped.length = 0
          · rw [if_pos hdr]; rfl
          · rw [if_neg hdr]
            simp [leftoverWF, hdr, hreq]
        · intro _
          simp only [Clean, Bool.and_eq_true]
          refine ⟨hwf, ?_⟩
          by_cases hdr : dropped.length = 0
          · rw [if_pos hdr]; rfl
          · rw [if_neg hdr]
            simp [leftoverWF, hdr, hreq]
        · simp only [wMeasure, remData_mk, leftoverData_some_self,
            leftoverData_some_ne (by decide : StreamIdent.sOut ≠ .sErr), List.nil_append]
          by_cases hdr : dropped.length = 0
          · rw [if_pos hdr]
            simp only [leftoverData_none, List.nil_append, List.length_append]
            omega
          · rw [if_neg hdr]
            simp only [leftoverData_some_self,
              leftoverData_some_ne (by decide : StreamIdent.sOut ≠ .sErr), List.nil_append,
              List.length_append]
            omega
        · intro _ _
          have htk' : taken.length ≠ 0 := htk hd
          simp only [wMeasure, remData_mk, leftoverData_some_self,
            leftoverData_some_ne (by decide : StreamIdent.sOut ≠ .sErr), List.nil_append]
          by_cases hdr : dropped.length = 0
          · rw [if_pos hdr]
            simp only [leftoverData_none, List.nil_append, List.length_append]
            omega
          · rw [if_neg hdr]
            simp only [leftoverData_some_self,
              leftoverData_some_ne (by decide : StreamIdent.sOut ≠ .sErr), List.nil_append,
              List.length_append]
            omega
    | sErr =>
      rcases grow_err_char lim d [] [] hq0 with
        ⟨hgrow, hq'⟩ | ⟨taken, dropped, hsplit, hgrow, hqle, htk⟩
      · rw [hgrow] at hr
        have hr2 : finishRead req (wreadLoop lim msgs deadline helpers none [] ([] ++ d)) = r := hr
        obtain ⟨h1, h2, ⟨δo, δe, ho, he, hco, hce⟩, hquota, hlwf', hsub, hwfok, hwffalse,
          hlen, hprog, hbudget, houtc, hdone⟩ :=
          wreadLoop_spec allowErr lim req msgs deadline helpers [] ([] ++ d) _ rfl hwf hq'
        set lr := wreadLoop lim msgs deadline helpers none [] ([] ++ d) with hlr
        have hne : lr.errvec.length ≠ 0 → req.hasErr = true := fun _ => hreq
        have hno : lr.outvec.length ≠ 0 → req.hasOut = true := by
          intro hl
          refine req_of_delta hwf hco ?_
          rw [ho] at hl
          simpa using hl
        have hfin : finishRead req lr =
            ⟨lr.outcome, (if req.hasOut then some lr.outvec else none),
              (if req.hasErr then some lr.errvec else none),
              ⟨lr.msgs, lr.helper_set, req, lr.leftover⟩⟩ := by
          unfold finishRead
          rw [as_options_spec req lr.outvec lr.errvec hno hne]
        rw [hfin] at hr2
        subst hr2
        have hlenOut : δo.length + (leftoverData .sOut lr.leftover ++ msgsData .sOut lr.msgs).length
            = (msgsData .sOut msgs).length := by
          rw [← List.length_append, hco]
        have hlenErr : δe.length + (leftoverData .sErr lr.leftover ++ msgsData .sErr lr.msgs).length
            = (msgsData .sErr msgs).length := by
          rw [← List.length_append, hce]
        refine ⟨h1, h2, ⟨lr.outvec, lr.errvec, rfl, rfl, ?_, ?_, ?_⟩, rfl, hsub, ?_, ?_,
          hbudget, houtc, ?_, ?_, fun hdn hln ha => hdone hdn hln ha⟩
        · rw [ho, remData_mk, remData_mk,
            leftoverData_some_ne (by decide : StreamIdent.sErr ≠ .sOut), List.nil_append,
            List.nil_append]
          exact hco
        · rw [he, remData_mk, remData_mk, leftoverData_some_self, List.nil_append,
            List.append_assoc, hce]
        · exact hquota
        · intro hok
          simp only [Clean, Bool.and_eq_true]
          exact ⟨hwfok hok, hlwf'⟩
        · intro hfa
          simp only [Clean, Bool.and_eq_true]
          exact ⟨hwffalse hfa, hlwf'⟩
        · simp only [wMeasure, remData_mk, leftoverData_some_self,
            leftoverData_some_ne (by decide : StreamIdent.sErr ≠ .sOut)]
          simp only [List.length_append] at hlenOut hlenErr ⊢
          omega
        · intro _ _
          simp only [wMeasure, remData_mk, leftoverData_some_self,
            leftoverData_some_ne (by decide : StreamIdent.sErr ≠ .sOut)]
          simp only [List.length_append] at hlenOut hlenErr ⊢
          omega
      · rw [hgrow] at hr
        have hr2 : finishRead req ⟨.ok, [], [] ++ taken,
            msgs, helpers,
            (if dropped.length = 0 then none else some (.sErr, dropped))⟩ = r := hr
        have hne : (([] : List Nat) ++ taken).length ≠ 0 → req.hasErr = true := fun _ => hreq
        have hno : ([] : List Nat).length ≠ 0 → req.hasOut = true := fun h => absurd rfl h
        have hfin : finishRead req ⟨.ok, [], [] ++ taken,
            msgs, helpers,
            (if dropped.length = 0 then none else some (.sErr, dropped))⟩ =
            ⟨.ok, (if req.hasOut then some [] else none),
              (if req.hasErr then some ([] ++ taken) else none),
              ⟨msgs, helpers, req,
                (if dropped.length = 0 then none else some (.sErr, dropped))⟩⟩ := by
          unfold finishRead
          rw [as_options_spec req [] ([] ++ taken) hno hne]
        rw [hfin] at hr2
        subst hr2
        have hdlen : d.length = taken.length + dropped.length := by
          rw [hsplit, List.length_append]
        refine ⟨by simp, by simp, ⟨[], [] ++ taken, rfl, rfl, ?_, ?_, ?_⟩, rfl,
          StreamSet.subset_refl _, ?_, ?_, fun _ _ => rfl, fun _ => Or.inl rfl, ?_, ?_,
          fun _ hlim _ => by subst hlim; simp [grow_result] at hgrow⟩
        · rw [remData_mk, remData_mk,
            leftoverData_some_ne (by decide : StreamIdent.sErr ≠ .sOut), List.nil_append,
            List.nil_append]
          by_cases hdr : dropped.length = 0
          · rw [if_pos hdr, leftoverData_none, List.nil_append]
          · rw [if_neg hdr,
              leftoverData_some_ne (by decide : StreamIdent.sErr ≠ .sOut), List.nil_append]
        · rw [remData_mk, remData_mk, leftoverData_some_self, List.nil_append]
          by_cases hdr : dropped.length = 0
          · rw [if_pos hdr, leftoverData_none, List.nil_append]
            have hdnil : dropped = [] := List.length_eq_zero.mp hdr
            rw [hsplit, hdnil, List.append_nil]
          · rw [if_neg hdr, leftoverData_some_self, hsplit, List.append_assoc]
        · intro q hq'
          have := hqle q hq'
          simpa using this
        · intro _
          simp only [Clean, Bool.and_eq_true]
          refine ⟨hwf, ?_⟩
          by_cases hdr : dropped.length = 0
          · rw [if_pos hdr]; rfl
          · rw [if_neg hdr]
            simp [leftoverWF, hdr, hreq]
        · intro _
          simp only [Clean, Bool.and_eq_true]
          refine ⟨hwf, ?_⟩
          by_cases hdr : dropped.length = 0
          · rw [if_pos hdr]; rfl
          · rw [if_neg hdr]
            simp [leftoverWF, hdr, hreq]
        · simp only [wMeasure, remData_mk, leftoverData_some_self,
            leftoverData_some_ne (by decide : StreamIdent.sErr ≠ .sOut), List.nil_append]
          by_cases hdr : dropped.length = 0
          · rw [if_pos hdr]
            simp only [leftoverData_none, List.nil_append, List.length_append]
            omega
          · rw [if_neg hdr]
            simp only [leftoverData_some_self,
              leftoverData_some_ne (by decide : StreamIdent.sErr ≠ .sOut), List.nil_append,
              List.length_append]
            omega
        · intro _ _
          have htk' : taken.length ≠ 0 := htk hd
          simp only [wMeasure, remData_mk, leftoverData_some_self,
            leftoverData_some_ne (by decide : StreamIdent.sErr ≠ .sOut), List.nil_append]
          by_cases hdr : dropped.length = 0
          · rw [if_pos hdr]
            simp only [leftoverData_none, List.nil_append, List.length_append]
            omega
          · rw [if_neg hdr]
            simp only [leftoverData_some_self,
              leftoverData_some_ne (by decide : StreamIdent.sErr ≠ .sOut), List.nil_append,
              List.length_append]
            omega

theorem readDone_iff {s : WState} : readDone s = true ↔ ReadDone s := by
  simp [readDone, ReadDone, Bool.and_eq_true, Option.isNone_iff_eq_none]

theorem remData_nil_of_state_unreq {a : Bool} {s : WState} (hclean : Clean a s = true)
    {i : StreamIdent} (hi : s.requested.mem i = false) : remData i s = [] := by
  simp only [Clean, Bool.and_eq_true] at hclean
  obtain ⟨hwf, hlwf⟩ := hclean
  unfold remData
  rw [msgsData_nil_of_unreq hwf hi, leftoverData_nil_of_unreq hlwf hi]
  rfl

theorem remData_nil_of_done {a : Bool} {s : WState} (hclean : Clean a s = true)
    (hd : ReadDone s) (i : StreamIdent) : remData i s = [] := by
  obtain ⟨h1, h2⟩ := hd
  simp only [Clean, Bool.and_eq_true] at hclean
  obtain ⟨hwf, _⟩ := hclean
  rw [StreamSet.isEmpty_iff] at h1
  rw [h1] at hwf
  have hmsgs : s.msgs = [] := msgsWF_empty_nil hwf
  unfold remData
  rw [hmsgs, h2, leftoverData_none]
  rfl

/-- Repeated quota-limited reads drain exactly the undelivered bytes of each
stream, in order, and end in a fully-delivered state. -/
theorem readAllGo_spec (lim : Option Nat) (hq1 : ∀ q, lim = some q → 1 ≤ q) :
    ∀ (fuel : Nat) (s : WState), Clean false s = true → wMeasure s < fuel →
      ∃ sf, readAllGo lim fuel s = some (remData .sOut s, remData .sErr s, sf) ∧
        ReadDone sf ∧ sf.requested = s.requested ∧ Clean false sf = true := by
  intro fuel
  induction fuel with
  | zero =>
    intro s _ hm
    exact absurd hm (by omega)
  | succ fuel ih =>
    intro s hclean hm
    by_cases hdone : readDone s = true
    · have hd := readDone_iff.mp hdone
      refine ⟨s, ?_, hd, rfl, hclean⟩
      rw [remData_nil_of_done hclean hd, remData_nil_of_done hclean hd]
      unfold readAllGo
      rw [if_pos hdone]
    · have hnd : ¬ ReadDone s := fun h => hdone (readDone_iff.mpr h)
      obtain ⟨_, _, ⟨co, ce, hso, hse, hcono, hcone, _⟩, hreqp, _, _, hcl, hok, _, _, hdec,
        _⟩ :=
        wread_spec false none lim s (wread none lim s) rfl hclean hq1
      have hokk : (wread none lim s).outcome = .ok := hok rfl rfl
      have hcl' : Clean false (wread none lim s).state = true := hcl rfl
      have hdec' : wMeasure (wread none lim s).state < wMeasure s :=
        hdec hnd (by simp)
      obtain ⟨sf, hrec, hdf, hreqf, hclf⟩ :=
        ih (wread none lim s).state hcl' (by omega)
      refine ⟨sf, ?_, hdf, by rw [hreqf, hreqp], hclf⟩
      have hgetO : (wread none lim s).stdout.getD [] = co := by
        rw [hso]
        cases hOut : s.requested.hasOut with
        | true => simp
        | false =>
          have hrem : remData .sOut s = [] :=
            remData_nil_of_state_unreq hclean (i := .sOut) hOut
          rw [hrem] at hcono
          obtain ⟨hco, _⟩ := List.append_eq_nil.mp hcono
          simp [hco]
      have hgetE : (wread none lim s).stderr.getD [] = ce := by
        rw [hse]
        cases hErr : s.requested.hasErr with
        | true => simp
        | false =>
          have hrem : remData .sErr s = [] :=
            remData_nil_of_state_unreq hclean (i := .sErr) hErr
          rw [hrem] at hcone
          obtain ⟨hce, _⟩ := List.append_eq_nil.mp hcone
          simp [hce]
      unfold readAllGo
      rw [if_neg hdone, if_pos hokk, hrec]
      show some ((wread none lim s).stdout.getD [] ++ remData .sOut (wread none lim s).state,
        (wread none lim s).stderr.getD [] ++ remData .sErr (wread none lim s).state, sf) =
        some (remData .sOut s, remData .sErr s, sf)
      rw [hgetO, hgetE, hcono, hcone]

/-- A single `read` with no deadline and no size limit delivers everything
and ends fully delivered. -/

theorem wread_unlimited (s : WState) (hclean : Clean false s = true) :
    (wread none none s).outcome = .ok ∧
    (wread none none s).stdout =
      (if s.requested.hasOut then some (remData .sOut s) else none) ∧
    (wread none none s).stderr =
      (if s.requested.hasErr then some (remData .sErr s) else none) ∧
    ReadDone (wread none none s).state := by
  obtain ⟨_, _, ⟨co, ce, hso, hse, hcono, hcone, _⟩, hreqp, _, hclok, _, hok, _, _, _,
    hdone⟩ :=
    wread_spec false none none s (wread none none s) rfl hclean (by intro q h; cases h)
  have hokk := hok rfl rfl
  have hd := hdone rfl rfl rfl
  have hclean' := hclok hokk
  have hremO : remData .sOut (wread none none s).state = [] :=
    remData_nil_of_done hclean' hd .sOut
  have hremE : remData .sErr (wread none none s).state = [] :=
    remData_nil_of_done hclean' hd .sErr
  rw [hremO] at hcono
  rw [hremE] at hcone
  rw [List.append_nil] at hcono hcone
  exact ⟨hokk, by rw [hso, hcono], by rw [hse, hcone], hd⟩

end Worker

namespace Posix

theorem sanity_check_5 :
    (posix_read echoEnv none 30 (initWorld 1 true true true [9])
      (new true true true (some [1, 2]))).1 = RIOutcome.ok := by decide

theorem sanity_check_6 :
    (posix_read echoEnv none 30 (initWorld 1 true true true [9])
      (new true true true (some [1, 2]))).2.1 = some [1, 2] := by decide

theorem sanity_check_7 :
    (posix_read echoEnv none 30 (initWorld 1 true true true [9])
      (new true true true (some [1, 2]))).2.2.1 = some [9] := by decide

/-- The model carries the mutual-blocking hazard: in this state the child is
stuck inside its stdout write (a byte held, the out pipe full) and so does
not read its stdin, the stdin pipe is full so the parent's write arm is not
ready, and only the ready stdout read arm can unblock the system — a parent
that only writes would make no progress. -/

theorem sanity_check_8 :
    childStep ⟨1, [3], [2], [], false, true, false, [1], [], false, false⟩ = none ∧
    (poll3 echoEnv ⟨1, [3], [2], [], false, true, false, [1], [], false, false⟩
      true true false).2.1 = false ∧
    (poll3 echoEnv ⟨1, [3], [2], [], false, true, false, [1], [], false, false⟩
      true true false).2.2.1 = true := by decide

theorem read_into_zero {W : Type} (env : PEnv W) (lim : Option Nat) (w : W) (c : PComm)
    (oRef eRef : Bool) (outvec errvec : List Nat) :
    read_into env lim 0 w c oRef eRef outvec errvec =
      ⟨.fuelOut, w, c, oRef, eRef, outvec, errvec, []⟩ := rfl

theorem read_into_succ {W : Type} (env : PEnv W) (lim : Option Nat) (fuel : Nat) (w : W)
    (c : PComm) (oRef eRef : Bool) (outvec errvec : List Nat) :
    read_into env lim (fuel + 1) w c oRef eRef outvec errvec =
      (if (match lim with
           | some l => decide (outvec.length + errvec.length ≥ l)
           | none => false) then
        ⟨.ok, w, c, oRef, eRef, outvec, errvec, []⟩
      else if c.stdin = false ∧ oRef = false ∧ eRef = false then
        ⟨.ok, w, c, oRef, eRef, outvec, errvec, []⟩
      else if (poll3 env w c.stdin oRef eRef).2.1 = false ∧
          (poll3 env w c.stdin oRef eRef).2.2.1 = false ∧
          (poll3 env w c.stdin oRef eRef).2.2.2 = false then
        ⟨.timedOut, (poll3 env w c.stdin oRef eRef).1, c, oRef, eRef, outvec, errvec, []⟩
      else
        match writeArm env (poll3 env w c.stdin oRef eRef).1 c
            (poll3 env w c.stdin oRef eRef).2.1 with
        | .inr (w2, e) => ⟨.ioerr e, w2, c, oRef, eRef, outvec, errvec, []⟩
        | .inl (w2, c2, evIn) =>
          match readArm env.readO w2 (poll3 env w c.stdin oRef eRef).2.2.1 oRef outvec lim
              (outvec.length + errvec.length) with
          | .inr (w3, e) => ⟨.ioerr e, w3, c2, oRef, eRef, outvec, errvec, evIn⟩
          | .inl (w3, oRef2, outvec2, nO) =>
            match readArm env.readE w3 (poll3 env w c.stdin oRef eRef).2.2.2 eRef errvec lim
                (outvec2.length + errvec.length) with
            | .inr (w4, e) =>
              ⟨.ioerr e, w4, c2, oRef2, eRef, outvec2, errvec,
                evIn ++ (nO.map PEvent.evReadO).toList⟩
            | .inl (w4, eRef2, errvec2, nE) =>
              let rec1 := read_into env lim fuel w4 c2 oRef2 eRef2 outvec2 errvec2
              ⟨rec1.res, rec1.w, rec1.comm, rec1.oRef, rec1.eRef, rec1.outvec, rec1.errvec,
                evIn ++ (nO.map PEvent.evReadO).toList ++ (nE.map PEvent.evReadE).toList
                  ++ rec1.events⟩) := rfl

theorem writeArm_false {W : Type} (env : PEnv W) (w : W) (c : PComm) :
    writeArm env w c false = .inl (w, c, []) := rfl

theorem writeArm_true {W : Type} (env : PEnv W) (w : W) (c : PComm) :
    writeArm env w c true =
      (match env.write w ((c.input_data.drop c.input_pos).take
          (min 4096 (c.input_data.drop c.input_pos).length)) with
       | (w2, .inr e) => .inr (w2, e)
       | (w2, .inl n) =>
         if c.input_pos + n = c.input_data.length then
           .inl (w2, { c with stdin := false, input_data := [], input_pos := c.input_pos + n },
             [PEvent.wrote ((c.input_data.drop c.input_pos).take
               (min 4096 (c.input_data.drop c.input_pos).length)).length n
               (c.input_data.drop c.input_pos).length])
         else
           .inl (w2, { c with input_pos := c.input_pos + n },
             [PEvent.wrote ((c.input_data.drop c.input_pos).take
               (min 4096 (c.input_data.drop c.input_pos).length)).length n
               (c.input_data.drop c.input_pos).length])) := rfl

/-- Exhaustive description of the stdin arm. -/

theorem writeArm_spec {W : Type} (env : PEnv W) (hwr : ∀ w chunk n,
      (env.write w chunk).2 = .inl n → n ≤ chunk.length)
    (w : W) (c : PComm) (inR : Bool) (hin : inR = true → c.stdin = true) :
    (∃ w2 e, writeArm env w c inR = .inr (w2, e)) ∨
    (∃ w2 c2 evIn, writeArm env w c inR = .inl (w2, c2, evIn) ∧
      (c2.stdin = true → c.stdin = true) ∧
      c2.stdout = c.stdout ∧ c2.stderr = c.stderr ∧
      ((c.input_pos ≤ c.input_data.length) →
        c2.stdin = true → c2.input_pos ≤ c2.input_data.length) ∧
      (evIn = [] ∨ ∃ a n rem, evIn = [PEvent.wrote a n rem] ∧ a = min 4096 rem) ∧
      (inR = false → c2 = c ∧ evIn = [])) := by
  cases inR with
  | false =>
    right
    exact ⟨w, c, [], writeArm_false env w c, fun h => h, rfl, rfl, fun h1 h2 => h1, Or.inl rfl,
      fun _ => ⟨rfl, rfl⟩⟩
  | true =>
    have hstdin : c.stdin = true := hin rfl
    rcases hw : env.write w ((c.input_data.drop c.input_pos).take
        (min 4096 (c.input_data.drop c.input_pos).length)) with ⟨w2, n | e⟩
    · right
      have hn : n ≤ ((c.input_data.drop c.input_pos).take
          (min 4096 (c.input_data.drop c.input_pos).length)).length := by
        apply hwr w _ n
        rw [hw]
      by_cases hdone : c.input_pos + n = c.input_data.length
      · refine ⟨w2, { c with stdin := false, input_data := [], input_pos := c.input_pos + n },
          [PEvent.wrote ((c.input_data.drop c.input_pos).take
            (min 4096 (c.input_data.drop c.input_pos).length)).length n
            (c.input_data.drop c.input_pos).length], ?_, ?_, rfl, rfl, ?_, ?_, ?_⟩
        · rw [writeArm_true, hw]
          simp only [if_pos hdone]
        · intro h; simp at h
        · intro _ h; simp at h
        · right
          refine ⟨_, n, _, rfl, ?_⟩
          simp only [List.length_take, List.length_drop]
          omega
        · intro h; cases h
      · refine ⟨w2, { c with input_pos := c.input_pos + n },
          [PEvent.wrote ((c.input_data.drop c.input_pos).take
            (min 4096 (c.input_data.drop c.input_pos).length)).length n
            (c.input_data.drop c.input_pos).length], ?_, ?_, rfl, rfl, ?_, ?_, ?_⟩
        · rw [writeArm_true, hw]
          simp only [if_neg hdone]
        · intro _; exact hstdin
        · intro hpos _
          simp only [List.length_take, List.length_drop] at hn
          show c.input_pos + n ≤ c.input_data.length
          omega
        · right
          refine ⟨_, n, _, rfl, ?_⟩
          simp only [List.length_take, List.length_drop]
          omega
        · intro h; cases h
    · left
      refine ⟨w2, e, ?_⟩
      rw [writeArm_true, hw]

theorem do_read_quota_done {W : Type} (read1 : W → Nat → W × (List Nat ⊕ IOErrorKind))
    (w : W) (src : Bool) (dest : List Nat) (l total : Nat) (h : total ≥ l) :
    do_read read1 w src dest (some l) total = .inl (w, src, dest, none) := by
  unfold do_read
  simp only [if_pos h]

theorem do_read_go {W : Type} (read1 : W → Nat → W × (List Nat ⊕ IOErrorKind))
    (w : W) (src : Bool) (dest : List Nat) (lim : Option Nat) (total : Nat)
    (h : ∀ l, lim = some l → ¬ total ≥ l) :
    do_read read1 w src dest lim total =
      (match read1 w (bufSize lim total) with
       | (w', .inr e) => .inr (w', e)
       | (w', .inl chunk) =>
         if chunk.length ≠ 0 then .inl (w', src, dest ++ chunk, some chunk.length)
         else .inl (w', false, dest, some 0)) := by
  unfold do_read bufSize
  match lim with
  | none => rfl
  | some l =>
    simp only [if_neg (h l rfl)]
    by_cases hlt : l - total < 4096
    · simp only [if_pos hlt]
    · simp only [if_neg hlt]

theorem bufSize_le {l total : Nat} (h : ¬ total ≥ l) : bufSize (some l) total ≤ l - total := by
  unfold bufSize
  by_cases hlt : l - total < 4096
  · simp only [if_pos hlt]
    omega
  · simp only [if_neg hlt]
    omega

/-- Exhaustive description of `do_read`. -/

theorem do_read_spec {W : Type} (read1 : W → Nat → W × (List Nat ⊕ IOErrorKind))
    (hrd : ∀ w n cch, (read1 w n).2 = .inl cch → cch.length ≤ n)
    (w : W) (src : Bool) (dest : List Nat) (lim : Option Nat) (total : Nat) :
    (∃ w' e, do_read read1 w src dest lim total = .inr (w', e)) ∨
    (∃ w' src' δ nr, do_read read1 w src dest lim total = .inl (w', src', dest ++ δ, nr) ∧
      (src' = true → src = true) ∧
      (∀ q, lim = some q → δ.length ≤ q - total) ∧
      (nr = none → δ = [] ∧ src' = src) ∧
      (nr = some 0 → δ = [] ∧ src' = false) ∧
      (∀ k, nr = some (k + 1) → src' = src ∧ δ.length = k + 1)) := by
  by_cases hdone : ∃ l, lim = some l ∧ total ≥ l
  · obtain ⟨l, hlim, htot⟩ := hdone
    subst hlim
    right
    refine ⟨w, src, [], none, ?_, fun h => h, ?_, fun _ => ⟨rfl, rfl⟩,
      by intro h; simp at h, by intro k h; simp at h⟩
    · rw [List.append_nil]
      exact do_read_quota_done read1 w src dest l total htot
    · intro q hq
      simp
  · have hgo : ∀ l, lim = some l → ¬ total ≥ l := by
      intro l hl
      intro hc
      exact hdone ⟨l, hl, hc⟩
    rcases hr : read1 w (bufSize lim total) with ⟨w', chunk | e⟩
    · have hlen : chunk.length ≤ bufSize lim total := by
        apply hrd w _ chunk
        rw [hr]
      by_cases hc : chunk.length ≠ 0
      · right
        refine ⟨w', src, chunk, some chunk.length, ?_, fun h => h, ?_, by intro h; simp at h,
          ?_, ?_⟩
        · rw [do_read_go read1 w src dest lim total hgo, hr]
          simp only [if_pos hc]
        · intro q hq
          subst hq
          exact le_trans hlen (bufSize_le (hgo q rfl))
        · intro h
          injection h with h
          exact absurd h hc
        · intro k h
          injection h with h
          exact ⟨rfl, h⟩
      · right
        rw [not_not] at hc
        refine ⟨w', false, [], some 0, ?_, ?_, ?_, by intro h; simp at h, fun _ => ⟨rfl, rfl⟩,
          ?_⟩
        · rw [List.append_nil, do_read_go read1 w src dest lim total hgo, hr]
          simp only [hc, if_neg (by simp : ¬ (0 ≠ 0))]
        · intro h
          cases h
        · intro q hq
          simp
        · intro k h
          injection h with h
          cases h
    · left
      refine ⟨w', e, ?_⟩
      rw [do_read_go read1 w src dest lim total hgo, hr]

theorem readArm_false {W : Type} (read1 : W → Nat → W × (List Nat ⊕ IOErrorKind))
    (w : W) (ref : Bool) (dest : List Nat) (lim : Option Nat) (total : Nat) :
    readArm read1 w false ref dest lim total = .inl (w, ref, dest, none) := rfl

theorem readArm_true (W : Type) (read1 : W → Nat → W × (List Nat ⊕ IOErrorKind))
    (w : W) (ref : Bool) (dest : List Nat) (lim : Option Nat) (total : Nat) :
    readArm read1 w true ref dest lim total = do_read read1 w ref dest lim total := rfl

/-- Exhaustive description of a read arm. -/

theorem readArm_spec {W : Type} (read1 : W → Nat → W × (List Nat ⊕ IOErrorKind))
    (hrd : ∀ w n cch, (read1 w n).2 = .inl cch → cch.length ≤ n)
    (w : W) (ready ref : Bool) (dest : List Nat) (lim : Option Nat) (total : Nat) :
    (∃ w' e, readArm read1 w ready ref dest lim total = .inr (w', e)) ∨
    (∃ w' ref' δ nr, readArm read1 w ready ref dest lim total = .inl (w', ref', dest ++ δ, nr) ∧
      (ref' = true → ref = true) ∧
      (∀ q, lim = some q → δ.length ≤ q - total) ∧
      (nr = none → δ = [] ∧ ref' = ref) ∧
      (nr = some 0 → δ = [] ∧ ref' = false) ∧
      (∀ k, nr = some (k + 1) → ref' = ref ∧ δ.length = k + 1) ∧
      (ready = false → nr = none)) := by
  cases ready with
  | false =>
    right
    refine ⟨w, ref, [], none, ?_, fun h => h, fun q hq => by simp, fun _ => ⟨rfl, rfl⟩,
      by intro h; simp at h, by intro k h; simp at h, fun _ => rfl⟩
    rw [List.append_nil]
    exact readArm_false read1 w ref dest lim total
  | true =>
    rcases do_read_spec read1 hrd w ref dest lim total with
      ⟨w', e, heq⟩ | ⟨w', ref', δ, nr, heq, h1, h2, h3, h4, h5⟩
    · left
      exact ⟨w', e, by rw [readArm_true, heq]⟩
    · right
      exact ⟨w', ref', δ, nr, by rw [readArm_true, heq], h1, h2, h3, h4, h5,
        by intro h; simp at h⟩

/-- `read_into` only ever appends to the capture vectors: every exit — normal,
timeout, quota, fuel, or I/O error — returns the vectors it accumulated,
never discarding previously captured bytes (communicate.rs:105-160 mutates
the caller's vectors in place, so a failure return leaves the capture
intact). -/

theorem read_into_extends {W : Type} (env : PEnv W)
    (hro : ∀ w n cch, (env.readO w n).2 = .inl cch → cch.length ≤ n)
    (hre : ∀ w n cch, (env.readE w n).2 = .inl cch → cch.length ≤ n)
    (lim : Option Nat) :
    ∀ (fuel : Nat) (w : W) (c : PComm) (oRef eRef : Bool) (outvec errvec : List Nat),
      ∃ δo δe,
        (read_into env lim fuel w c oRef eRef outvec errvec).outvec = outvec ++ δo ∧
        (read_into env lim fuel w c oRef eRef outvec errvec).errvec = errvec ++ δe := by
  intro fuel
  induction fuel with
  | zero =>
    intro w c oRef eRef outvec errvec
    exact ⟨[], [], by simp [read_into_zero], by simp [read_into_zero]⟩
  | succ n ih =>
    intro w c oRef eRef outvec errvec
    rw [read_into_succ]
    split_ifs with h1 h2 h3
    · exact ⟨[], [], by simp, by simp⟩
    · exact ⟨[], [], by simp, by simp⟩
    · exact ⟨[], [], by simp, by simp⟩
    · rcases hwa : writeArm env (poll3 env w c.stdin oRef eRef).1 c
          (poll3 env w c.stdin oRef eRef).2.1 with ⟨w2, c2, evIn⟩ | ⟨w2, e⟩
      · simp only [hwa]
        rcases hra : readArm env.readO w2 (poll3 env w c.stdin oRef eRef).2.2.1 oRef outvec
            lim (outvec.length + errvec.length) with ⟨w3, oRef2, outvec2, nO⟩ | ⟨w3, e⟩
        · -- extract the stdout extension before splitting on the stderr arm
          rcases readArm_spec env.readO hro w2 (poll3 env w c.stdin oRef eRef).2.2.1 oRef
              outvec lim (outvec.length + errvec.length) with
            ⟨w', e', heq⟩ | ⟨w', ref', δ, nr, heq, _⟩
          · rw [heq] at hra
            simp at hra
          · rw [hra] at heq
            injection heq with heq
            injection heq with e1 heq
            injection heq with e2 heq
            injection heq with e3 e4
            simp only [hra]
            rcases hrb : readArm env.readE w3 (poll3 env w c.stdin oRef eRef).2.2.2 eRef
                errvec lim (outvec2.length + errvec.length) with
              ⟨w4, eRef2, errvec2, nE⟩ | ⟨w4, e⟩
            · rcases readArm_spec env.readE hre w3 (poll3 env w c.stdin oRef eRef).2.2.2 eRef
                  errvec lim (outvec2.length + errvec.length) with
                ⟨w', e', heq2⟩ | ⟨w', ref', δ2, nr2, heq2, _⟩
              · rw [heq2] at hrb
                simp at hrb
              · rw [hrb] at heq2
                injection heq2 with heq2
                injection heq2 with f1 heq2
                injection heq2 with f2 heq2
                injection heq2 with f3 f4
                simp only [hrb]
                obtain ⟨δo2, δe2, ho2, he2⟩ := ih w4 c2 oRef2 eRef2 outvec2 errvec2
                refine ⟨δ ++ δo2, δ2 ++ δe2, ?_, ?_⟩
                · show (read_into env lim n w4 c2 oRef2 eRef2 outvec2 errvec2).outvec =
                    outvec ++ (δ ++ δo2)
                  rw [ho2, e3, List.append_assoc]
                · show (read_into env lim n w4 c2 oRef2 eRef2 outvec2 errvec2).errvec =
                    errvec ++ (δ2 ++ δe2)
                  rw [he2, f3, List.append_assoc]
            · simp only [hrb]
              exact ⟨δ, [], by simpa using e3, by simp⟩
        · simp only [hra]
          exact ⟨[], [], by simp, by simp⟩
      · simp only [hwa]
        exact ⟨[], [], by simp, by simp⟩

theorem nro_cons_nonO {x : PEvent} (h : isReadO x = false) (l : List PEvent) :
    noReadOAfterEof (x :: l) = noReadOAfterEof l := by
  cases x with
  | evReadO n => simp [isReadO] at h
  | wrote a n r => rfl
  | evReadE n => rfl

theorem nro_append_nonO {l1 : List PEvent} (h : ∀ ev ∈ l1, isReadO ev = false)
    (l2 : List PEvent) : noReadOAfterEof (l1 ++ l2) = noReadOAfterEof l2 := by
  induction l1 with
  | nil => rfl
  | cons x rest ih =>
    rw [List.cons_append, nro_cons_nonO (h x (by simp))]
    exact ih fun ev hev => h ev (by simp [hev])

theorem nro_cons_zero (l : List PEvent) :
    noReadOAfterEof (.evReadO 0 :: l) = l.all fun e => !isReadO e := rfl

theorem nro_cons_succ (n : Nat) (l : List PEvent) :
    noReadOAfterEof (.evReadO (n + 1) :: l) = noReadOAfterEof l := rfl

theorem nre_cons_nonE {x : PEvent} (h : isReadE x = false) (l : List PEvent) :
    noReadEAfterEof (x :: l) = noReadEAfterEof l := by
  cases x with
  | evReadE n => simp [isReadE] at h
  | wrote a n r => rfl
  | evReadO n => rfl

theorem nre_append_nonE {l1 : List PEvent} (h : ∀ ev ∈ l1, isReadE ev = false)
    (l2 : List PEvent) : noReadEAfterEof (l1 ++ l2) = noReadEAfterEof l2 := by
  induction l1 with
  | nil => rfl
  | cons x rest ih =>
    rw [List.cons_append, nre_cons_nonE (h x (by simp))]
    exact ih fun ev hev => h ev (by simp [hev])

theorem nre_cons_zero (l : List PEvent) :
    noReadEAfterEof (.evReadE 0 :: l) = l.all fun e => !isReadE e := rfl

theorem nre_cons_succ (n : Nat) (l : List PEvent) :
    noReadEAfterEof (.evReadE (n + 1) :: l) = noReadEAfterEof l := rfl

theorem poll3_present {W : Type} (env : PEnv W) (w : W) (fin fout ferr : Bool) :
    ((poll3 env w fin fout ferr).2.1 = true → fin = true) ∧
    ((poll3 env w fin fout ferr).2.2.1 = true → fout = true) ∧
    ((poll3 env w fin fout ferr).2.2.2 = true → ferr = true) := by
  unfold poll3
  refine ⟨?_, ?_, ?_⟩ <;> intro h <;> simp only [Bool.and_eq_true] at h <;> exact h.2

theorem RISpec_triv {W : Type} (lim : Option Nat) (c : PComm) (oRef eRef : Bool)
    (outvec errvec : List Nat) (res : RIOutcome) (w' : W) :
    RISpec lim c oRef eRef outvec errvec ⟨res, w', c, oRef, eRef, outvec, errvec, []⟩ := by
  refine ⟨fun q hq h => h, fun h => h, fun h => h, ⟨rfl, rfl⟩, fun h => h, fun h => h,
    ?_, ?_, ?_, rfl, rfl, ?_⟩
  · intro a n rem h
    simp at h
  · intro _ ev h
    simp at h
  · intro _ ev h
    simp at h
  · intro _ ev h
    simp at h

theorem read_into_spec {W : Type} (env : PEnv W)
    (hwr : ∀ w chunk n, (env.write w chunk).2 = .inl n → n ≤ chunk.length)
    (hro : ∀ w n cch, (env.readO w n).2 = .inl cch → cch.length ≤ n)
    (hre : ∀ w n cch, (env.readE w n).2 = .inl cch → cch.length ≤ n)
    (lim : Option Nat) :
    ∀ (fuel : Nat) (w : W) (c : PComm) (oRef eRef : Bool) (outvec errvec : List Nat),
      RISpec lim c oRef eRef outvec errvec (read_into env lim fuel w c oRef eRef outvec errvec) := by
  intro fuel
  induction fuel with
  | zero =>
    intro w c oRef eRef outvec errvec
    rw [read_into_zero]
    exact RISpec_triv lim c oRef eRef outvec errvec .fuelOut w
  | succ fuel ih =>
    intro w c oRef eRef outvec errvec
    rw [read_into_succ]
    split
    · exact RISpec_triv lim c oRef eRef outvec errvec .ok w
    · split
      · exact RISpec_triv lim c oRef eRef outvec errvec .ok w
      · split
        · exact RISpec_triv lim c oRef eRef outvec errvec .timedOut _
        · have hin : (poll3 env w c.stdin oRef eRef).2.1 = true → c.stdin = true :=
            (poll3_present env w c.stdin oRef eRef).1
          have houtp : (poll3 env w c.stdin oRef eRef).2.2.1 = true → oRef = true :=
            (poll3_present env w c.stdin oRef eRef).2.1
          have herrp : (poll3 env w c.stdin oRef eRef).2.2.2 = true → eRef = true :=
            (poll3_present env w c.stdin oRef eRef).2.2
          rcases writeArm_spec env hwr (poll3 env w c.stdin oRef eRef).1 c
              (poll3 env w c.stdin oRef eRef).2.1 hin with
            ⟨w2, e, hwa⟩ | ⟨w2, c2, evIn, hwa, hmono, hstdout2, hstderr2, hpos2, hev2, hnoin2⟩
          · simp only [hwa]
            exact RISpec_triv lim c oRef eRef outvec errvec (.ioerr e) w2
          · simp only [hwa]
            -- facts about the write-arm results usable in every later branch
            have hevInW : ∀ ev ∈ evIn, isReadO ev = false := by
              rcases hev2 with h | ⟨a, n, rem, h, _⟩ <;> subst h
              · intro ev h; simp at h
              · intro ev h
                simp only [List.mem_singleton] at h
                subst h
                rfl
            have hevInE : ∀ ev ∈ evIn, isReadE ev = false := by
              rcases hev2 with h | ⟨a, n, rem, h, _⟩ <;> subst h
              · intro ev h; simp at h
              · intro ev h
                simp only [List.mem_singleton] at h
                subst h
                rfl
            have hevInWr : ∀ a n rem, PEvent.wrote a n rem ∈ evIn → a = min 4096 rem := by
              rcases hev2 with h | ⟨a', n', rem', h, ha'⟩ <;> subst h
              · intro a n rem h; simp at h
              · intro a n rem h
                simp only [List.mem_singleton, PEvent.wrote.injEq] at h
                obtain ⟨h1, _, h3⟩ := h
                subst h1; subst h3
                exact ha'
            have hc2pos : (c.stdin = true → c.input_pos ≤ c.input_data.length) →
                c2.stdin = true → c2.input_pos ≤ c2.input_data.length := by
              intro hinv
              cases hstdin : c.stdin with
              | true => exact hpos2 (hinv hstdin)
              | false =>
                have hinR : (poll3 env w c.stdin oRef eRef).2.1 = false := by
                  cases hbit : (poll3 env w c.stdin oRef eRef).2.1 with
                  | false => rfl
                  | true => rw [hin hbit] at hstdin; cases hstdin
                obtain ⟨hc2, _⟩ := hnoin2 hinR
                subst hc2
                intro h
                rw [hstdin] at h
                cases h
            have hnowrote : c.stdin = false → evIn = [] := by
              intro hstdin
              have hinR : (poll3 env w c.stdin oRef eRef).2.1 = false := by
                cases hbit : (poll3 env w c.stdin oRef eRef).2.1 with
                | false => rfl
                | true => rw [hin hbit] at hstdin; cases hstdin
              exact (hnoin2 hinR).2
            rcases readArm_spec env.readO hro w2 (poll3 env w c.stdin oRef eRef).2.2.1 oRef
                outvec lim (outvec.length + errvec.length) with
              ⟨w3, e, hra⟩ | ⟨w3, oRef2, δo, nO, hra, homono, hoq, hono, hoz, hosucc, honr⟩
            · simp only [hra]
              refine ⟨fun q hql h => h, hc2pos, hmono, ⟨hstdout2, hstderr2⟩,
                fun h => h, fun h => h, hevInWr, fun _ => hevInW, fun _ => hevInE, ?_, ?_, ?_⟩
              · show noReadOAfterEof evIn = true
                rw [show evIn = evIn ++ [] by simp, nro_append_nonO hevInW]
                rfl
              · show noReadEAfterEof evIn = true
                rw [show evIn = evIn ++ [] by simp, nre_append_nonE hevInE]
                rfl
              · intro hstdin
                rw [hnowrote hstdin]
                intro ev h
                simp at h
            · simp only [hra]
              have hoPartRO : ∀ ev ∈ (nO.map PEvent.evReadO).toList, isReadE ev = false := by
                cases nO <;> intro ev h <;> simp at h
                subst h; rfl
              have hoPartWr : ∀ ev ∈ (nO.map PEvent.evReadO).toList, isWrote ev = false := by
                cases nO <;> intro ev h <;> simp at h
                subst h; rfl
              rcases readArm_spec env.readE hre w3 (poll3 env w c.stdin oRef eRef).2.2.2 eRef
                  errvec lim ((outvec ++ δo).length + errvec.length) with
                ⟨w4, e, hrb⟩ | ⟨w4, eRef2, δe, nE, hrb, hemono, heq2, heno, hez, hesucc, henr⟩
              · simp only [hrb]
                refine ⟨?_, hc2pos, hmono, ⟨hstdout2, hstderr2⟩,
                  homono, fun h => h, ?_, ?_, ?_, ?_, ?_, ?_⟩
                · intro q hql h
                  have := hoq q hql
                  simp only [List.length_append]
                  omega
                · intro a n rem h
                  rw [List.mem_append] at h
                  rcases h with h | h
                  · exact hevInWr a n rem h
                  · exact absurd (hoPartWr _ h) (by simp [isWrote])
                · intro hOref ev hev
                  rw [List.mem_append] at hev
                  rcases hev with hev | hev
                  · exact hevInW ev hev
                  · have houtR : (poll3 env w c.stdin oRef eRef).2.2.1 = false := by
                      cases hbit : (poll3 env w c.stdin oRef eRef).2.2.1 with
                      | false => rfl
                      | true => rw [houtp hbit] at hOref; cases hOref
                    rw [honr houtR] at hev
                    simp at hev
                · intro _ ev hev
                  rw [List.mem_append] at hev
                  rcases hev with hev | hev
                  · exact hevInE ev hev
                  · exact hoPartRO ev hev
                · rw [nro_append_nonO hevInW]
                  cases hnO : nO with
                  | none => rfl
                  | some n =>
                    cases n with
                    | zero => rw [show ((some 0).map PEvent.evReadO).toList =
                        [PEvent.evReadO 0] from rfl, nro_cons_zero]; rfl
                    | succ k => rw [show ((some (k+1)).map PEvent.evReadO).toList =
                        [PEvent.evReadO (k+1)] from rfl, nro_cons_succ]; rfl
                · rw [nre_append_nonE hevInE]
                  cases nO <;> rfl
                · intro hstdin ev hev
                  rw [hnowrote hstdin] at hev
                  simp only [List.nil_append] at hev
                  exact hoPartWr ev hev
              · simp only [hrb]
                obtain ⟨hrec1, hrec2, hrec3, ⟨hrec4a, hrec4b⟩, hrec5, hrec6, hrec7, hrec8,
                  hrec9, hrec10, hrec11, hrec12⟩ :=
                  ih w4 c2 oRef2 eRef2 (outvec ++ δo) (errvec ++ δe)
                have hePartRO : ∀ ev ∈ (nE.map PEvent.evReadE).toList, isReadO ev = false := by
                  cases nE <;> intro ev h <;> simp at h
                  subst h; rfl
                have hePartWr : ∀ ev ∈ (nE.map PEvent.evReadE).toList, isWrote ev = false := by
                  cases nE <;> intro ev h <;> simp at h
                  subst h; rfl
                refine ⟨?_, ?_, ?_, ?_, ?_, ?_, ?_, ?_, ?_, ?_, ?_, ?_⟩
                · intro q hql h
                  apply hrec1 q hql
                  have h1 := hoq q hql
                  have h2 := heq2 q hql
                  simp only [List.length_append] at h2 ⊢
                  omega
                · intro hinv h
                  exact hrec2 (hc2pos hinv) h
                · intro h
                  exact hmono (hrec3 h)
                · exact ⟨by rw [hrec4a, hstdout2], by rw [hrec4b, hstderr2]⟩
                · intro h
                  exact homono (hrec5 h)
                · intro h
                  exact hemono (hrec6 h)
                · intro a n rem h
                  simp only [List.append_assoc, List.mem_append] at h
                  rcases h with h | h | h | h
                  · exact hevInWr a n rem h
                  · exact absurd (hoPartWr _ h) (by simp [isWrote])
                  · exact absurd (hePartWr _ h) (by simp [isWrote])
                  · exact hrec7 a n rem h
                · intro hOref ev hev
                  have houtR : (poll3 env w c.stdin oRef eRef).2.2.1 = false := by
                    cases hbit : (poll3 env w c.stdin oRef eRef).2.2.1 with
                    | false => rfl
                    | true => rw [houtp hbit] at hOref; cases hOref
                  have hnO : nO = none := honr houtR
                  obtain ⟨hδo, hoRef2⟩ := hono hnO
                  subst hnO
                  simp only [List.append_assoc, List.mem_append] at hev
                  rcases hev with hev | hev | hev | hev
                  · exact hevInW ev hev
                  · simp at hev
                  · exact hePartRO ev hev
                  · exact hrec8 (by rw [hoRef2, hOref]) ev hev
                · intro hEref ev hev
                  have herrR : (poll3 env w c.stdin oRef eRef).2.2.2 = false := by
                    cases hbit : (poll3 env w c.stdin oRef eRef).2.2.2 with
                    | false => rfl
                    | true => rw [herrp hbit] at hEref; cases hEref
                  have hnE : nE = none := henr herrR
                  obtain ⟨hδe, heRef2⟩ := heno hnE
                  subst hnE
                  simp only [List.append_assoc, List.mem_append] at hev
                  rcases hev with hev | hev | hev | hev
                  · exact hevInE ev hev
                  · exact hoPartRO ev hev
                  · simp at hev
                  · exact hrec9 (by rw [heRef2, hEref]) ev hev
                · simp only [List.append_assoc]
                  rw [nro_append_nonO hevInW]
                  cases hnO : nO with
                  | none =>
                    rw [show ((none : Option Nat).map PEvent.evReadO).toList = [] from rfl,
                      List.nil_append, nro_append_nonO hePartRO]
                    exact hrec10
                  | some n =>
                    cases n with
                    | zero =>
                      obtain ⟨hδo, hoRef2⟩ := hoz hnO
                      rw [show ((some 0).map PEvent.evReadO).toList = [PEvent.evReadO 0]
                        from rfl, List.singleton_append, nro_cons_zero, List.all_append]
                      have h1 : ((nE.map PEvent.evReadE).toList.all fun e => !isReadO e) = true := by
                        rw [List.all_eq_true]
                        intro ev hev
                        rw [hePartRO ev hev]
                        rfl
                      have h2 : ((read_into env lim fuel w4 c2 oRef2 eRef2 (outvec ++ δo)
                          (errvec ++ δe)).events.all fun e => !isReadO e) = true := by
                        rw [List.all_eq_true]
                        intro ev hev
                        rw [hrec8 hoRef2 ev hev]
                        rfl
                      rw [h1, h2]
                      rfl
                    | succ k =>
                      rw [show ((some (k + 1)).map PEvent.evReadO).toList =
                        [PEvent.evReadO (k + 1)] from rfl, List.singleton_append, nro_cons_succ,
                        nro_append_nonO hePartRO]
                      exact hrec10
                · simp only [List.append_assoc]
                  rw [nre_append_nonE hevInE, nre_append_nonE hoPartRO]
                  cases hnE : nE with
                  | none =>
                    rw [show ((none : Option Nat).map PEvent.evReadE).toList = [] from rfl,
                      List.nil_append]
                    exact hrec11
                  | some n =>
                    cases n with
                    | zero =>
                      obtain ⟨hδe, heRef2⟩ := hez hnE
                      rw [show ((some 0).map PEvent.evReadE).toList = [PEvent.evReadE 0]
                        from rfl, List.singleton_append, nre_cons_zero]
                      rw [List.all_eq_true]
                      intro ev hev
                      rw [hrec9 heRef2 ev hev]
                      rfl
                    | succ k =>
                      rw [show ((some (k + 1)).map PEvent.evReadE).toList =
                        [PEvent.evReadE (k + 1)] from rfl, List.singleton_append, nre_cons_succ]
                      exact hrec11
                · intro hstdin ev hev
                  have hinR : (poll3 env w c.stdin oRef eRef).2.1 = false := by
                    cases hbit : (poll3 env w c.stdin oRef eRef).2.1 with
                    | false => rfl
                    | true => rw [hin hbit] at hstdin; cases hstdin
                  obtain ⟨hc2, hevnil⟩ := hnoin2 hinR
                  rw [hevnil] at hev
                  simp only [List.nil_append, List.append_assoc, List.mem_append] at hev
                  rcases hev with hev | hev | hev
                  · exact hoPartWr ev hev
                  · exact hePartWr ev hev
                  · refine hrec12 ?_ ev hev
                    rw [hc2, hstdin]

/-- What any one child action preserves and decreases: connection flags and
`stdinClosed` are untouched, the connected flows are rearranged but not
changed, `exited` is never reset, and both measures go down. -/

theorem childStep_some {w w' : World} (h : childStep w = some w') :
    w'.cap = w.cap ∧ w'.stdinClosed = w.stdinClosed ∧ w'.outConn = w.outConn ∧
    w'.errConn = w.errConn ∧
    (w.outConn = true →
      w'.outPipe ++ (w'.pendingEcho ++ w'.stdinPipe) =
        w.outPipe ++ (w.pendingEcho ++ w.stdinPipe)) ∧
    (w.errConn = true → w'.errPipe ++ w'.pendingErr = w.errPipe ++ w.pendingErr) ∧
    (w.exited = true → w'.exited = true) ∧
    childMeasure w' < childMeasure w ∧
    worldWeight w' ≤ worldWeight w := by
  unfold childStep at h
  split_ifs at h with h1 h2 h3 h4 h5 h6 h7
  · injection h with h
    subst h
    have hpe : 0 < w.pendingEcho.length := List.length_pos.mpr h1.1
    have hk : 0 < w.cap - w.outPipe.length := by
      have := h1.2
      omega
    refine ⟨rfl, rfl, rfl, rfl, ?_, fun _ => rfl, fun he => he, ?_, ?_⟩
    · intro _
      rw [List.append_assoc, ← List.append_assoc (List.take _ _), List.take_append_drop]
    · simp only [childMeasure, List.length_drop]
      omega
    · simp only [worldWeight, List.length_append, List.length_take, List.length_drop]
      omega
  · injection h with h
    subst h
    have hsp : 0 < w.stdinPipe.length := List.length_pos.mpr h2.2.1
    refine ⟨rfl, rfl, rfl, rfl, ?_, fun _ => rfl, fun he => he, ?_, ?_⟩
    · intro _
      simp [h2.1]
    · simp only [childMeasure, h2.1, List.length_nil]
      omega
    · simp only [worldWeight, h2.1, List.length_nil]
      omega
  · injection h with h
    subst h
    have hsp : 0 < w.stdinPipe.length := List.length_pos.mpr h2.2.1
    refine ⟨rfl, rfl, rfl, rfl, fun hoc => absurd hoc h3, fun _ => rfl, fun he => he,
      ?_, ?_⟩
    · simp only [childMeasure, h2.1, List.length_nil]
      omega
    · simp only [worldWeight, h2.1, List.length_nil]
      omega
  · injection h with h
    subst h
    refine ⟨rfl, rfl, rfl, rfl, fun _ => rfl, fun _ => rfl, fun he => he, ?_, ?_⟩
    · simp [childMeasure, h4.2.2.2]
    · simp [worldWeight, h4.2.2.2]
  · injection h with h
    subst h
    have hpe : 0 < w.pendingErr.length := List.length_pos.mpr h5.2.1
    have hk : 0 < w.cap - w.errPipe.length := by
      rcases h5.2.2 with hc | hc
      · rw [h6] at hc
        cases hc
      · omega
    refine ⟨rfl, rfl, rfl, rfl, fun _ => rfl, ?_, fun he => he, ?_, ?_⟩
    · intro _
      rw [List.append_assoc, List.take_append_drop]
    · simp only [childMeasure, List.length_drop]
      omega
    · simp only [worldWeight, List.length_append, List.length_take, List.length_drop]
      omega
  · injection h with h
    subst h
    have hpe : 0 < w.pendingErr.length := List.length_pos.mpr h5.2.1
    refine ⟨rfl, rfl, rfl, rfl, fun _ => rfl, fun hec => absurd hec h6, fun he => he, ?_, ?_⟩
    · simp only [childMeasure, List.length_nil]
      omega
    · simp only [worldWeight, List.length_nil]
      omega
  · injection h with h
    subst h
    refine ⟨rfl, rfl, rfl, rfl, fun _ => rfl, fun _ => rfl, fun _ => rfl, ?_, ?_⟩
    · simp [childMeasure, h7.2.2]
    · simp [worldWeight, h7.2.2]

/-- Any one child action preserves the world invariant. -/

theorem childStep_winv {sOut sErr : Bool} {w w' : World} (hI : WInv sOut sErr w)
    (h : childStep w = some w') : WInv sOut sErr w' := by
  obtain ⟨hcap, hoc, hec, hid, hex, hpe⟩ := hI
  unfold childStep at h
  split_ifs at h with h1 h2 h3 h4 h5 h6 h7
  · injection h with h
    subst h
    refine ⟨hcap, hoc, hec, ?_, ?_, ?_⟩
    · intro hd
      have hd' : w.inDone = true := hd
      exact absurd (hid hd').2.2 h1.1
    · intro he
      have he' : w.exited = true := he
      exact absurd (hex he').2.1 h1.1
    · intro hs
      exact absurd (hpe hs) h1.1
  · injection h with h
    subst h
    refine ⟨hcap, hoc, hec, ?_, ?_, ?_⟩
    · intro hd
      have hd' : w.inDone = true := hd
      rw [h2.2.2] at hd'
      cases hd'
    · intro he
      have he' : w.exited = true := he
      have hd' := (hex he').1
      rw [h2.2.2] at hd'
      cases hd'
    · intro hs
      rw [hs] at hoc
      exact absurd h3 (by simp [hoc])
  · injection h with h
    subst h
    refine ⟨hcap, hoc, hec, ?_, ?_, fun _ => rfl⟩
    · intro hd
      have hd' : w.inDone = true := hd
      rw [h2.2.2] at hd'
      cases hd'
    · intro he
      have he' : w.exited = true := he
      have hd' := (hex he').1
      rw [h2.2.2] at hd'
      cases hd'
  · injection h with h
    subst h
    exact ⟨hcap, hoc, hec, fun _ => ⟨h4.2.1, h4.2.2.1, h4.1⟩,
      fun he => ⟨rfl, (hex he).2.1, (hex he).2.2⟩, hpe⟩
  · injection h with h
    subst h
    refine ⟨hcap, hoc, hec, hid, ?_, hpe⟩
    intro he
    have he' : w.exited = true := he
    exact absurd (hex he').2.2 h5.2.1
  · injection h with h
    subst h
    refine ⟨hcap, hoc, hec, hid, ?_, hpe⟩
    intro he
    have he' : w.exited = true := he
    exact absurd (hex he').2.2 h5.2.1
  · injection h with h
    subst h
    exact ⟨hcap, hoc, hec, hid, fun _ => ⟨h7.1, (hid h7.1).2.2, h7.2.1⟩, hpe⟩

/-- Running the child preserves the invariant, the connection flags,
`stdinClosed`, the connected flows, and `exited`, without increasing the
weight. -/

theorem quiesce_spec (sOut sErr : Bool) :
    ∀ (n : Nat) (w : World), WInv sOut sErr w →
      WInv sOut sErr (quiesce n w) ∧
      (quiesce n w).cap = w.cap ∧ (quiesce n w).stdinClosed = w.stdinClosed ∧
      (quiesce n w).outConn = w.outConn ∧ (quiesce n w).errConn = w.errConn ∧
      (w.outConn = true →
        (quiesce n w).outPipe ++ ((quiesce n w).pendingEcho ++ (quiesce n w).stdinPipe) =
          w.outPipe ++ (w.pendingEcho ++ w.stdinPipe)) ∧
      (w.errConn = true →
        (quiesce n w).errPipe ++ (quiesce n w).pendingErr = w.errPipe ++ w.pendingErr) ∧
      (w.exited = true → (quiesce n w).exited = true) ∧
      worldWeight (quiesce n w) ≤ worldWeight w := by
  intro n
  induction n with
  | zero =>
    intro w hI
    exact ⟨hI, rfl, rfl, rfl, rfl, fun _ => rfl, fun _ => rfl, fun he => he, le_refl _⟩
  | succ n ih =>
    intro w hI
    unfold quiesce
    cases hs : childStep w with
    | none =>
      exact ⟨hI, rfl, rfl, rfl, rfl, fun _ => rfl, fun _ => rfl, fun he => he, le_refl _⟩
    | some w2 =>
      obtain ⟨hcap, hcl, hocn, hecn, hflo, hfle, hexm, _, hwt⟩ := childStep_some hs
      obtain ⟨hI2, hcap2, hcl2, hocn2, hecn2, hflo2, hfle2, hexm2, hwt2⟩ :=
        ih w2 (childStep_winv hI hs)
      refine ⟨hI2, hcap2.trans hcap, hcl2.trans hcl, hocn2.trans hocn, hecn2.trans hecn,
        ?_, ?_, ?_, hwt2.trans hwt⟩
      · intro hoc
        rw [hflo2 (by rw [hocn, hoc]), hflo hoc]
      · intro hec
        rw [hfle2 (by rw [hecn, hec]), hfle hec]
      · intro he
        exact hexm2 (hexm he)

/-- With fuel at least `childMeasure`, `quiesce` reaches a quiescent world. -/

theorem quiesce_done :
    ∀ (n : Nat) (w : World), childMeasure w ≤ n → childStep (quiesce n w) = none := by
  intro n
  induction n with
  | zero =>
    intro w h
    cases hs : childStep w with
    | none => exact hs
    | some w2 =>
      have := (childStep_some hs).2.2.2.2.2.2.2.1
      omega
  | succ n ih =>
    intro w h
    unfold quiesce
    cases hs : childStep w with
    | none => exact hs
    | some w2 =>
      have := (childStep_some hs).2.2.2.2.2.2.2.1
      exact ih w2 (by omega)

/-- `poll3` on the closed system: run the child (observing a dropped parent
stdin handle), then report write readiness as free pipe space and read
readiness as buffered bytes or a closed child end. -/

theorem echo_poll3 (w : World) (fin fout ferr : Bool) :
    poll3 echoEnv w fin fout ferr =
      (pollWorld w fin,
       fin && decide ((pollWorld w fin).stdinPipe.length < (pollWorld w fin).cap),
       fout && (decide ((pollWorld w fin).outPipe ≠ []) || (pollWorld w fin).exited),
       ferr && (decide ((pollWorld w fin).errPipe ≠ []) || (pollWorld w fin).exited)) := by
  cases fin <;> cases fout <;> cases ferr <;>
    simp [poll3, echoEnv, pollWorld]

/-- The stdin arm against the closed system: at most one bounded chunk moves
from the parent's input to the stdin pipe; everything else is unchanged and
the combined in-flight input is conserved. -/

theorem echo_writeArm (w : World) (c : PComm) (inR : Bool)
    (hpos : c.stdin = true → c.input_pos ≤ c.input_data.length)
    (hin : inR = true → c.stdin = true) :
    ∃ w2 c2 ev, writeArm echoEnv w c inR = .inl (w2, c2, ev) ∧
      w2.cap = w.cap ∧ w2.outPipe = w.outPipe ∧ w2.errPipe = w.errPipe ∧
      w2.pendingEcho = w.pendingEcho ∧ w2.pendingErr = w.pendingErr ∧
      w2.stdinClosed = w.stdinClosed ∧ w2.inDone = w.inDone ∧ w2.exited = w.exited ∧
      w2.outConn = w.outConn ∧ w2.errConn = w.errConn ∧
      c2.stdout = c.stdout ∧ c2.stderr = c.stderr ∧
      (c2.stdin = true → c.stdin = true) ∧
      (c2.stdin = true → c2.input_pos ≤ c2.input_data.length) ∧
      (inR = false → w2 = w ∧ c2 = c) ∧
      w2.stdinPipe ++ remIn c2 = w.stdinPipe ++ remIn c ∧
      5 * w2.stdinPipe.length + 6 * stdinWeight c2
        ≤ 5 * w.stdinPipe.length + 6 * stdinWeight c ∧
      (inR = true → w.stdinPipe.length < w.cap →
        5 * w2.stdinPipe.length + 6 * stdinWeight c2
          < 5 * w.stdinPipe.length + 6 * stdinWeight c) := by
  cases hr : inR
  · refine ⟨w, c, [], writeArm_false echoEnv w c, rfl, rfl, rfl, rfl, rfl, rfl, rfl, rfl,
      rfl, rfl, rfl, rfl, fun h => h, hpos, fun _ => ⟨rfl, rfl⟩, rfl, le_refl _, ?_⟩
    intro h
    cases h
  · have hst : c.stdin = true := hin hr
    have hple : c.input_pos ≤ c.input_data.length := hpos hst
    have hwa : writeArm echoEnv w c true =
        (if c.input_pos + waccept w c = c.input_data.length then
          Sum.inl
            ({ w with stdinPipe :=
                w.stdinPipe ++ (wchunk c).take (w.cap - w.stdinPipe.length) },
              { c with
                stdin := false
                input_data := []
                input_pos := c.input_pos + waccept w c },
              [PEvent.wrote (wchunk c).length (waccept w c)
                (c.input_data.drop c.input_pos).length])
        else
          Sum.inl
            ({ w with stdinPipe :=
                w.stdinPipe ++ (wchunk c).take (w.cap - w.stdinPipe.length) },
              { c with input_pos := c.input_pos + waccept w c },
              [PEvent.wrote (wchunk c).length (waccept w c)
                (c.input_data.drop c.input_pos).length])) := rfl
    have hchlen : (wchunk c).length =
        min (min 4096 (c.input_data.length - c.input_pos))
          (c.input_data.length - c.input_pos) := by
      simp [wchunk]
    have hacc : waccept w c = min (w.cap - w.stdinPipe.length) (wchunk c).length := rfl
    have htk : (wchunk c).take (w.cap - w.stdinPipe.length) =
        (c.input_data.drop c.input_pos).take (waccept w c) := by
      rw [wchunk, List.take_take]
      congr 1
      rw [hacc, hchlen]
      simp only [List.length_drop]
      omega
    have htkln : ((c.input_data.drop c.input_pos).take (waccept w c)).length =
        waccept w c := by
      rw [List.length_take, List.length_drop, hacc, hchlen]
      omega
    by_cases hcomp : c.input_pos + waccept w c = c.input_data.length
    · rw [if_pos hcomp] at hwa
      refine ⟨_, _, _, hwa, rfl, rfl, rfl, rfl, rfl, rfl, rfl, rfl, rfl, rfl, rfl, rfl,
        ?_, ?_, ?_, ?_, ?_, ?_⟩
      · intro h
        cases h
      · intro h
        cases h
      · intro h
        cases h
      · show (w.stdinPipe ++ (wchunk c).take (w.cap - w.stdinPipe.length)) ++ remIn _ =
          w.stdinPipe ++ remIn c
        rw [show remIn { c with
            stdin := false
            input_data := []
            input_pos := c.input_pos + waccept w c } = [] from rfl,
          show remIn c = c.input_data.drop c.input_pos from by simp [remIn, hst],
          List.append_nil, htk]
        congr 1
        have hw : waccept w c = (c.input_data.drop c.input_pos).length := by
          rw [List.length_drop]
          omega
        rw [hw, List.take_length]
      · show 5 * (w.stdinPipe ++ (wchunk c).take (w.cap - w.stdinPipe.length)).length +
            6 * stdinWeight { c with
              stdin := false
              input_data := []
              input_pos := c.input_pos + waccept w c } ≤
          5 * w.stdinPipe.length + 6 * stdinWeight c
        rw [show stdinWeight { c with
            stdin := false
            input_data := []
            input_pos := c.input_pos + waccept w c } = 0 from rfl,
          show stdinWeight c = c.input_data.length - c.input_pos + 1 from by
            simp [stdinWeight, hst],
          List.length_append, htk, htkln]
        omega
      · intro _ _
        show 5 * (w.stdinPipe ++ (wchunk c).take (w.cap - w.stdinPipe.length)).length +
            6 * stdinWeight { c with
              stdin := false
              input_data := []
              input_pos := c.input_pos + waccept w c } <
          5 * w.stdinPipe.length + 6 * stdinWeight c
        rw [show stdinWeight { c with
            stdin := false
            input_data := []
            input_pos := c.input_pos + waccept w c } = 0 from rfl,
          show stdinWeight c = c.input_data.length - c.input_pos + 1 from by
            simp [stdinWeight, hst],
          List.length_append, htk, htkln]
        omega
    · rw [if_neg hcomp] at hwa
      have hnle : waccept w c ≤ c.input_data.length - c.input_pos := by
        rw [hacc, hchlen]
        omega
      refine ⟨_, _, _, hwa, rfl, rfl, rfl, rfl, rfl, rfl, rfl, rfl, rfl, rfl, rfl, rfl,
        fun _ => hst, ?_, ?_, ?_, ?_, ?_⟩
      · intro _
        show c.input_pos + waccept w c ≤ c.input_data.length
        omega
      · intro h
        cases h
      · show (w.stdinPipe ++ (wchunk c).take (w.cap - w.stdinPipe.length)) ++ remIn _ =
          w.stdinPipe ++ remIn c
        rw [show remIn { c with input_pos := c.input_pos + waccept w c } =
            c.input_data.drop (c.input_pos + waccept w c) from by simp [remIn, hst],
          show remIn c = c.input_data.drop c.input_pos from by simp [remIn, hst],
          htk, List.append_assoc, ← List.drop_drop, List.take_append_drop]
      · show 5 * (w.stdinPipe ++ (wchunk c).take (w.cap - w.stdinPipe.length)).length +
            6 * stdinWeight { c with input_pos := c.input_pos + waccept w c } ≤
          5 * w.stdinPipe.length + 6 * stdinWeight c
        rw [show stdinWeight { c with input_pos := c.input_pos + waccept w c } =
            c.input_data.length - (c.input_pos + waccept w c) + 1 from by
              simp [stdinWeight, hst],
          show stdinWeight c = c.input_data.length - c.input_pos + 1 from by
            simp [stdinWeight, hst],
          List.length_append, htk, htkln]
        omega
      · intro _ hsp
        have hne : waccept w c ≠ 0 := by
          intro h0
          rw [h0, Nat.add_zero] at hcomp
          rw [hacc, hchlen] at h0
          omega
        show 5 * (w.stdinPipe ++ (wchunk c).take (w.cap - w.stdinPipe.length)).length +
            6 * stdinWeight { c with input_pos := c.input_pos + waccept w c } <
          5 * w.stdinPipe.length + 6 * stdinWeight c
        rw [show stdinWeight { c with input_pos := c.input_pos + waccept w c } =
            c.input_data.length - (c.input_pos + waccept w c) + 1 from by
              simp [stdinWeight, hst],
          show stdinWeight c = c.input_data.length - c.input_pos + 1 from by
            simp [stdinWeight, hst],
          List.length_append, htk, htkln]
        omega

/-- The stdout read arm against the closed system: one bounded read moves
bytes from the out pipe into the capture, or observes end of stream on an
empty pipe and drops the local handle. -/

theorem echo_readO (w : World) (ready oRef : Bool) (outvec : List Nat) (total : Nat) :
    ∃ w3 oRef2 outvec2 nO,
      readArm echoEnv.readO w ready oRef outvec none total = .inl (w3, oRef2, outvec2, nO) ∧
      w3.cap = w.cap ∧ w3.stdinPipe = w.stdinPipe ∧ w3.errPipe = w.errPipe ∧
      w3.pendingEcho = w.pendingEcho ∧ w3.pendingErr = w.pendingErr ∧
      w3.stdinClosed = w.stdinClosed ∧ w3.inDone = w.inDone ∧ w3.exited = w.exited ∧
      w3.outConn = w.outConn ∧ w3.errConn = w.errConn ∧
      (oRef2 = true → oRef = true) ∧
      outvec2 ++ w3.outPipe = outvec ++ w.outPipe ∧
      (ready = false → w3 = w ∧ oRef2 = oRef ∧ outvec2 = outvec) ∧
      (oRef2 = false → oRef = false ∨ (w.outPipe = [] ∧ outvec2 = outvec)) ∧
      3 * w3.outPipe.length + (if oRef2 = true then 1 else 0)
        ≤ 3 * w.outPipe.length + (if oRef = true then 1 else 0) ∧
      (ready = true → oRef = true →
        3 * w3.outPipe.length + (if oRef2 = true then 1 else 0)
          < 3 * w.outPipe.length + (if oRef = true then 1 else 0)) := by
  cases hready : ready
  · refine ⟨w, oRef, outvec, none, readArm_false _ _ _ _ _ _, rfl, rfl, rfl, rfl, rfl,
      rfl, rfl, rfl, rfl, rfl, fun h => h, rfl, fun _ => ⟨rfl, rfl, rfl⟩, fun h => Or.inl h,
      le_refl _, ?_⟩
    intro h
    cases h
  · by_cases hop : w.outPipe = []
    · have hra : readArm echoEnv.readO w true oRef outvec none total =
          Sum.inl ({ w with outPipe := w.outPipe.drop 4096 }, false, outvec, some 0) := by
        have hra0 : readArm echoEnv.readO w true oRef outvec none total =
            (if (w.outPipe.take 4096).length ≠ 0 then
              Sum.inl ({ w with outPipe := w.outPipe.drop 4096 }, oRef,
                outvec ++ w.outPipe.take 4096, some (w.outPipe.take 4096).length)
            else Sum.inl ({ w with outPipe := w.outPipe.drop 4096 }, false, outvec, some 0)) :=
          rfl
        rw [hra0, if_neg (by simp [hop])]
      refine ⟨_, _, _, _, hra, rfl, rfl, rfl, rfl, rfl, rfl, rfl, rfl, rfl, rfl,
        ?_, ?_, ?_, ?_, ?_, ?_⟩
      · intro h
        cases h
      · show outvec ++ w.outPipe.drop 4096 = outvec ++ w.outPipe
        rw [hop]
        rfl
      · intro h
        cases h
      · intro _
        exact Or.inr ⟨hop, rfl⟩
      · show 3 * (w.outPipe.drop 4096).length + _ ≤ _
        rw [hop]
        cases oRef <;> simp
      · intro _ ho
        show 3 * (w.outPipe.drop 4096).length + _ < _
        rw [hop, ho]
        simp
    · have hra : readArm echoEnv.readO w true oRef outvec none total =
          Sum.inl ({ w with outPipe := w.outPipe.drop 4096 }, oRef,
            outvec ++ w.outPipe.take 4096, some (w.outPipe.take 4096).length) := by
        have hra0 : readArm echoEnv.readO w true oRef outvec none total =
            (if (w.outPipe.take 4096).length ≠ 0 then
              Sum.inl ({ w with outPipe := w.outPipe.drop 4096 }, oRef,
                outvec ++ w.outPipe.take 4096, some (w.outPipe.take 4096).length)
            else Sum.inl ({ w with outPipe := w.outPipe.drop 4096 }, false, outvec, some 0)) :=
          rfl
        rw [hra0, if_pos]
        rw [List.length_take]
        have : 0 < w.outPipe.length := List.length_pos.mpr hop
        omega
      have hlen : 0 < w.outPipe.length := List.length_pos.mpr hop
      refine ⟨_, _, _, _, hra, rfl, rfl, rfl, rfl, rfl, rfl, rfl, rfl, rfl, rfl,
        fun h => h, ?_, ?_, ?_, ?_, ?_⟩
      · show (outvec ++ w.outPipe.take 4096) ++ w.outPipe.drop 4096 = outvec ++ w.outPipe
        rw [List.append_assoc, List.take_append_drop]
      · intro h
        cases h
      · intro ho
        exact Or.inl ho
      · show 3 * (w.outPipe.drop 4096).length + _ ≤ 3 * w.outPipe.length + _
        rw [List.length_drop]
        omega
      · intro _ _
        show 3 * (w.outPipe.drop 4096).length + _ < 3 * w.outPipe.length + _
        rw [List.length_drop]
        omega

/-- The stderr read arm against the closed system, mirror of `echo_readO`. -/

theorem echo_readE (w : World) (ready eRef : Bool) (errvec : List Nat) (total : Nat) :
    ∃ w4 eRef2 errvec2 nE,
      readArm echoEnv.readE w ready eRef errvec none total = .inl (w4, eRef2, errvec2, nE) ∧
      w4.cap = w.cap ∧ w4.stdinPipe = w.stdinPipe ∧ w4.outPipe = w.outPipe ∧
      w4.pendingEcho = w.pendingEcho ∧ w4.pendingErr = w.pendingErr ∧
      w4.stdinClosed = w.stdinClosed ∧ w4.inDone = w.inDone ∧ w4.exited = w.exited ∧
      w4.outConn = w.outConn ∧ w4.errConn = w.errConn ∧
      (eRef2 = true → eRef = true) ∧
      errvec2 ++ w4.errPipe = errvec ++ w.errPipe ∧
      (ready = false → w4 = w ∧ eRef2 = eRef ∧ errvec2 = errvec) ∧
      (eRef2 = false → eRef = false ∨ (w.errPipe = [] ∧ errvec2 = errvec)) ∧
      2 * w4.errPipe.length + (if eRef2 = true then 1 else 0)
        ≤ 2 * w.errPipe.length + (if eRef = true then 1 else 0) ∧
      (ready = true → eRef = true →
        2 * w4.errPipe.length + (if eRef2 = true then 1 else 0)
          < 2 * w.errPipe.length + (if eRef = true then 1 else 0)) := by
  cases hready : ready
  · refine ⟨w, eRef, errvec, none, readArm_false _ _ _ _ _ _, rfl, rfl, rfl, rfl, rfl,
      rfl, rfl, rfl, rfl, rfl, fun h => h, rfl, fun _ => ⟨rfl, rfl, rfl⟩, fun h => Or.inl h,
      le_refl _, ?_⟩
    intro h
    cases h
  · by_cases hep : w.errPipe = []
    · have hra : readArm echoEnv.readE w true eRef errvec none total =
          Sum.inl ({ w with errPipe := w.errPipe.drop 4096 }, false, errvec, some 0) := by
        have hra0 : readArm echoEnv.readE w true eRef errvec none total =
            (if (w.errPipe.take 4096).length ≠ 0 then
              Sum.inl ({ w with errPipe := w.errPipe.drop 4096 }, eRef,
                errvec ++ w.errPipe.take 4096, some (w.errPipe.take 4096).length)
            else Sum.inl ({ w with errPipe := w.errPipe.drop 4096 }, false, errvec, some 0)) :=
          rfl
        rw [hra0, if_neg (by simp [hep])]
      refine ⟨_, _, _, _, hra, rfl, rfl, rfl, rfl, rfl, rfl, rfl, rfl, rfl, rfl,
        ?_, ?_, ?_, ?_, ?_, ?_⟩
      · intro h
        cases h
      · show errvec ++ w.errPipe.drop 4096 = errvec ++ w.errPipe
        rw [hep]
        rfl
      · intro h
        cases h
      · intro _
        exact Or.inr ⟨hep, rfl⟩
      · show 2 * (w.errPipe.drop 4096).length + _ ≤ _
        rw [hep]
        cases eRef <;> simp
      · intro _ he
        show 2 * (w.errPipe.drop 4096).length + _ < _
        rw [hep, he]
        simp
    · have hra : readArm echoEnv.readE w true eRef errvec none total =
          Sum.inl ({ w with errPipe := w.errPipe.drop 4096 }, eRef,
            errvec ++ w.errPipe.take 4096, some (w.errPipe.take 4096).length) := by
        have hra0 : readArm echoEnv.readE w true eRef errvec none total =
            (if (w.errPipe.take 4096).length ≠ 0 then
              Sum.inl ({ w with errPipe := w.errPipe.drop 4096 }, eRef,
                errvec ++ w.errPipe.take 4096, some (w.errPipe.take 4096).length)
            else Sum.inl ({ w with errPipe := w.errPipe.drop 4096 }, false, errvec, some 0)) :=
          rfl
        rw [hra0, if_pos]
        rw [List.length_take]
        have : 0 < w.errPipe.length := List.length_pos.mpr hep
        omega
      have hlen : 0 < w.errPipe.length := List.length_pos.mpr hep
      refine ⟨_, _, _, _, hra, rfl, rfl, rfl, rfl, rfl, rfl, rfl, rfl, rfl, rfl,
        fun h => h, ?_, ?_, ?_, ?_, ?_⟩
      · show (errvec ++ w.errPipe.take 4096) ++ w.errPipe.drop 4096 = errvec ++ w.errPipe
        rw [List.append_assoc, List.take_append_drop]
      · intro h
        cases h
      · intro he
        exact Or.inl he
      · show 2 * (w.errPipe.drop 4096).length + _ ≤ 2 * w.errPipe.length + _
        rw [List.length_drop]
        omega
      · intro _ _
        show 2 * (w.errPipe.drop 4096).length + _ < 2 * w.errPipe.length + _
        rw [List.length_drop]
        omega

/-- What quiescence means: no child action is enabled. -/

theorem childStep_none {w : World} (h : childStep w = none) :
    ¬(w.pendingEcho ≠ [] ∧ w.outPipe.length < w.cap) ∧
    ¬(w.pendingEcho = [] ∧ w.stdinPipe ≠ [] ∧ w.inDone = false) ∧
    ¬(w.pendingEcho = [] ∧ w.stdinClosed = true ∧ w.stdinPipe = [] ∧ w.inDone = false) ∧
    ¬(w.inDone = true ∧ w.pendingErr ≠ [] ∧
      (w.errConn = false ∨ w.errPipe.length < w.cap)) ∧
    ¬(w.inDone = true ∧ w.pendingErr = [] ∧ w.exited = false) := by
  unfold childStep at h
  split_ifs at h
  refine ⟨?_, ?_, ?_, ?_, ?_⟩ <;> assumption

/-- No child action ever re-opens the parent's end of the stdin pipe. -/

theorem quiesce_stdinClosed : ∀ (n : Nat) (w : World),
    (quiesce n w).stdinClosed = w.stdinClosed := by
  intro n
  induction n with
  | zero => intro w; rfl
  | succ n ih =>
    intro w
    unfold quiesce
    cases hs : childStep w with
    | none => rfl
    | some w2 =>
      rw [ih w2]
      exact (childStep_some hs).2.1

/-- The world adjustment a poll makes before the child runs keeps the world
invariant. -/

theorem pollPre_winv {sOut sErr : Bool} {w : World} (hW : WInv sOut sErr w) (fin : Bool) :
    WInv sOut sErr (if fin then w else { w with stdinClosed := true }) := by
  cases fin
  · obtain ⟨hcap, hoc, hec, hid, hex, hpe⟩ := hW
    exact ⟨hcap, hoc, hec, fun hd => ⟨rfl, (hid hd).2⟩, hex, hpe⟩
  · exact hW

/-- Everything one `poll` guarantees about the world it returns. -/

theorem pollWorld_spec {sOut sErr : Bool} {w : World} (hW : WInv sOut sErr w) (fin : Bool) :
    WInv sOut sErr (pollWorld w fin) ∧
    (pollWorld w fin).cap = w.cap ∧
    (fin = true → (pollWorld w fin).stdinClosed = w.stdinClosed) ∧
    (pollWorld w fin).outConn = w.outConn ∧ (pollWorld w fin).errConn = w.errConn ∧
    (w.outConn = true →
      (pollWorld w fin).outPipe ++
        ((pollWorld w fin).pendingEcho ++ (pollWorld w fin).stdinPipe) =
        w.outPipe ++ (w.pendingEcho ++ w.stdinPipe)) ∧
    (w.errConn = true →
      (pollWorld w fin).errPipe ++ (pollWorld w fin).pendingErr =
        w.errPipe ++ w.pendingErr) ∧
    (w.exited = true → (pollWorld w fin).exited = true) ∧
    worldWeight (pollWorld w fin) ≤ worldWeight w := by
  cases fin
  · have hWv : WInv sOut sErr { w with stdinClosed := true } :=
      pollPre_winv hW false
    have hpw : pollWorld w false =
        quiesce (childMeasure { w with stdinClosed := true })
          { w with stdinClosed := true } := rfl
    obtain ⟨hq1, hq2, hq3, hq4, hq5, hq6, hq7, hq8, hq9⟩ :=
      quiesce_spec sOut sErr (childMeasure { w with stdinClosed := true })
        { w with stdinClosed := true } hWv
    rw [hpw]
    exact ⟨hq1, hq2, fun h => Bool.noConfusion h, hq4, hq5, hq6, hq7, hq8, hq9⟩
  · have hpw : pollWorld w true = quiesce (childMeasure w) w := rfl
    obtain ⟨hq1, hq2, hq3, hq4, hq5, hq6, hq7, hq8, hq9⟩ :=
      quiesce_spec sOut sErr (childMeasure w) w hW
    rw [hpw]
    exact ⟨hq1, hq2, fun _ => hq3, hq4, hq5, hq6, hq7, hq8, hq9⟩


/-- No deadlock: while any handle is still live, at least one of the three
poll bits is set.  The child may be blocked on a full pipe — but then that
pipe is non-empty and the parent's read arm for it is ready; when nothing is
pending the child has exited and the closed stream ends report readiness. -/

theorem echo_ready {sOut sErr : Bool} {input₀ errData₀ : List Nat} {w : World} {c : PComm}
    {oRef eRef : Bool} {outvec errvec : List Nat}
    (hI : EInv sOut sErr input₀ errData₀ w c oRef eRef outvec errvec)
    (hcont : ¬(c.stdin = false ∧ oRef = false ∧ eRef = false)) :
    ¬((poll3 echoEnv w c.stdin oRef eRef).2.1 = false ∧
      (poll3 echoEnv w c.stdin oRef eRef).2.2.1 = false ∧
      (poll3 echoEnv w c.stdin oRef eRef).2.2.2 = false) := by
  obtain ⟨hW, hco, hce, horeq, hereq, hstdin, hconsO, hconsE, hoEOF, heEOF, hvacO, hvacE⟩ := hI
  intro hall
  obtain ⟨b1, b2, b3⟩ := hall
  simp only [echo_poll3] at b1 b2 b3
  obtain ⟨hW1, hcap1, hclT, hocn1, hecn1, _, _, hexm1, _⟩ := pollWorld_spec hW c.stdin
  obtain ⟨hqcap, hqoc, hqec, hqid, hqex, hqpe⟩ := hW1
  have hq : childStep (pollWorld w c.stdin) = none := by
    unfold pollWorld
    exact quiesce_done _ _ (le_refl _)
  have hclF : c.stdin = false → (pollWorld w c.stdin).stdinClosed = true := by
    intro hg
    rw [hg]
    have hpw : pollWorld w false =
        quiesce (childMeasure { w with stdinClosed := true })
          { w with stdinClosed := true } := rfl
    rw [hpw, quiesce_stdinClosed]
  obtain ⟨f1, f2, f3, f4, f5⟩ := childStep_none hq
  set q := pollWorld w c.stdin with hqdef
  by_cases hpeq : q.pendingEcho = []
  · by_cases hd : q.inDone = true
    · -- end of input observed: only the diagnostic write and the exit remain
      by_cases hprq : q.pendingErr = []
      · -- nothing pending: the child has exited, both stream ends are closed
        have hexq : q.exited = true := by
          by_cases hx : q.exited = true
          · exact hx
          · exact absurd ⟨hd, hprq, by simpa using hx⟩ f5
        rw [hexq] at b2 b3
        simp at b2 b3
        by_cases hcs : c.stdin = true
        · have hclv : q.stdinClosed = false := by
            rw [hclT hcs]
            exact (hstdin hcs).1
          rw [(hqid hd).1] at hclv
          cases hclv
        · exact hcont ⟨by simpa using hcs, b2, b3⟩
      · -- diagnostic bytes stuck behind a full err pipe: the parent must read
        have hecT : q.errConn = true := by
          by_cases hc : q.errConn = true
          · exact hc
          · exact absurd ⟨hd, hprq, Or.inl (by simpa using hc)⟩ f4
        have hfull : q.cap ≤ q.errPipe.length := by
          by_cases hlt : q.errPipe.length < q.cap
          · exact absurd ⟨hd, hprq, Or.inr hlt⟩ f4
          · omega
        have hepne : q.errPipe ≠ [] := by
          intro hnil
          rw [hnil] at hfull
          simp at hfull
          omega
        have hseT : sErr = true := by
          rw [← hqec, hecT]
        have herT : eRef = true := by
          by_cases her : eRef = true
          · exact her
          · have hold := heEOF (by simpa using her) hseT
            have hexq : q.exited = true := hexm1 hold.2
            exact absurd (hqex hexq).2.2 hprq
        rw [herT, decide_eq_true hepne] at b3
        simp at b3
    · -- input phase: the quiesced child has drained the stdin pipe
      have hdf : q.inDone = false := by simpa using hd
      have hsp : q.stdinPipe = [] := by
        by_cases hp : q.stdinPipe = []
        · exact hp
        · exact absurd ⟨hpeq, hp, hdf⟩ f2
      have hcs : c.stdin = true := by
        by_cases hcs : c.stdin = true
        · exact hcs
        · exact absurd ⟨hpeq, hclF (by simpa using hcs), hsp, hdf⟩ f3
      have hlt : q.stdinPipe.length < q.cap := by
        rw [hsp]
        simpa using hqcap
      rw [hcs, decide_eq_true hlt] at b1
      simp at b1
  · -- the child is blocked writing echo bytes: the out pipe is full
    have hfull : q.cap ≤ q.outPipe.length := by
      by_cases hlt : q.outPipe.length < q.cap
      · exact absurd ⟨hpeq, hlt⟩ f1
      · omega
    have hopne : q.outPipe ≠ [] := by
      intro hnil
      rw [hnil] at hfull
      simp at hfull
      omega
    have hsoT : sOut = true := by
      by_cases hs : sOut = true
      · exact hs
      · exact absurd (hqpe (by simpa using hs)) hpeq
    have horT : oRef = true := by
      by_cases hor : oRef = true
      · exact hor
      · have hold := hoEOF (by simpa using hor) hsoT
        have hexq : q.exited = true := hexm1 hold.2
        exact absurd (hqex hexq).2.1 hpeq
    rw [horT, decide_eq_true hopne] at b2
    simp at b2

/-- Split a true boolean conjunction. -/

theorem bool_and_parts {a b : Bool} (h : (a && b) = true) : a = true ∧ b = true := by
  simp at h
  exact h

/-- Split a true boolean disjunction. -/

theorem bool_or_parts {a b : Bool} (h : (a || b) = true) : a = true ∨ b = true := by
  simp at h
  exact h

/-- Main loop lemma for the closed echo system: from any invariant state,
`read_into` with no quota and enough fuel terminates with `ok` and the full
expected captures. -/

theorem echo_loop (sOut sErr : Bool) (input₀ errData₀ : List Nat) :
    ∀ (fuel : Nat) (w : World) (c : PComm) (oRef eRef : Bool) (outvec errvec : List Nat),
      EInv sOut sErr input₀ errData₀ w c oRef eRef outvec errvec →
      sysMeasure w c oRef eRef < fuel →
      (read_into echoEnv none fuel w c oRef eRef outvec errvec).res = .ok ∧
      (read_into echoEnv none fuel w c oRef eRef outvec errvec).comm.stdout = sOut ∧
      (read_into echoEnv none fuel w c oRef eRef outvec errvec).comm.stderr = sErr ∧
      (read_into echoEnv none fuel w c oRef eRef outvec errvec).outvec =
        (if sOut = true then input₀ else []) ∧
      (read_into echoEnv none fuel w c oRef eRef outvec errvec).errvec =
        (if sErr = true then errData₀ else []) := by
  intro fuel
  induction fuel with
  | zero =>
    intro w c oRef eRef outvec errvec _ hm
    omega
  | succ n ih =>
    intro w c oRef eRef outvec errvec hI hm
    have hIc := hI
    obtain ⟨hW, hco, hce, horeq, hereq, hstdin, hconsO, hconsE, hoEOF, heEOF, hvacO, hvacE⟩ := hI
    obtain ⟨hWcap, hWoc, hWec, hWid, hWex, hWpe⟩ := hW
    rw [read_into_succ]
    rw [if_neg (fun h => Bool.noConfusion h)]
    by_cases hdone : c.stdin = false ∧ oRef = false ∧ eRef = false
    · rw [if_pos hdone]
      refine ⟨rfl, hco, hce, ?_, ?_⟩
      · cases hso : sOut
        · simpa using hvacO hso
        · simpa using (hoEOF hdone.2.1 hso).1
      · cases hse : sErr
        · simpa using hvacE hse
        · simpa using (heEOF hdone.2.2 hse).1
    · rw [if_neg hdone]
      have hready := echo_ready hIc hdone
      rw [if_neg hready]
      simp only [echo_poll3] at hready ⊢
      obtain ⟨hW1, hcap1, hcl1, hocn1, hecn1, hflowO, hflowE, hexm1, hwt1⟩ :=
        pollWorld_spec ⟨hWcap, hWoc, hWec, hWid, hWex, hWpe⟩ c.stdin
      obtain ⟨hqcap, hqoc, hqec, hqid, hqex, hqpe⟩ := hW1
      obtain ⟨w2, c2, ev, hwa, h2cap, h2op, h2ep, h2pe, h2perr, h2cl, h2id, h2ex, h2oc,
        h2ec, hc2out, hc2err, hc2in, hc2pos, h2noin, h2flow, h2wt, h2wts⟩ :=
        echo_writeArm (pollWorld w c.stdin) c
          (c.stdin && decide ((pollWorld w c.stdin).stdinPipe.length <
            (pollWorld w c.stdin).cap))
          (fun h => (hstdin h).2) (fun h => (bool_and_parts h).1)
      simp only [hwa]
      obtain ⟨w3, oRef2, outvec2, nO, hra, h3cap, h3sp, h3ep, h3pe, h3perr, h3cl, h3id,
        h3ex, h3oc, h3ec, horef2, h3cons, h3nr, h3eof, h3wt, h3wts⟩ :=
        echo_readO w2
          (oRef && (decide ((pollWorld w c.stdin).outPipe ≠ []) ||
            (pollWorld w c.stdin).exited))
          oRef outvec (outvec.length + errvec.length)
      simp only [hra]
      obtain ⟨w4, eRef2, errvec2, nE, hrb, h4cap, h4sp, h4op, h4pe, h4perr, h4cl, h4id,
        h4ex, h4oc, h4ec, heref2, h4cons, h4nr, h4eof, h4wt, h4wts⟩ :=
        echo_readE w3
          (eRef && (decide ((pollWorld w c.stdin).errPipe ≠ []) ||
            (pollWorld w c.stdin).exited))
          eRef errvec (outvec2.length + errvec.length)
      simp only [hrb]
      -- derived handle facts
      have hclosedOfStdin : c.stdin = true → (pollWorld w c.stdin).stdinClosed = false := by
        intro h
        rw [hcl1 h]
        exact (hstdin h).1
      have hb1false_of_id : (pollWorld w c.stdin).inDone = true →
          (c.stdin && decide ((pollWorld w c.stdin).stdinPipe.length <
            (pollWorld w c.stdin).cap)) = false := by
        intro hd
        by_cases hb : (c.stdin && decide ((pollWorld w c.stdin).stdinPipe.length <
            (pollWorld w c.stdin).cap)) = true
        · have hcs := (bool_and_parts hb).1
          rw [(hqid hd).1] at hclosedOfStdin
          exact absurd (hclosedOfStdin hcs) (by simp)
        · simpa using hb
      -- exited is stable along the iteration
      have hexchain : (pollWorld w c.stdin).exited = true → w4.exited = true := by
        intro h
        rw [h4ex, h3ex, h2ex]
        exact h
      -- world field chains
      have hsp4 : w4.stdinPipe = w2.stdinPipe := by rw [h4sp, h3sp]
      have hpe4 : w4.pendingEcho = (pollWorld w c.stdin).pendingEcho := by
        rw [h4pe, h3pe, h2pe]
      have hperr4 : w4.pendingErr = (pollWorld w c.stdin).pendingErr := by
        rw [h4perr, h3perr, h2perr]
      have hcl4 : w4.stdinClosed = (pollWorld w c.stdin).stdinClosed := by
        rw [h4cl, h3cl, h2cl]
      have hid4 : w4.inDone = (pollWorld w c.stdin).inDone := by
        rw [h4id, h3id, h2id]
      have hcap4 : w4.cap = w.cap := by
        rw [h4cap, h3cap, h2cap, hcap1]
      have hoc4 : w4.outConn = sOut := by
        rw [h4oc, h3oc, h2oc, hqoc]
      have hec4 : w4.errConn = sErr := by
        rw [h4ec, h3ec, h2ec, hqec]
      -- new invariant
      have hEInv2 : EInv sOut sErr input₀ errData₀ w4 c2 oRef2 eRef2 outvec2 errvec2 := by
        refine ⟨⟨?_, hoc4, hec4, ?_, ?_, ?_⟩, hc2out.trans hco, hc2err.trans hce,
          fun h => horeq (horef2 h), fun h => hereq (heref2 h), ?_, ?_, ?_, ?_, ?_, ?_, ?_⟩
        · rw [hcap4]
          rw [hcap1] at hqcap
          exact hqcap
        · intro hd4
          rw [hid4] at hd4
          have hfix := h2noin (hb1false_of_id hd4)
          refine ⟨?_, ?_, ?_⟩
          · rw [hcl4]
            exact (hqid hd4).1
          · rw [hsp4, hfix.1]
            exact (hqid hd4).2.1
          · rw [hpe4]
            exact (hqid hd4).2.2
        · intro he4
          rw [h4ex, h3ex, h2ex] at he4
          refine ⟨by rw [hid4]; exact (hqex he4).1, by rw [hpe4]; exact (hqex he4).2.1,
            by rw [hperr4]; exact (hqex he4).2.2⟩
        · intro hs
          rw [hpe4]
          exact hqpe hs
        · intro hc2
          have hcs := hc2in hc2
          refine ⟨?_, hc2pos hc2⟩
          rw [hcl4]
          exact hclosedOfStdin hcs
        · -- stdout byte conservation
          intro hso
          have hflow := hflowO (by rw [hWoc, hso])
          have hcons := hconsO hso
          simp only [List.append_assoc] at hcons ⊢
          rw [h4op]
          calc outvec2 ++ (w3.outPipe ++ (w4.pendingEcho ++ (w4.stdinPipe ++ remIn c2)))
              = (outvec2 ++ w3.outPipe) ++ (w4.pendingEcho ++ (w4.stdinPipe ++ remIn c2)) := by
                simp [List.append_assoc]
            _ = (outvec ++ w2.outPipe) ++ (w4.pendingEcho ++ (w4.stdinPipe ++ remIn c2)) := by
                rw [h3cons]
            _ = outvec ++ ((pollWorld w c.stdin).outPipe ++
                ((pollWorld w c.stdin).pendingEcho ++ (w2.stdinPipe ++ remIn c2))) := by
                rw [h2op, hpe4, hsp4]
                simp [List.append_assoc]
            _ = outvec ++ ((pollWorld w c.stdin).outPipe ++
                ((pollWorld w c.stdin).pendingEcho ++
                  ((pollWorld w c.stdin).stdinPipe ++ remIn c))) := by rw [h2flow]
            _ = outvec ++ (((pollWorld w c.stdin).outPipe ++
                ((pollWorld w c.stdin).pendingEcho ++ (pollWorld w c.stdin).stdinPipe)) ++
                  remIn c) := by simp [List.append_assoc]
            _ = outvec ++ ((w.outPipe ++ (w.pendingEcho ++ w.stdinPipe)) ++ remIn c) := by
                rw [hflow]
            _ = input₀ := by
                simp only [List.append_assoc]
                exact hcons
        · -- stderr byte conservation
          intro hse
          have hflow := hflowE (by rw [hWec, hse])
          have hcons := hconsE hse
          simp only [List.append_assoc] at hcons ⊢
          calc errvec2 ++ (w4.errPipe ++ w4.pendingErr)
              = (errvec2 ++ w4.errPipe) ++ w4.pendingErr := by simp [List.append_assoc]
            _ = (errvec ++ w3.errPipe) ++ w4.pendingErr := by rw [h4cons]
            _ = errvec ++ ((pollWorld w c.stdin).errPipe ++
                (pollWorld w c.stdin).pendingErr) := by
                rw [h3ep, h2ep, hperr4]
                simp [List.append_assoc]
            _ = errvec ++ (w.errPipe ++ w.pendingErr) := by rw [hflow]
            _ = errData₀ := hcons
        · -- a dropped stdout handle means the full payload was captured
          intro ho2 hso
          rcases h3eof ho2 with hof | ⟨hopnil, hov⟩
          · have hb2 : (oRef && (decide ((pollWorld w c.stdin).outPipe ≠ []) ||
                (pollWorld w c.stdin).exited)) = false := by
              rw [hof]
              rfl
            obtain ⟨_, _, hov⟩ := h3nr hb2
            rw [hov]
            have hold := hoEOF hof hso
            exact ⟨hold.1, hexchain (hexm1 hold.2)⟩
          · by_cases hor : oRef = true
            · have hb2 : (oRef && (decide ((pollWorld w c.stdin).outPipe ≠ []) ||
                  (pollWorld w c.stdin).exited)) = true := by
                by_cases hb : (oRef && (decide ((pollWorld w c.stdin).outPipe ≠ []) ||
                    (pollWorld w c.stdin).exited)) = true
                · exact hb
                · have hb' : (oRef && (decide ((pollWorld w c.stdin).outPipe ≠ []) ||
                      (pollWorld w c.stdin).exited)) = false := by simpa using hb
                  obtain ⟨_, hor2, _⟩ := h3nr hb'
                  rw [hor2, hor] at ho2
                  cases ho2
              have hopq : (pollWorld w c.stdin).outPipe = [] := by
                rw [← h2op]
                exact hopnil
              have hexq : (pollWorld w c.stdin).exited = true := by
                have := (bool_and_parts hb2).2
                rcases bool_or_parts this with hd | hd
                · rw [hopq] at hd
                  simp at hd
                · exact hd
              have hiq := hqex hexq
              have hspq := (hqid hiq.1).2.1
              have hflow := hflowO (by rw [hWoc, hso])
              rw [hopq, hiq.2.1, hspq] at hflow
              simp only [List.nil_append, List.append_nil] at hflow
              obtain ⟨hwop, hwrest⟩ := List.append_eq_nil.mp hflow.symm
              obtain ⟨hwpe, hwsp⟩ := List.append_eq_nil.mp hwrest
              have hcsf : c.stdin = false := by
                by_cases hcs : c.stdin = true
                · rw [(hqid hiq.1).1] at hclosedOfStdin
                  exact absurd (hclosedOfStdin hcs) (by simp)
                · simpa using hcs
              have hcons := hconsO hso
              rw [hwop, hwpe, hwsp, show remIn c = [] from by simp [remIn, hcsf]] at hcons
              simp only [List.append_nil] at hcons
              rw [hov]
              exact ⟨hcons, hexchain hexq⟩
            · have hof : oRef = false := by simpa using hor
              have hb2 : (oRef && (decide ((pollWorld w c.stdin).outPipe ≠ []) ||
                  (pollWorld w c.stdin).exited)) = false := by
                rw [hof]
                rfl
              obtain ⟨_, _, hov2⟩ := h3nr hb2
              rw [hov2]
              have hold := hoEOF hof hso
              exact ⟨hold.1, hexchain (hexm1 hold.2)⟩
        · -- a dropped stderr handle means the full payload was captured
          intro he2 hse
          rcases h4eof he2 with hef | ⟨hepnil, hev⟩
          · have hb3 : (eRef && (decide ((pollWorld w c.stdin).errPipe ≠ []) ||
                (pollWorld w c.stdin).exited)) = false := by
              rw [hef]
              rfl
            obtain ⟨_, _, hev⟩ := h4nr hb3
            rw [hev]
            have hold := heEOF hef hse
            exact ⟨hold.1, hexchain (hexm1 hold.2)⟩
          · by_cases her : eRef = true
            · have hb3 : (eRef && (decide ((pollWorld w c.stdin).errPipe ≠ []) ||
                  (pollWorld w c.stdin).exited)) = true := by
                by_cases hb : (eRef && (decide ((pollWorld w c.stdin).errPipe ≠ []) ||
                    (pollWorld w c.stdin).exited)) = true
                · exact hb
                · have hb' : (eRef && (decide ((pollWorld w c.stdin).errPipe ≠ []) ||
                      (pollWorld w c.stdin).exited)) = false := by simpa using hb
                  obtain ⟨_, her2, _⟩ := h4nr hb'
                  rw [her2, her] at he2
                  cases he2
              have hepq : (pollWorld w c.stdin).errPipe = [] := by
                rw [← h2ep, ← h3ep]
                exact hepnil
              have hexq : (pollWorld w c.stdin).exited = true := by
                have := (bool_and_parts hb3).2
                rcases bool_or_parts this with hd | hd
                · rw [hepq] at hd
                  simp at hd
                · exact hd
              have hiq := hqex hexq
              have hflow := hflowE (by rw [hWec, hse])
              rw [hepq, hiq.2.2] at hflow
              simp only [List.nil_append, List.append_nil] at hflow
              obtain ⟨hwep, hwperr⟩ := List.append_eq_nil.mp hflow.symm
              have hcons := hconsE hse
              rw [hwep, hwperr] at hcons
              simp only [List.append_nil] at hcons
              rw [hev]
              exact ⟨hcons, hexchain hexq⟩
            · have hef : eRef = false := by simpa using her
              have hb3 : (eRef && (decide ((pollWorld w c.stdin).errPipe ≠ []) ||
                  (pollWorld w c.stdin).exited)) = false := by
                rw [hef]
                rfl
              obtain ⟨_, _, hev2⟩ := h4nr hb3
              rw [hev2]
              have hold := heEOF hef hse
              exact ⟨hold.1, hexchain (hexm1 hold.2)⟩
        · -- an unrequested stdout never captures bytes
          intro hs
          have hof : oRef = false := by
            by_cases hor : oRef = true
            · rw [horeq hor] at hs
              cases hs
            · simpa using hor
          have hb2 : (oRef && (decide ((pollWorld w c.stdin).outPipe ≠ []) ||
              (pollWorld w c.stdin).exited)) = false := by
            rw [hof]
            rfl
          obtain ⟨_, _, hov⟩ := h3nr hb2
          rw [hov]
          exact hvacO hs
        · -- an unrequested stderr never captures bytes
          intro hs
          have hef : eRef = false := by
            by_cases her : eRef = true
            · rw [hereq her] at hs
              cases hs
            · simpa using her
          have hb3 : (eRef && (decide ((pollWorld w c.stdin).errPipe ≠ []) ||
              (pollWorld w c.stdin).exited)) = false := by
            rw [hef]
            rfl
          obtain ⟨_, _, hev⟩ := h4nr hb3
          rw [hev]
          exact hvacE hs
      -- the measure strictly decreases
      have hmeas2 : sysMeasure w4 c2 oRef2 eRef2 < sysMeasure w c oRef eRef := by
        have hstrict : (c.stdin && decide ((pollWorld w c.stdin).stdinPipe.length <
              (pollWorld w c.stdin).cap)) = true ∨
            (oRef && (decide ((pollWorld w c.stdin).outPipe ≠ []) ||
              (pollWorld w c.stdin).exited)) = true ∨
            (eRef && (decide ((pollWorld w c.stdin).errPipe ≠ []) ||
              (pollWorld w c.stdin).exited)) = true := by
          by_cases hb1 : (c.stdin && decide ((pollWorld w c.stdin).stdinPipe.length <
              (pollWorld w c.stdin).cap)) = true
          · exact Or.inl hb1
          · by_cases hb2 : (oRef && (decide ((pollWorld w c.stdin).outPipe ≠ []) ||
                (pollWorld w c.stdin).exited)) = true
            · exact Or.inr (Or.inl hb2)
            · by_cases hb3 : (eRef && (decide ((pollWorld w c.stdin).errPipe ≠ []) ||
                  (pollWorld w c.stdin).exited)) = true
              · exact Or.inr (Or.inr hb3)
              · exact absurd ⟨by simpa using hb1, by simpa using hb2, by simpa using hb3⟩
                  hready
        have hwq : worldWeight (pollWorld w c.stdin) ≤ worldWeight w := hwt1
        have hle2 : 5 * w2.stdinPipe.length + 6 * stdinWeight c2 ≤
            5 * (pollWorld w c.stdin).stdinPipe.length + 6 * stdinWeight c := h2wt
        have hle3 : 3 * w3.outPipe.length + (if oRef2 = true then 1 else 0) ≤
            3 * w2.outPipe.length + (if oRef = true then 1 else 0) := h3wt
        have hle4 : 2 * w4.errPipe.length + (if eRef2 = true then 1 else 0) ≤
            2 * w3.errPipe.length + (if eRef = true then 1 else 0) := h4wt
        have hlsp : w4.stdinPipe.length = w2.stdinPipe.length := by rw [hsp4]
        have hlpe : w4.pendingEcho.length = (pollWorld w c.stdin).pendingEcho.length := by
          rw [hpe4]
        have hlperr : w4.pendingErr.length = (pollWorld w c.stdin).pendingErr.length := by
          rw [hperr4]
        have hlop2 : w2.outPipe.length = (pollWorld w c.stdin).outPipe.length := by
          rw [h2op]
        have hlop4 : w4.outPipe.length = w3.outPipe.length := by rw [h4op]
        have hlep3 : w3.errPipe.length = (pollWorld w c.stdin).errPipe.length := by
          rw [h3ep, h2ep]
        have hfl1 : (if w4.inDone then 0 else 1) =
            (if (pollWorld w c.stdin).inDone then 0 else 1) := by rw [hid4]
        have hfl2 : (if w4.exited then 0 else 1) =
            (if (pollWorld w c.stdin).exited then 0 else 1) := by
          rw [h4ex, h3ex, h2ex]
        rw [hlop2] at hle3
        rw [hlep3] at hle4
        simp only [sysMeasure, worldWeight] at hwq ⊢
        rw [hlsp, hlpe, hlperr, hlop4, hfl1, hfl2]
        rcases hstrict with hb | hb | hb
        · have hcs := (bool_and_parts hb).1
          have hlt : (pollWorld w c.stdin).stdinPipe.length <
              (pollWorld w c.stdin).cap := by
            have := (bool_and_parts hb).2
            simpa using this
          have := h2wts hb hlt
          omega
        · have hor := (bool_and_parts hb).1
          have := h3wts hb hor
          omega
        · have her := (bool_and_parts hb).1
          have := h4wts hb her
          omega
      obtain ⟨hres, hcomO, hcomE, hovec, hevec⟩ :=
        ih w4 c2 oRef2 eRef2 outvec2 errvec2 hEInv2 (by omega)
      exact ⟨hres, hcomO, hcomE, hovec, hevec⟩

/-- Initial states of the closed echo system satisfy the invariant. -/

theorem initial_EInv (cap : Nat) (hcap : 1 ≤ cap) (sIn sOut sErr : Bool)
    (input errData : List Nat) :
    EInv sOut sErr (if sIn = true then input else []) errData
      (initWorld cap sIn sOut sErr errData)
      (new sIn sOut sErr (if sIn = true then some input else none)) sOut sErr [] [] := by
  refine ⟨⟨hcap, rfl, rfl, ?_, ?_, fun _ => rfl⟩, rfl, rfl, fun h => h, fun h => h,
    ?_, ?_, ?_, ?_, ?_, fun _ => rfl, fun _ => rfl⟩
  · intro h
    cases h
  · intro h
    cases h
  · intro h
    have h' : sIn = true := h
    refine ⟨?_, Nat.zero_le _⟩
    show (!sIn) = false
    rw [h']
    rfl
  · intro _
    cases hsi : sIn <;> simp [remIn, new, initWorld, hsi]
  · intro _
    rfl
  · intro h1 h2
    rw [h2] at h1
    cases h1
  · intro h1 h2
    rw [h2] at h1
    cases h1

/-- Claim C2: deadlock freedom.  Against a closed sequential echo child
behind bounded pipes of any positive capacity — a child that blocks inside
its writes whenever the destination pipe is full and then reads no further
input, so a write-only parent can wedge the system (`sanity_check_8`) — for
every combination of requested streams and every input payload (of any
size, in particular exceeding the pipe capacity), `read_into`'s
poll-interleaved loop with no quota and no deadline terminates with `Ok`
and returns the full expected output on every requested stream: parent and
child never mutually block on pipe capacity. -/

theorem c2_deadlock_freedom (cap : Nat) (hcap : 1 ≤ cap) (sIn sOut sErr : Bool)
    (input errData : List Nat) :
    ∃ fuel : Nat,
      (posix_read echoEnv none fuel (initWorld cap sIn sOut sErr errData)
        (new sIn sOut sErr (if sIn = true then some input else none))).1 = RIOutcome.ok ∧
      (posix_read echoEnv none fuel (initWorld cap sIn sOut sErr errData)
        (new sIn sOut sErr (if sIn = true then some input else none))).2.1 =
        (if sOut = true then some (if sIn = true then input else []) else none) ∧
      (posix_read echoEnv none fuel (initWorld cap sIn sOut sErr errData)
        (new sIn sOut sErr (if sIn = true then some input else none))).2.2.1 =
        (if sErr = true then some errData else none) := by
  refine ⟨sysMeasure (initWorld cap sIn sOut sErr errData)
    (new sIn sOut sErr (if sIn = true then some input else none)) sOut sErr + 1, ?_⟩
  obtain ⟨hres, hcomO, hcomE, hovec, hevec⟩ :=
    echo_loop sOut sErr (if sIn = true then input else []) errData
      (sysMeasure (initWorld cap sIn sOut sErr errData)
        (new sIn sOut sErr (if sIn = true then some input else none)) sOut sErr + 1)
      (initWorld cap sIn sOut sErr errData)
      (new sIn sOut sErr (if sIn = true then some input else none)) sOut sErr [] []
      (initial_EInv cap hcap sIn sOut sErr input errData) (by omega)
  refine ⟨hres, ?_, ?_⟩
  · show (if (read_into echoEnv none
        (sysMeasure (initWorld cap sIn sOut sErr errData)
          (new sIn sOut sErr (if sIn = true then some input else none)) sOut sErr + 1)
        (initWorld cap sIn sOut sErr errData)
        (new sIn sOut sErr (if sIn = true then some input else none)) sOut sErr []
        []).comm.stdout = true
      then some (read_into echoEnv none
        (sysMeasure (initWorld cap sIn sOut sErr errData)
          (new sIn sOut sErr (if sIn = true then some input else none)) sOut sErr + 1)
        (initWorld cap sIn sOut sErr errData)
        (new sIn sOut sErr (if sIn = true then some input else none)) sOut sErr []
        []).outvec else none) =
      (if sOut = true then some (if sIn = true then input else []) else none)
    rw [hcomO, hovec]
    cases hso : sOut <;> simp
  · show (if (read_into echoEnv none
        (sysMeasure (initWorld cap sIn sOut sErr errData)
          (new sIn sOut sErr (if sIn = true then some input else none)) sOut sErr + 1)
        (initWorld cap sIn sOut sErr errData)
        (new sIn sOut sErr (if sIn = true then some input else none)) sOut sErr []
        []).comm.stderr = true
      then some (read_into echoEnv none
        (sysMeasure (initWorld cap sIn sOut sErr errData)
          (new sIn sOut sErr (if sIn = true then some input else none)) sOut sErr + 1)
        (initWorld cap sIn sOut sErr errData)
        (new sIn sOut sErr (if sIn = true then some input else none)) sOut sErr []
        []).errvec else none) =
      (if sErr = true then some errData else none)
    rw [hcomE, hevec]
    cases hse : sErr <;> simp

/-! ## Oracle environment well-formedness -/
/-- Oracle writes accept no more bytes than offered. -/
theorem oracleEnv_wf_write : ∀ (w : OWorld) (chunk : List Nat) (n : Nat),
    (oracleEnv.write w chunk).2 = .inl n → n ≤ chunk.length := by
  intro w chunk n h
  simp only [oracleEnv] at h
  injection h with h
  omega

/-- Oracle stdout reads respect the buffer size. -/

theorem oracleEnv_wf_readO : ∀ (w : OWorld) (n : Nat) (c : List Nat),
    (oracleEnv.readO w n).2 = .inl c → c.length ≤ n := by
  intro w n c h
  simp only [oracleEnv] at h
  injection h with h
  rw [← h, List.length_take]
  omega

/-- Oracle stderr reads respect the buffer size. -/

theorem oracleEnv_wf_readE : ∀ (w : OWorld) (n : Nat) (c : List Nat),
    (oracleEnv.readE w n).2 = .inl c → c.length ≤ n := by
  intro w n c h
  simp only [oracleEnv] at h
  injection h with h
  rw [← h, List.length_take]
  omega

end Posix

/-! ## The claims -/
/-- Claim C1 (amended: the quota must be at least one byte): for every
sequence of `read` calls on a worker-backend Communicator with a fixed
positive byte quota, the concatenation of the captured bytes across all calls
(including replay of the stashed leftover fragment) equals the bytes produced
by a single unlimited `read` call — no byte duplicated, none dropped — and
the final call reports all streams finished. -/
theorem c1_quota_resumability (lim : Option Nat) (hq1 : ∀ q, lim = some q → 1 ≤ q)
    (s : Worker.WState) (hclean : Worker.Clean false s = true)
    (fuel : Nat) (hf : Worker.wMeasure s < fuel) :
    ∃ co ce sf, Worker.readAllGo lim fuel s = some (co, ce, sf) ∧
      (Worker.wread none none s).outcome = .ok ∧
      (Worker.wread none none s).stdout =
        (if s.requested.hasOut then some co else none) ∧
      (Worker.wread none none s).stderr =
        (if s.requested.hasErr then some ce else none) ∧
      Worker.ReadDone sf ∧ Worker.Clean false sf = true := by
  obtain ⟨sf, hgo, hdone, hreq, hcleanf⟩ := Worker.readAllGo_spec lim hq1 fuel s hclean hf
  obtain ⟨hok, hso, hse, _⟩ := Worker.wread_unlimited s hclean
  exact ⟨Worker.remData .sOut s, Worker.remData .sErr s, sf, hgo, hok, hso, hse, hdone,
    hcleanf⟩

/-- Claim C1 witness at a concrete two-message stream read with quota 1. -/

theorem c1_quota_resumability_witness :
    (∀ q, (some 1 : Option Nat) = some q → 1 ≤ q) ∧
    Worker.Clean false ⟨[(.sOut, .data [1, 2]), (.sOut, .eof)], ⟨false, true, false⟩,
      ⟨false, true, false⟩, none⟩ = true ∧
    Worker.wMeasure ⟨[(.sOut, .data [1, 2]), (.sOut, .eof)], ⟨false, true, false⟩,
      ⟨false, true, false⟩, none⟩ < 10 ∧
    (∃ co ce sf, Worker.readAllGo (some 1) 10 ⟨[(.sOut, .data [1, 2]), (.sOut, .eof)],
        ⟨false, true, false⟩, ⟨false, true, false⟩, none⟩ = some (co, ce, sf) ∧
      (Worker.wread none none ⟨[(.sOut, .data [1, 2]), (.sOut, .eof)],
        ⟨false, true, false⟩, ⟨false, true, false⟩, none⟩).outcome = .ok ∧
      (Worker.wread none none ⟨[(.sOut, .data [1, 2]), (.sOut, .eof)],
        ⟨false, true, false⟩, ⟨false, true, false⟩, none⟩).stdout =
        (if (⟨[(.sOut, .data [1, 2]), (.sOut, .eof)], ⟨false, true, false⟩,
          ⟨false, true, false⟩, none⟩ : Worker.WState).requested.hasOut
         then some co else none) ∧
      (Worker.wread none none ⟨[(.sOut, .data [1, 2]), (.sOut, .eof)],
        ⟨false, true, false⟩, ⟨false, true, false⟩, none⟩).stderr =
        (if (⟨[(.sOut, .data [1, 2]), (.sOut, .eof)], ⟨false, true, false⟩,
          ⟨false, true, false⟩, none⟩ : Worker.WState).requested.hasErr
         then some ce else none) ∧
      Worker.ReadDone sf ∧ Worker.Clean false sf = true) :=
  ⟨(fun q h => by injection h with h; omega), by decide, by decide,
   c1_quota_resumability (some 1) (fun q h => by injection h with h; omega)
     ⟨[(.sOut, .data [1, 2]), (.sOut, .eof)], ⟨false, true, false⟩, ⟨false, true, false⟩,
       none⟩ (by decide) 10 (by decide)⟩

/-- Claim C1 counterexample: as stated the claim fails for quota 0 (a fixed
quota smaller than the total output).  On a clean state holding a stashed
leftover byte 7, a single unlimited read captures `[7]`, but a quota-0 read
followed by an unlimited read captures nothing at all and reports all streams
finished: the leftover is dropped by `grow_result`'s early `return false`. -/

theorem c1_counterexample :
    Worker.Clean false ⟨[(.sOut, .eof)], ⟨false, true, false⟩, ⟨false, true, false⟩,
      some (.sOut, [7])⟩ = true ∧
    (Worker.wread none none ⟨[(.sOut, .eof)], ⟨false, true, false⟩,
      ⟨false, true, false⟩, some (.sOut, [7])⟩).stdout = some [7] ∧
    (Worker.wread none (some 0) ⟨[(.sOut, .eof)], ⟨false, true, false⟩,
      ⟨false, true, false⟩, some (.sOut, [7])⟩).outcome = .ok ∧
    (Worker.wread none (some 0) ⟨[(.sOut, .eof)], ⟨false, true, false⟩,
      ⟨false, true, false⟩, some (.sOut, [7])⟩).stdout = some [] ∧
    (Worker.wread none none (Worker.wread none (some 0) ⟨[(.sOut, .eof)],
      ⟨false, true, false⟩, ⟨false, true, false⟩,
      some (.sOut, [7])⟩).state).stdout = some [] ∧
    Worker.readDone (Worker.wread none none (Worker.wread none (some 0) ⟨[(.sOut, .eof)],
      ⟨false, true, false⟩, ⟨false, true, false⟩,
      some (.sOut, [7])⟩).state).state = true := by
  decide

/-- Claim C2 witness at capacity 1 with a 2-byte input crossing the pipe
bound. -/

theorem c2_deadlock_freedom_witness :
    1 ≤ 1 ∧
    (∃ fuel : Nat,
      (Posix.posix_read Posix.echoEnv none fuel (Posix.initWorld 1 true true true [9])
        (Posix.new true true true (if true = true then some [1, 2] else none))).1 =
        Posix.RIOutcome.ok ∧
      (Posix.posix_read Posix.echoEnv none fuel (Posix.initWorld 1 true true true [9])
        (Posix.new true true true (if true = true then some [1, 2] else none))).2.1 =
        (if true = true then some (if true = true then [1, 2] else []) else none) ∧
      (Posix.posix_read Posix.echoEnv none fuel (Posix.initWorld 1 true true true [9])
        (Posix.new true true true (if true = true then some [1, 2] else none))).2.2.1 =
        (if true = true then some [9] else none)) :=
  ⟨by decide, Posix.c2_deadlock_freedom 1 (by decide) true true true [1, 2] [9]⟩

/-- Claim C3 (amended: the held-back guarantee needs a positive quota): on
both backends the combined newly captured stdout and stderr bytes of one
quota-limited `read` call never exceed the quota — for every quota,
including 0, where nothing is captured — and on the worker backend with a
quota of at least one byte the data beyond the quota is withheld in the
communicator state, not discarded (at quota 0 it is dropped, see the
counterexample). -/

theorem c3_quota_bound {W : Type} (env : Posix.PEnv W)
    (hwr : ∀ w chunk n, (env.write w chunk).2 = .inl n → n ≤ chunk.length)
    (hro : ∀ w n cch, (env.readO w n).2 = .inl cch → cch.length ≤ n)
    (hre : ∀ w n cch, (env.readE w n).2 = .inl cch → cch.length ≤ n)
    (q : Nat) (deadline : Option Nat) (s : Worker.WState)
    (hclean : Worker.Clean false s = true)
    (fuel : Nat) (w : W) (c : Posix.PComm) (oRef eRef : Bool) :
    (∃ co ce,
      (Worker.wread deadline (some q) s).stdout =
        (if s.requested.hasOut then some co else none) ∧
      (Worker.wread deadline (some q) s).stderr =
        (if s.requested.hasErr then some ce else none) ∧
      co.length + ce.length ≤ q ∧
      (1 ≤ q →
        co ++ Worker.remData .sOut (Worker.wread deadline (some q) s).state =
          Worker.remData .sOut s ∧
        ce ++ Worker.remData .sErr (Worker.wread deadline (some q) s).state =
          Worker.remData .sErr s)) ∧
    (Posix.read_into env (some q) fuel w c oRef eRef [] []).outvec.length +
      (Posix.read_into env (some q) fuel w c oRef eRef [] []).errvec.length ≤ q := by
  constructor
  · by_cases hq : 1 ≤ q
    · obtain ⟨_, _, ⟨co, ce, hso, hse, hcono, hcone, hlim⟩, _⟩ :=
        Worker.wread_spec false deadline (some q) s (Worker.wread deadline (some q) s) rfl
          hclean (fun q' h => by injection h with h; omega)
      exact ⟨co, ce, hso, hse, hlim q rfl, fun _ => ⟨hcono, hcone⟩⟩
    · have hq0 : q = 0 := by omega
      subst hq0
      obtain ⟨hso, hse⟩ := Worker.wread_zero deadline s
      exact ⟨[], [], hso, hse, by simp, fun h => absurd h (by omega)⟩
  · exact (Posix.read_into_spec env hwr hro hre (some q) fuel w c oRef eRef [] []).1
      q rfl (by simp)

/-- Claim C3 witness: quota 1 against the oracle environment and a concrete
worker state. -/

theorem c3_quota_bound_witness :
    Worker.Clean false ⟨[(.sOut, .data [8]), (.sOut, .eof)], ⟨false, true, false⟩,
      ⟨false, true, false⟩, none⟩ = true ∧
    ((∃ co ce,
      (Worker.wread none (some 1) ⟨[(.sOut, .data [8]), (.sOut, .eof)],
        ⟨false, true, false⟩, ⟨false, true, false⟩, none⟩).stdout =
        (if (⟨[(.sOut, .data [8]), (.sOut, .eof)], ⟨false, true, false⟩,
          ⟨false, true, false⟩, none⟩ : Worker.WState).requested.hasOut
         then some co else none) ∧
      (Worker.wread none (some 1) ⟨[(.sOut, .data [8]), (.sOut, .eof)],
        ⟨false, true, false⟩, ⟨false, true, false⟩, none⟩).stderr =
        (if (⟨[(.sOut, .data [8]), (.sOut, .eof)], ⟨false, true, false⟩,
          ⟨false, true, false⟩, none⟩ : Worker.WState).requested.hasErr
         then some ce else none) ∧
      co.length + ce.length ≤ 1 ∧
      (1 ≤ 1 →
        co ++ Worker.remData .sOut (Worker.wread none (some 1) ⟨[(.sOut, .data [8]),
          (.sOut, .eof)], ⟨false, true, false⟩, ⟨false, true, false⟩, none⟩).state =
          Worker.remData .sOut ⟨[(.sOut, .data [8]), (.sOut, .eof)], ⟨false, true, false⟩,
            ⟨false, true, false⟩, none⟩ ∧
        ce ++ Worker.remData .sErr (Worker.wread none (some 1) ⟨[(.sOut, .data [8]),
          (.sOut, .eof)], ⟨false, true, false⟩, ⟨false, true, false⟩, none⟩).state =
          Worker.remData .sErr ⟨[(.sOut, .data [8]), (.sOut, .eof)], ⟨false, true, false⟩,
            ⟨false, true, false⟩, none⟩)) ∧
    (Posix.read_into Posix.oracleEnv (some 1) 3 ((none, []) : Posix.OWorld)
      (Posix.new false true false none) true false [] []).outvec.length +
      (Posix.read_into Posix.oracleEnv (some 1) 3 ((none, []) : Posix.OWorld)
        (Posix.new false true false none) true false [] []).errvec.length ≤ 1) :=
  ⟨by decide,
   c3_quota_bound Posix.oracleEnv Posix.oracleEnv_wf_write Posix.oracleEnv_wf_readO
     Posix.oracleEnv_wf_readE 1 none
     ⟨[(.sOut, .data [8]), (.sOut, .eof)], ⟨false, true, false⟩, ⟨false, true, false⟩,
       none⟩ (by decide) 3 ((none, []) : Posix.OWorld)
     (Posix.new false true false none) true false⟩

/-- Claim C3 counterexample: with quota 0 the "held back, not discarded" part
fails — replaying a stashed stderr leftover `[9]` under quota 0 captures
nothing yet erases the withheld bytes from the communicator state. -/

theorem c3_counterexample :
    Worker.remData .sErr ⟨[], ⟨false, false, true⟩, ⟨false, false, true⟩,
      some (.sErr, [9])⟩ = [9] ∧
    (Worker.wread none (some 0) ⟨[], ⟨false, false, true⟩, ⟨false, false, true⟩,
      some (.sErr, [9])⟩).outcome = .ok ∧
    (Worker.wread none (some 0) ⟨[], ⟨false, false, true⟩, ⟨false, false, true⟩,
      some (.sErr, [9])⟩).stderr = some [] ∧
    Worker.remData .sErr (Worker.wread none (some 0) ⟨[], ⟨false, false, true⟩,
      ⟨false, false, true⟩, some (.sErr, [9])⟩).state = [] := by
  decide

/-- Claim C4 (amended: within a single call a finished handle is never
touched again — end-of-stream is never followed by another read of the same
stream, a dropped local reference is never read, a completed or absent stdin
is never written — and across calls the worker backend's helper set only
shrinks; but on the POSIX backend the communicator's owned output handles are
not cleared across calls, see the counterexample). -/

theorem c4_finished_handles {W : Type} (env : Posix.PEnv W)
    (hwr : ∀ w chunk n, (env.write w chunk).2 = .inl n → n ≤ chunk.length)
    (hro : ∀ w n cch, (env.readO w n).2 = .inl cch → cch.length ≤ n)
    (hre : ∀ w n cch, (env.readE w n).2 = .inl cch → cch.length ≤ n)
    (lim : Option Nat) (fuel : Nat) (w : W) (c : Posix.PComm) (oRef eRef : Bool)
    (outvec errvec : List Nat)
    (deadline wlim : Option Nat) (s : Worker.WState)
    (hclean : Worker.Clean false s = true)
    (hq1 : ∀ q, wlim = some q → 1 ≤ q) :
    (oRef = false →
      ∀ ev ∈ (Posix.read_into env lim fuel w c oRef eRef outvec errvec).events,
        Posix.isReadO ev = false) ∧
    (eRef = false →
      ∀ ev ∈ (Posix.read_into env lim fuel w c oRef eRef outvec errvec).events,
        Posix.isReadE ev = false) ∧
    Posix.noReadOAfterEof (Posix.read_into env lim fuel w c oRef eRef outvec errvec).events
      = true ∧
    Posix.noReadEAfterEof (Posix.read_into env lim fuel w c oRef eRef outvec errvec).events
      = true ∧
    (c.stdin = false →
      ∀ ev ∈ (Posix.read_into env lim fuel w c oRef eRef outvec errvec).events,
        Posix.isWrote ev = false) ∧
    ((Posix.read_into env lim fuel w c oRef eRef outvec errvec).comm.stdin = true →
      c.stdin = true) ∧
    (Worker.wread deadline wlim s).state.helper_set.subset s.helper_set := by
  obtain ⟨_, _, hmono, _, _, _, _, h8, h9, h10, h11, h12⟩ :=
    Posix.read_into_spec env hwr hro hre lim fuel w c oRef eRef outvec errvec
  obtain ⟨_, _, _, _, hsub, _⟩ :=
    Worker.wread_spec false deadline wlim s (Worker.wread deadline wlim s) rfl hclean hq1
  exact ⟨h8, h9, h10, h11, h12, hmono, hsub⟩

/-- Claim C4 witness against the oracle environment. -/

theorem c4_finished_handles_witness :
    Worker.Clean false ⟨[(.sOut, .eof)], ⟨false, true, false⟩, ⟨false, true, false⟩,
      none⟩ = true ∧
    (∀ q, (none : Option Nat) = some q → 1 ≤ q) ∧
    ((false = false →
      ∀ ev ∈ (Posix.read_into Posix.oracleEnv none 2 ((none, []) : Posix.OWorld)
          (Posix.new false true false none) false false [] []).events,
        Posix.isReadO ev = false) ∧
    (false = false →
      ∀ ev ∈ (Posix.read_into Posix.oracleEnv none 2 ((none, []) : Posix.OWorld)
          (Posix.new false true false none) false false [] []).events,
        Posix.isReadE ev = false) ∧
    Posix.noReadOAfterEof (Posix.read_into Posix.oracleEnv none 2
      ((none, []) : Posix.OWorld) (Posix.new false true false none) false false []
      []).events = true ∧
    Posix.noReadEAfterEof (Posix.read_into Posix.oracleEnv none 2
      ((none, []) : Posix.OWorld) (Posix.new false true false none) false false []
      []).events = true ∧
    ((Posix.new false true false none).stdin = false →
      ∀ ev ∈ (Posix.read_into Posix.oracleEnv none 2 ((none, []) : Posix.OWorld)
          (Posix.new false true false none) false false [] []).events,
        Posix.isWrote ev = false) ∧
    ((Posix.read_into Posix.oracleEnv none 2 ((none, []) : Posix.OWorld)
        (Posix.new false true false none) false false [] []).comm.stdin = true →
      (Posix.new false true false none).stdin = true) ∧
    (Worker.wread none none ⟨[(.sOut, .eof)], ⟨false, true, false⟩,
      ⟨false, true, false⟩, none⟩).state.helper_set.subset
      (⟨[(.sOut, .eof)], ⟨false, true, false⟩, ⟨false, true, false⟩,
        none⟩ : Worker.WState).helper_set) :=
  ⟨by decide, (fun q h => by cases h),
   c4_finished_handles Posix.oracleEnv Posix.oracleEnv_wf_write Posix.oracleEnv_wf_readO
     Posix.oracleEnv_wf_readE none 2 ((none, []) : Posix.OWorld)
     (Posix.new false true false none) false false [] [] none none
     ⟨[(.sOut, .eof)], ⟨false, true, false⟩, ⟨false, true, false⟩, none⟩ (by decide)
     (fun q h => by cases h)⟩

/-- Claim C4 counterexample: across calls the claim fails on the POSIX
backend.  A first call observes end of stream on stdout (the `evReadO 0`
event) — a terminal state — yet because only the call-local reference is
cleared and the communicator's owned handle survives, a second call polls and
reads the same handle again (the `evReadO 1` event, delivering a byte). -/

theorem c4_counterexample :
    (Posix.posix_read Posix.oracleEnv none 2
      ((none, [⟨false, true, false, 0, [], []⟩]) : Posix.OWorld)
      (Posix.new false true false none)).2.2.2.2.2 = [Posix.PEvent.evReadO 0] ∧
    (Posix.posix_read Posix.oracleEnv none 2
      ((none, [⟨false, true, false, 0, [5], []⟩]) : Posix.OWorld)
      (Posix.posix_read Posix.oracleEnv none 2
        ((none, [⟨false, true, false, 0, [], []⟩]) : Posix.OWorld)
        (Posix.new false true false none)).2.2.2.2.1).2.2.2.2.2 =
      [Posix.PEvent.evReadO 1] ∧
    (Posix.posix_read Posix.oracleEnv none 2
      ((none, [⟨false, true, false, 0, [5], []⟩]) : Posix.OWorld)
      (Posix.posix_read Posix.oracleEnv none 2
        ((none, [⟨false, true, false, 0, [], []⟩]) : Posix.OWorld)
        (Posix.new false true false none)).2.2.2.2.1).2.1 = some [5] := by
  decide

/-- Claim C5 (amended: the cursor bound holds while the stdin handle is still
open; once the write completes the handle is dropped, the buffer is cleared
and the stale cursor is unobservable — but the raw field does exceed the
buffer length then, see the counterexample): from any state satisfying the
bound, after any `read_into` run the bound still holds whenever the stdin
handle is present, and a freshly constructed communicator satisfies it. -/

theorem c5_input_cursor {W : Type} (env : Posix.PEnv W)
    (hwr : ∀ w chunk n, (env.write w chunk).2 = .inl n → n ≤ chunk.length)
    (hro : ∀ w n cch, (env.readO w n).2 = .inl cch → cch.length ≤ n)
    (hre : ∀ w n cch, (env.readE w n).2 = .inl cch → cch.length ≤ n)
    (lim : Option Nat) (fuel : Nat) (w : W) (c : Posix.PComm) (oRef eRef : Bool)
    (outvec errvec : List Nat)
    (hc : c.stdin = true → c.input_pos ≤ c.input_data.length) :
    ((Posix.read_into env lim fuel w c oRef eRef outvec errvec).comm.stdin = true →
      (Posix.read_into env lim fuel w c oRef eRef outvec errvec).comm.input_pos ≤
        (Posix.read_into env lim fuel w c oRef eRef outvec errvec).comm.input_data.length) ∧
    (∀ (sIn sOut sErr : Bool) (inp : Option (List Nat)),
      (Posix.new sIn sOut sErr inp).input_pos ≤
        (Posix.new sIn sOut sErr inp).input_data.length) := by
  refine ⟨?_, fun _ _ _ _ => Nat.zero_le _⟩
  exact (Posix.read_into_spec env hwr hro hre lim fuel w c oRef eRef outvec errvec).2.1 hc

/-- Claim C5 witness against the oracle environment. -/

theorem c5_input_cursor_witness :
    ((Posix.new true false false (some [5])).stdin = true →
      (Posix.new true false false (some [5])).input_pos ≤
        (Posix.new true false false (some [5])).input_data.length) ∧
    (((Posix.read_into Posix.oracleEnv none 2
        ((none, [⟨true, false, false, 1, [], []⟩]) : Posix.OWorld)
        (Posix.new true false false (some [5])) false false [] []).comm.stdin = true →
      (Posix.read_into Posix.oracleEnv none 2
        ((none, [⟨true, false, false, 1, [], []⟩]) : Posix.OWorld)
        (Posix.new true false false (some [5])) false false [] []).comm.input_pos ≤
        (Posix.read_into Posix.oracleEnv none 2
          ((none, [⟨true, false, false, 1, [], []⟩]) : Posix.OWorld)
          (Posix.new true false false (some [5])) false false []
          []).comm.input_data.length) ∧
    (∀ (sIn sOut sErr : Bool) (inp : Option (List Nat)),
      (Posix.new sIn sOut sErr inp).input_pos ≤
        (Posix.new sIn sOut sErr inp).input_data.length)) :=
  ⟨by decide,
   c5_input_cursor Posix.oracleEnv Posix.oracleEnv_wf_write Posix.oracleEnv_wf_readO
     Posix.oracleEnv_wf_readE none 2
     ((none, [⟨true, false, false, 1, [], []⟩]) : Posix.OWorld)
     (Posix.new true false false (some [5])) false false [] [] (by decide)⟩

/-- Claim C5 counterexample: the raw cursor field does exceed the input
buffer length in a reachable state.  Writing the whole 1-byte input completes
the transfer: `read_into` clears `input_data` but leaves `input_pos` at 1, so
the resulting communicator has `input_pos = 1 > 0 = input_data.length`. -/

theorem c5_counterexample :
    (Posix.posix_read Posix.oracleEnv none 2
      ((none, [⟨true, false, false, 1, [], []⟩]) : Posix.OWorld)
      (Posix.new true false false (some [5]))).2.2.2.2.1 =
      (⟨false, false, false, [], 1⟩ : Posix.PComm) ∧
    ¬((Posix.posix_read Posix.oracleEnv none 2
      ((none, [⟨true, false, false, 1, [], []⟩]) : Posix.OWorld)
      (Posix.new true false false (some [5]))).2.2.2.2.1.input_pos ≤
      (Posix.posix_read Posix.oracleEnv none 2
        ((none, [⟨true, false, false, 1, [], []⟩]) : Posix.OWorld)
        (Posix.new true false false (some [5]))).2.2.2.2.1.input_data.length) := by
  decide

/-- Claim C6 (amended: every single write to the child's stdin transfers a
chunk of AT MOST `WRITE_SIZE = 4096` bytes — exactly
`min 4096 remaining` — never more than the remaining payload; a chunk of
exactly 4096 bytes is attempted whenever at least 4096 bytes remain, so
"strictly smaller" fails, see the counterexample). -/

theorem c6_bounded_write_chunks {W : Type} (env : Posix.PEnv W)
    (hwr : ∀ w chunk n, (env.write w chunk).2 = .inl n → n ≤ chunk.length)
    (hro : ∀ w n cch, (env.readO w n).2 = .inl cch → cch.length ≤ n)
    (hre : ∀ w n cch, (env.readE w n).2 = .inl cch → cch.length ≤ n)
    (lim : Option Nat) (fuel : Nat) (w : W) (c : Posix.PComm) (oRef eRef : Bool)
    (outvec errvec : List Nat) :
    ∀ a n rem, Posix.PEvent.wrote a n rem ∈
        (Posix.read_into env lim fuel w c oRef eRef outvec errvec).events →
      a = min 4096 rem ∧ a ≤ 4096 ∧ a ≤ rem := by
  intro a n rem h
  have ha := (Posix.read_into_spec env hwr hro hre lim fuel w c oRef eRef
    outvec errvec).2.2.2.2.2.2.1 a n rem h
  omega

/-- Claim C6 witness against the oracle environment. -/

theorem c6_bounded_write_chunks_witness :
    (2 : Nat) = min 4096 2 ∧ (2 : Nat) ≤ 4096 ∧ (2 : Nat) ≤ 2 :=
  c6_bounded_write_chunks Posix.oracleEnv Posix.oracleEnv_wf_write
    Posix.oracleEnv_wf_readO Posix.oracleEnv_wf_readE none 2
    ((none, [⟨true, false, false, 1, [], []⟩]) : Posix.OWorld)
    (Posix.new true false false (some [5, 6])) false false [] [] 2 1 2
    (by decide)

/-- Claim C6 counterexample: with 4097 bytes of pending input, the single
write issued by `read_into` attempts a chunk of exactly 4096 bytes —
`min WRITE_SIZE remaining` — which is not strictly smaller than 4096. -/

theorem c6_cex_write_event (l : List Nat) (hne : l.length ≠ 0) :
    (Posix.posix_read Posix.oracleEnv none 2
      ((none, [⟨true, false, false, 0, [], []⟩]) : Posix.OWorld)
      (Posix.new true false false (some l))).2.2.2.2.2 =
      [Posix.PEvent.wrote (min 4096 l.length) 0 l.length] := by
  have hmin : min (min 4096 l.length) l.length = min 4096 l.length := by omega
  simp [Posix.posix_read, Posix.read_into, Posix.poll3, Posix.oracleEnv, Posix.writeArm,
    Posix.readArm, Posix.new, Posix.do_read, hne, hmin, List.length_take]
  rw [if_neg fun h => hne h.symm]
  simp [Posix.read_into, Posix.poll3, Posix.oracleEnv]

theorem c6_counterexample :
    (Posix.posix_read Posix.oracleEnv none 2
      ((none, [⟨true, false, false, 0, [], []⟩]) : Posix.OWorld)
      (Posix.new true false false (some (List.replicate 4097 0)))).2.2.2.2.2 =
      [Posix.PEvent.wrote 4096 0 4097] ∧
    ¬(4096 < 4096) := by
  constructor
  · rw [c6_cex_write_event (List.replicate 4097 0)
      (by rw [List.length_replicate]; omega)]
    rw [List.length_replicate]
    decide
  · decide

/-- Claim C7: every failing `read` carries the partial capture, on both
backends and for both failure kinds.  On the worker backend, from any clean
state — error messages from the workers allowed — a call never panics or
blocks, its returned vectors are exactly the bytes delivered so far (the
withheld remainder accounts for the rest), and the facade wraps every
failure, timeout or I/O error alike, into a `CommunicateError` carrying that
capture with the matching kind.  When the channel holds no error message a
failure can only be the timeout, the state stays consistent and a follow-up
unlimited call returns precisely the withheld remainder.  On the POSIX
backend `read_into` only ever appends to the capture vectors — every failure
exit returns them intact — and `os::Communicator::read`
(communicate.rs:162-179) returns the capture alongside the error in both the
`Ok` and the `Err` branch. -/

theorem c7_failure_carries_capture {W : Type} (env : Posix.PEnv W)
    (hro : ∀ w n cch, (env.readO w n).2 = .inl cch → cch.length ≤ n)
    (hre : ∀ w n cch, (env.readE w n).2 = .inl cch → cch.length ≤ n)
    (deadline lim : Option Nat) (hq1 : ∀ q, lim = some q → 1 ≤ q)
    (s : Worker.WState) (hclean : Worker.Clean true s = true)
    (fuel : Nat) (w : W) (pc : Posix.PComm) (oRef eRef : Bool)
    (outvec errvec : List Nat) :
    (∀ p, (Worker.wread deadline lim s).outcome ≠ .panicked p) ∧
    (Worker.wread deadline lim s).outcome ≠ .stuck ∧
    (∃ co ce,
      (Worker.wread deadline lim s).stdout =
        (if s.requested.hasOut then some co else none) ∧
      (Worker.wread deadline lim s).stderr =
        (if s.requested.hasErr then some ce else none) ∧
      co ++ Worker.remData .sOut (Worker.wread deadline lim s).state =
        Worker.remData .sOut s ∧
      ce ++ Worker.remData .sErr (Worker.wread deadline lim s).state =
        Worker.remData .sErr s) ∧
    (∃ res, fread ⟨s, lim, deadline⟩ =
        some (res, ⟨(Worker.wread deadline lim s).state, lim, deadline⟩) ∧
      ∀ e, res = .error e →
        e.capture = ((Worker.wread deadline lim s).stdout,
          (Worker.wread deadline lim s).stderr) ∧
        (Worker.wread deadline lim s).outcome = .ioerr e.kind) ∧
    (Worker.Clean false s = true →
      ((Worker.wread deadline lim s).outcome = .ok ∨
        (Worker.wread deadline lim s).outcome = .ioerr .timedOut) ∧
      Worker.Clean false (Worker.wread deadline lim s).state = true ∧
      (Worker.wread none none (Worker.wread deadline lim s).state).stdout =
        (if s.requested.hasOut
         then some (Worker.remData .sOut (Worker.wread deadline lim s).state)
         else none) ∧
      (Worker.wread none none (Worker.wread deadline lim s).state).stderr =
        (if s.requested.hasErr
         then some (Worker.remData .sErr (Worker.wread deadline lim s).state)
         else none)) ∧
    (∃ δo δe,
      (Posix.read_into env lim fuel w pc oRef eRef outvec errvec).outvec =
        outvec ++ δo ∧
      (Posix.read_into env lim fuel w pc oRef eRef outvec errvec).errvec =
        errvec ++ δe) ∧
    Posix.posix_read env lim fuel w pc =
      ((Posix.read_into env lim fuel w pc pc.stdout pc.stderr [] []).res,
       (if (Posix.read_into env lim fuel w pc pc.stdout pc.stderr [] []).comm.stdout
        then some (Posix.read_into env lim fuel w pc pc.stdout pc.stderr [] []).outvec
        else none),
       (if (Posix.read_into env lim fuel w pc pc.stdout pc.stderr [] []).comm.stderr
        then some (Posix.read_into env lim fuel w pc pc.stdout pc.stderr [] []).errvec
        else none),
       (Posix.read_into env lim fuel w pc pc.stdout pc.stderr [] []).w,
       (Posix.read_into env lim fuel w pc pc.stdout pc.stderr [] []).comm,
       (Posix.read_into env lim fuel w pc pc.stdout pc.stderr [] []).events) := by
  obtain ⟨hnp, hns, ⟨co, ce, hso, hse, hcono, hcone, _⟩, _, _, _, _, _, _, _, _, _⟩ :=
    Worker.wread_spec true deadline lim s (Worker.wread deadline lim s) rfl hclean hq1
  refine ⟨hnp, hns, ⟨co, ce, hso, hse, hcono, hcone⟩, ?_, ?_,
    Posix.read_into_extends env hro hre lim fuel w pc oRef eRef outvec errvec, rfl⟩
  · cases ho : (Worker.wread deadline lim s).outcome with
    | ok =>
      refine ⟨.ok ((Worker.wread deadline lim s).stdout,
        (Worker.wread deadline lim s).stderr), ?_, ?_⟩
      · unfold fread
        rw [ho]
      · intro e he
        cases he
    | ioerr k =>
      refine ⟨.error ⟨k, ((Worker.wread deadline lim s).stdout,
          (Worker.wread deadline lim s).stderr)⟩, ?_, ?_⟩
      · unfold fread
        rw [ho]
      · intro e he
        injection he with he
        rw [← he]
        exact ⟨rfl, rfl⟩
    | panicked p => exact absurd ho (hnp p)
    | stuck => exact absurd ho hns
  · intro hcf
    obtain ⟨_, _, _, hreqp, _, _, hclf, _, houtc, _, _, _⟩ :=
      Worker.wread_spec false deadline lim s (Worker.wread deadline lim s) rfl hcf hq1
    have hclean2 := hclf rfl
    obtain ⟨_, hso2, hse2, _⟩ := Worker.wread_unlimited (Worker.wread deadline lim s).state
      hclean2
    exact ⟨houtc rfl, hclean2, by rw [hso2, hreqp], by rw [hse2, hreqp]⟩

/-- Claim C7 witness: a worker state whose channel ends in an I/O error
message — the call fails with that error's kind and the facade's
`CommunicateError` carries the bytes captured before it — together with a
POSIX run started with a non-empty capture that is returned extended, not
discarded. -/

theorem c7_failure_carries_capture_witness :
    Worker.Clean true ⟨[(.sOut, .data [3]), (.sOut, .err (.other 5))],
      ⟨false, true, false⟩, ⟨false, true, false⟩, none⟩ = true ∧
    (Worker.wread none none ⟨[(.sOut, .data [3]), (.sOut, .err (.other 5))],
      ⟨false, true, false⟩, ⟨false, true, false⟩, none⟩).outcome = .ioerr (.other 5) ∧
    (Worker.wread none none ⟨[(.sOut, .data [3]), (.sOut, .err (.other 5))],
      ⟨false, true, false⟩, ⟨false, true, false⟩, none⟩).stdout = some [3] ∧
    (∃ res, fread ⟨⟨[(.sOut, .data [3]), (.sOut, .err (.other 5))],
        ⟨false, true, false⟩, ⟨false, true, false⟩, none⟩, none, none⟩ =
        some (res, ⟨(Worker.wread none none ⟨[(.sOut, .data [3]),
          (.sOut, .err (.other 5))], ⟨false, true, false⟩, ⟨false, true, false⟩,
          none⟩).state, none, none⟩) ∧
      ∀ e, res = .error e →
        e.capture = ((Worker.wread none none ⟨[(.sOut, .data [3]),
            (.sOut, .err (.other 5))], ⟨false, true, false⟩, ⟨false, true, false⟩,
            none⟩).stdout,
          (Worker.wread none none ⟨[(.sOut, .data [3]), (.sOut, .err (.other 5))],
            ⟨false, true, false⟩, ⟨false, true, false⟩, none⟩).stderr) ∧
        (Worker.wread none none ⟨[(.sOut, .data [3]), (.sOut, .err (.other 5))],
          ⟨false, true, false⟩, ⟨false, true, false⟩, none⟩).outcome =
          .ioerr e.kind) ∧
    (∃ δo δe,
      (Posix.read_into Posix.oracleEnv none 2 ((none, []) : Posix.OWorld)
        (Posix.new false true false none) true false [5] []).outvec = [5] ++ δo ∧
      (Posix.read_into Posix.oracleEnv none 2 ((none, []) : Posix.OWorld)
        (Posix.new false true false none) true false [5] []).errvec = [] ++ δe) :=
  ⟨by decide, by decide, by decide,
   (c7_failure_carries_capture Posix.oracleEnv Posix.oracleEnv_wf_readO
     Posix.oracleEnv_wf_readE none none (fun q h => by cases h)
     ⟨[(.sOut, .data [3]), (.sOut, .err (.other 5))], ⟨false, true, false⟩,
       ⟨false, true, false⟩, none⟩ (by decide) 2 ((none, []) : Posix.OWorld)
     (Posix.new false true false none) true false [5] []).2.2.2.1,
   (c7_failure_carries_capture Posix.oracleEnv Posix.oracleEnv_wf_readO
     Posix.oracleEnv_wf_readE none none (fun q h => by cases h)
     ⟨[(.sOut, .data [3]), (.sOut, .err (.other 5))], ⟨false, true, false⟩,
       ⟨false, true, false⟩, none⟩ (by decide) 2 ((none, []) : Posix.OWorld)
     (Posix.new false true false none) true false [5] []).2.2.2.2.2.1⟩

/-- Claim C8: each element of the returned pair is `Some` exactly when that
stream was supplied at construction.  On the POSIX backend the handles of the
communicator built by `new` are carried unchanged through `read_into` and
decide the wrapping; on the worker backend the pair follows the requested
set, an unrequested stream being `None`. -/

theorem c8_stream_presence {W : Type} (env : Posix.PEnv W)
    (hwr : ∀ w chunk n, (env.write w chunk).2 = .inl n → n ≤ chunk.length)
    (hro : ∀ w n cch, (env.readO w n).2 = .inl cch → cch.length ≤ n)
    (hre : ∀ w n cch, (env.readE w n).2 = .inl cch → cch.length ≤ n)
    (lim : Option Nat) (fuel : Nat) (w : W) (sIn sOut sErr : Bool)
    (inp : Option (List Nat))
    (deadline wlim : Option Nat) (s : Worker.WState)
    (hclean : Worker.Clean false s = true)
    (hq1 : ∀ q, wlim = some q → 1 ≤ q) :
    ((Posix.posix_read env lim fuel w (Posix.new sIn sOut sErr inp)).2.1.isSome
      = sOut) ∧
    ((Posix.posix_read env lim fuel w (Posix.new sIn sOut sErr inp)).2.2.1.isSome
      = sErr) ∧
    (∃ co ce,
      (Worker.wread deadline wlim s).stdout =
        (if s.requested.hasOut then some co else none) ∧
      (Worker.wread deadline wlim s).stderr =
        (if s.requested.hasErr then some ce else none)) := by
  obtain ⟨_, _, _, ⟨hcout, hcerr⟩, _⟩ :=
    Posix.read_into_spec env hwr hro hre lim fuel w (Posix.new sIn sOut sErr inp)
      sOut sErr [] []
  obtain ⟨_, _, ⟨co, ce, hso, hse, _⟩, _⟩ :=
    Worker.wread_spec false deadline wlim s (Worker.wread deadline wlim s) rfl hclean hq1
  refine ⟨?_, ?_, co, ce, hso, hse⟩
  · show (if (Posix.read_into env lim fuel w (Posix.new sIn sOut sErr inp)
        sOut sErr [] []).comm.stdout = true
      then some (Posix.read_into env lim fuel w (Posix.new sIn sOut sErr inp)
        sOut sErr [] []).outvec else none).isSome = sOut
    rw [show (Posix.read_into env lim fuel w (Posix.new sIn sOut sErr inp)
        sOut sErr [] []).comm.stdout = sOut from hcout]
    cases sOut <;> rfl
  · show (if (Posix.read_into env lim fuel w (Posix.new sIn sOut sErr inp)
        sOut sErr [] []).comm.stderr = true
      then some (Posix.read_into env lim fuel w (Posix.new sIn sOut sErr inp)
        sOut sErr [] []).errvec else none).isSome = sErr
    rw [show (Posix.read_into env lim fuel w (Posix.new sIn sOut sErr inp)
        sOut sErr [] []).comm.stderr = sErr from hcerr]
    cases sErr <;> rfl

/-- Claim C8 witness: stdout requested, stderr not. -/

theorem c8_stream_presence_witness :
    Worker.Clean false ⟨[(.sOut, .eof)], ⟨false, true, false⟩, ⟨false, true, false⟩,
      none⟩ = true ∧
    (∀ q, (none : Option Nat) = some q → 1 ≤ q) ∧
    (((Posix.posix_read Posix.oracleEnv none 2 ((none, []) : Posix.OWorld)
        (Posix.new false true false none)).2.1.isSome = true) ∧
    ((Posix.posix_read Posix.oracleEnv none 2 ((none, []) : Posix.OWorld)
        (Posix.new false true false none)).2.2.1.isSome = false) ∧
    (∃ co ce,
      (Worker.wread none none ⟨[(.sOut, .eof)], ⟨false, true, false⟩,
        ⟨false, true, false⟩, none⟩).stdout =
        (if (⟨[(.sOut, .eof)], ⟨false, true, false⟩, ⟨false, true, false⟩,
          none⟩ : Worker.WState).requested.hasOut then some co else none) ∧
      (Worker.wread none none ⟨[(.sOut, .eof)], ⟨false, true, false⟩,
        ⟨false, true, false⟩, none⟩).stderr =
        (if (⟨[(.sOut, .eof)], ⟨false, true, false⟩, ⟨false, true, false⟩,
          none⟩ : Worker.WState).requested.hasErr then some ce else none))) :=
  ⟨by decide, (fun q h => by cases h),
   c8_stream_presence Posix.oracleEnv Posix.oracleEnv_wf_write Posix.oracleEnv_wf_readO
     Posix.oracleEnv_wf_readE none 2 ((none, []) : Posix.OWorld) false true false none
     none none ⟨[(.sOut, .eof)], ⟨false, true, false⟩, ⟨false, true, false⟩, none⟩
     (by decide) (fun q h => by cases h)⟩

/-- Claim C9: the usage contract is checked eagerly.  `communicate` succeeds
exactly when stdin presence matches input presence; the inconsistent
combinations (stdin with no payload, payload with no stdin) panic before any
I/O, and a consistent call builds the communicator with no limits set. -/

theorem c9_eager_contract_check (stdin stdout stderr : Bool)
    (input_data : Option (List Nat)) (msgs : List Worker.Msg) :
    communicate stdin stdout stderr input_data msgs =
      (if stdin = input_data.isSome
       then some ⟨⟨msgs, ⟨stdin, stdout, stderr⟩, ⟨false, stdout, stderr⟩, none⟩,
         none, none⟩
       else none) := by
  cases stdin <;> cases input_data <;> rfl

/-- Claim C10: a reader worker thread only ever sends Data messages with
non-empty chunks — a zero-length read is matched first and becomes an EOF
message — so the consumer loop fed by `read_and_transmit` never trips its
`assert!(data.len() != 0)`. -/

theorem c10_nonempty_data_messages (ident : Worker.StreamIdent)
    (steps : List Worker.ReadStep) :
    Worker.msgsDataNonempty (Worker.read_and_transmit ident steps) = true ∧
    ∀ (lim budget : Option Nat) (helpers : Worker.StreamSet)
      (l : Option (Worker.StreamIdent × List Nat)) (o e : List Nat),
      (Worker.wreadLoop lim (Worker.read_and_transmit ident steps) budget helpers l o
        e).outcome ≠ .panicked .emptyData :=
  ⟨Worker.read_and_transmit_data_nonempty ident steps,
   fun lim budget helpers l o e =>
     Worker.wreadLoop_no_emptyData lim _ budget helpers l o e
       (Worker.read_and_transmit_data_nonempty ident steps)⟩

end Subprocess

